import Mathlib

/-!
# stringid: shallow embedding of `stringid.c`

The pool of `stringid.c` is embedded with explicit state passing.

* A page (`struct stringid_page`) is a pair of total functions: `header`
  (section index to next section index) and `data` (section index and byte
  index to byte).  Bytes and 16-bit header entries are natural numbers.
* `struct stringid_index` keeps `freeslot` as an integer (the C field is a
  signed `int` and the code subtracts from it without a guard), `freelist`
  as a natural number and the page pointer as an `Option` (`none` is `NULL`).
* Every function that can abort (a failed `assert`, a `NULL` or out-of-bounds
  access) or loop forever returns an `Option`; `none` means "no result".
* `malloc` returns a block with unspecified contents: the functions that may
  allocate a page take the contents of that block as the argument `mem`.
* A caller's byte string `(str, sz)` is a list of bytes; `sz` is its length.
-/

namespace stringid

/-! ## Constants and data model -/

def STRING_MAXPAGE : Nat := 256

def STRING_SECTION : Nat := 14

def EOS_PADDING : Nat := 0xff

def EOS_FREE : Nat := 0xfe

/-- Number of sections of a page (`header[0x10000]`).  A walk along `header`
that has not met a self-pointer after this many steps is inside a cycle and
never ends, so this is the step budget of every header walk. -/
def SECTIONS : Nat := 0x10000

structure stringid_page where
  header : Nat → Nat
  data : Nat → Nat → Nat

structure stringid_index where
  freeslot : Int
  freelist : Nat
  p : Option stringid_page

structure stringpool where
  pages : Nat
  p : Nat → stringid_index

/-- Assignment to the entry `S->p[page]` of the pool. -/
def set_index (S : stringpool) (page : Nat) (idx : stringid_index) : stringpool :=
  { S with p := fun i => if i = page then idx else S.p i }

/-- Assignment `p->header[sec] = v`. -/
def set_header (p : stringid_page) (sec v : Nat) : stringid_page :=
  { p with header := fun s => if s = sec then v else p.header s }

/-- Assignment `p->data[sec][i] = v`. -/
def set_data (p : stringid_page) (sec i v : Nat) : stringid_page :=
  { p with data := fun s j => if s = sec ∧ j = i then v else p.data s j }

/-- Call `memcpy(&p->data[sec][off], src, |src|)`. -/
def memcpy_to (p : stringid_page) (sec off : Nat) (src : List Nat) : stringid_page :=
  { p with data := fun s j =>
      if s = sec ∧ off ≤ j ∧ j < off + src.length then src.getD (j - off) 0 else p.data s j }

/-- Call `memcpy(dp->data[dsec], bytes, STRING_SECTION)` where `bytes` are the
14 bytes of a source section. -/
def memcpy_section (dp : stringid_page) (dsec : Nat) (bytes : Nat → Nat) : stringid_page :=
  { dp with data := fun s j => if s = dsec ∧ j < STRING_SECTION then bytes j else dp.data s j }

/-- Test `memcmp(str, &d[off], l) == 0`. -/
def memcmp_eq (str : List Nat) (d : Nat → Nat) (off l : Nat) : Bool :=
  (List.range l).all (fun j => decide (str.getD j 0 = d (off + j)))

/-- Call `memcpy(&buf[dst], &d[off], l)` on a caller buffer. -/
def memcpy_out (buf : Nat → Nat) (dst : Nat) (d : Nat → Nat) (off l : Nat) : Nat → Nat :=
  fun j => if dst ≤ j ∧ j < dst + l then d (off + (j - dst)) else buf j

def padding_tag (p : stringid_page) (sec : Nat) : Nat :=
  p.data sec (STRING_SECTION - 1)

def padding_free (p : stringid_page) (sec : Nat) : stringid_page :=
  set_data p sec (STRING_SECTION - 1) EOS_FREE

def get_number (p : stringid_page) (sec : Nat) : Nat :=
  (p.data sec 0 ||| (p.data sec 1 <<< 8)) % 0x10000

def set_number (p : stringid_page) (sec v : Nat) : stringid_page :=
  set_data (set_data p sec 0 (v &&& 0xff)) sec 1 ((v >>> 8) &&& 0xff)

/-- The loop `for (i=0;i<n;i++) tmp->header[i] = i + 1;` of `page_init`, one
assignment per round. -/
def page_init_loop (tmp : stringid_page) : Nat → stringid_page
  | 0 => tmp
  | i + 1 => set_header (page_init_loop tmp i) i (i + 1)

/-- The page after the `n` rounds of `page_init_loop`, written without
recursion so that it can be evaluated for `n = 0xffff`
(`page_init_loop_eq_fill` proves the two equal). -/
def page_init_fill (tmp : stringid_page) (n : Nat) : stringid_page :=
  { tmp with header := fun i => if i < n then i + 1 else tmp.header i }

/-- Function `page_init`; `tmp` is the block the index points to. -/
def page_init (tmp : stringid_page) : stringid_index :=
  let tmp1 := page_init_fill tmp (0x10000 - 1)
  let tmp2 := set_header tmp1 0xffff 0xffff
  let tmp3 := padding_free tmp2 0xffff
  { freeslot := 0x10000, freelist := 0, p := some tmp3 }

/-- Function `new_page`; `mem` is the block `malloc` returns.  Both asserts
abort. -/
def new_page (S : stringpool) (mem : stringid_page) (page : Nat) : Option stringpool :=
  if page < STRING_MAXPAGE then
    match (S.p page).p with
    | some _ => none
    | none =>
      let S1 : stringpool :=
        set_index S page (page_init mem)
      if page + 1 > S1.pages then some { S1 with pages := page + 1 } else some S1
  else none

def stringid_newpool : stringpool :=
  { pages := 0, p := fun _ => { freeslot := 0, freelist := 0, p := none } }

/-- The walk `while (p->header[sec] != sec) { acc += step; sec = p->header[sec]; }`
which `string_len` (acc 11, step 14), `stringid_release` and
`count_slots_in_header` (acc 1, step 1) each contain.  Returns the
terminal section and the accumulator. -/
def chain_walk (header : Nat → Nat) (step : Nat) : Nat → Nat → Nat → Option (Nat × Nat)
  | 0, _, _ => none
  | fuel + 1, sec, acc =>
    if header sec ≠ sec then chain_walk header step fuel (header sec) (acc + step)
    else some (sec, acc)

/-- The scan `for (i=start;i>0;i--) if (d[i] == 0) break;` of `string_len`;
returns the final `i`. -/
def scan_nul (d : Nat → Nat) : Nat → Nat
  | 0 => 0
  | i + 1 => if d (i + 1) = 0 then i + 1 else scan_nul d i

def string_len (p : stringid_page) (sec : Nat) : Option Int :=
  match chain_walk p.header STRING_SECTION SECTIONS sec (STRING_SECTION - 3) with
  | none => none
  | some (last, len) =>
    if padding_tag p last = 0 then some (len : Int)
    else if padding_tag p last = EOS_PADDING then
      let i := scan_nul (p.data last) (STRING_SECTION - 2)
      some ((len : Int) - ((STRING_SECTION : Int) - 1 - (i : Int)))
    else some (-1)

/-- The loop `while ((sec = p->header[sec]), l >= STRING_SECTION)` of
`string_eq` together with the final `return memcmp(str, p->data[sec], l) != 0`.
`l` falls by 14 in every round, so a budget above `l` is never used up. -/
def string_eq_loop (p : stringid_page) : Nat → Nat → List Nat → Nat → Option Bool
  | 0, _, _, _ => none
  | fuel + 1, sec, str, l =>
    let sec1 := p.header sec
    if l ≥ STRING_SECTION then
      if memcmp_eq str (p.data sec1) 0 STRING_SECTION then
        string_eq_loop p fuel sec1 (str.drop STRING_SECTION) (l - STRING_SECTION)
      else some false
    else some (!(memcmp_eq str (p.data sec1) 0 l))

def string_eq (p : stringid_page) (sec : Nat) (str : List Nat) (l : Nat) : Option Bool :=
  if l ≤ STRING_SECTION - 2 then some (memcmp_eq str (p.data sec) 2 l)
  else if memcmp_eq str (p.data sec) 2 (STRING_SECTION - 2) then
    string_eq_loop p (l + 1) sec (str.drop (STRING_SECTION - 2)) (l - (STRING_SECTION - 2))
  else some false

/-- The loop of `string_cp` with the final `memcpy(str, p->data[sec], l)`;
`dst` is the offset the pointer `str` has reached in the buffer. -/
def string_cp_loop (p : stringid_page) : Nat → Nat → (Nat → Nat) → Nat → Nat → Option (Nat → Nat)
  | 0, _, _, _, _ => none
  | fuel + 1, sec, buf, dst, l =>
    let sec1 := p.header sec
    if l ≥ STRING_SECTION then
      string_cp_loop p fuel sec1 (memcpy_out buf dst (p.data sec1) 0 STRING_SECTION)
        (dst + STRING_SECTION) (l - STRING_SECTION)
    else some (memcpy_out buf dst (p.data sec1) 0 l)

/-- Function `string_cp`; a negative `l` reaches `memcpy` as a huge `size_t`
and gives no result. -/
def string_cp (p : stringid_page) (sec : Nat) (buf : Nat → Nat) (l : Int) : Option (Nat → Nat) :=
  if l < 0 then none
  else if l ≤ (STRING_SECTION : Int) - 2 then some (memcpy_out buf 0 (p.data sec) 2 l.toNat)
  else
    string_cp_loop p (l.toNat + 1) sec (memcpy_out buf 0 (p.data sec) 2 (STRING_SECTION - 2))
      (STRING_SECTION - 2) (l.toNat - (STRING_SECTION - 2))

/-- Function `stringid_eq`: `string_len(pp, sec) == sz && string_eq(pp, sec, str, sz)`. -/
def stringid_eq (S : stringpool) (id : Nat) (str : List Nat) : Option Bool :=
  let page := id >>> 16
  let sec := id &&& 0xffff
  if page < S.pages then
    match (S.p page).p with
    | none => some false
    | some pp =>
      match string_len pp sec with
      | none => none
      | some len =>
        if len = (str.length : Int) then string_eq pp sec str str.length else some false
  else none

/-- Function `string_continuous`. -/
def string_continuous (header : Nat → Nat) : Nat → Nat → Option Bool
  | 0, _ => none
  | fuel + 1, sec =>
    let next := header sec
    if next = sec then some true
    else if next ≠ sec + 1 then some false
    else string_continuous header fuel next

/-- What `stringid_str` returns: a pointer to `&pp->data[sec][off]` of a page,
or the caller's buffer. -/
inductive str_ptr where
  | in_page (page sec off : Nat) : str_ptr
  | in_buffer : str_ptr
  deriving DecidableEq

/-- Function `stringid_str`: returns the pointer, the buffer after the call and
the value stored into `*sz`; `bufsz` is `*sz` on entry. -/
def stringid_str (S : stringpool) (id : Nat) (buffer : Nat → Nat) (bufsz : Int) :
    Option (str_ptr × (Nat → Nat) × Int) :=
  let page := id >>> 16
  let sec := id &&& 0xffff
  if page < S.pages then
    match (S.p page).p with
    | none => none
    | some pp =>
      match string_len pp sec with
      | none => none
      | some len =>
        match string_continuous pp.header SECTIONS sec with
        | none => none
        | some true => some (str_ptr.in_page page sec 2, buffer, len)
        | some false =>
          if bufsz > len then
            match string_cp pp sec buffer len with
            | none => none
            | some b => some (str_ptr.in_buffer, Function.update b len.toNat 0, len)
          else if bufsz > 0 then
            match string_cp pp sec buffer (bufsz - 1) with
            | none => none
            | some b => some (str_ptr.in_buffer, Function.update b (bufsz - 1).toNat 0, len)
          else some (str_ptr.in_buffer, buffer, len)
  else none

/-- The byte `ptr[i]` of a pointer returned by `stringid_str`.  The array
`data[0x10000][14]` is one run of memory, so the byte `i` places after
`data[sec][off]` is the byte at flat offset `14*sec + off + i`. -/
def deref (S : stringpool) (buffer : Nat → Nat) (ptr : str_ptr) (i : Nat) : Option Nat :=
  match ptr with
  | str_ptr.in_buffer => some (buffer i)
  | str_ptr.in_page page sec off =>
    match (S.p page).p with
    | none => none
    | some pp =>
      let a := STRING_SECTION * sec + off + i
      some (pp.data (a / STRING_SECTION) (a % STRING_SECTION))

def count_slots (sz : Nat) : Nat :=
  (sz + 3) / STRING_SECTION

/-- The scan `for (i=S->pages-1;i>=0;i--)` of `find_page`.  The first argument
is `i+1`; the second is the current value of the local `pp`.  Returns the
pool, the final `i` and the final `pp`. -/
def find_page_loop (S : stringpool) (mem : stringid_page) (n : Nat) :
    Nat → Option stringid_page → Option (stringpool × Int × Option stringid_page)
  | 0, pp => some (S, -1, pp)
  | i + 1, _ =>
    match (S.p i).p with
    | none =>
      match new_page S mem i with
      | none => none
      | some S1 => some (S1, (i : Int), (S1.p i).p)
    | some pg =>
      if (S.p i).freeslot ≥ (n : Int) then some (S, (i : Int), some pg)
      else find_page_loop S mem n i (some pg)

/-- Function `find_page`. -/
def find_page (S : stringpool) (mem : stringid_page) (n : Nat) : Option (stringpool × Int) :=
  match find_page_loop S mem n S.pages none with
  | none => none
  | some (S1, i, pp) =>
    match pp with
    | some _ => some (S1, i)
    | none =>
      match new_page S1 mem S1.pages with
      | none => none
      | some S2 => some (S2, (S1.pages : Int))

/-- The loop `for (i=start;i<STRING_SECTION;i++) pp->data[sec][i] = EOS_PADDING;`
of `stringid_create`. -/
def create_pad (pp : stringid_page) (sec start : Nat) : stringid_page :=
  (List.range' start (STRING_SECTION - start)).foldl (fun q i => set_data q sec i EOS_PADDING) pp

/-- The loop `for (;;)` of the long path of `stringid_create`.  Arguments: the
page, the current `sec`, the counter `s`, the bytes still to store.  Returns
the page, the new `idx->freelist` and the final `s`.  The number of bytes left
falls by 14 in every round, so a budget above it is never used up. -/
def create_loop : Nat → stringid_page → Nat → Nat → List Nat → Option (stringid_page × Nat × Nat)
  | 0, _, _, _, _ => none
  | fuel + 1, pp, sec, s, str =>
    let sec1 := pp.header sec
    let s1 := s + 1
    if str.length < STRING_SECTION then
      let pp1 := memcpy_to pp sec1 0 str
      let pp2 := set_data pp1 sec1 str.length 0
      let pp3 := create_pad pp2 sec1 (str.length + 1)
      some (set_header pp3 sec1 sec1, pp3.header sec1, s1)
    else
      create_loop fuel (memcpy_to pp sec1 0 (str.take STRING_SECTION)) sec1 s1
        (str.drop STRING_SECTION)

/-- The part of `stringid_create` after `find_page`: everything the function
does to the page it picked (`idx` is `&S->p[page]`, `pp` is `idx->p`).
Returns the new contents of `*idx`. -/
def create_in_page (idx : stringid_index) (pp : stringid_page) (str : List Nat) :
    Option stringid_index :=
  let sec := idx.freelist
  let pp1 := set_data (set_data pp sec 0 0) sec 1 0
  if str.length ≤ STRING_SECTION - 3 then
    let pp2 := memcpy_to pp1 sec 2 str
    let pp3 := set_data pp2 sec (2 + str.length) 0
    some { freeslot := idx.freeslot - 1, freelist := pp3.header sec,
           p := some (set_header pp3 sec sec) }
  else
    let pp2 := memcpy_to pp1 sec 2 (str.take (STRING_SECTION - 2))
    match create_loop (str.length + 1) pp2 sec 1 (str.drop (STRING_SECTION - 2)) with
    | none => none
    | some (pp3, fl, s) =>
      some { freeslot := idx.freeslot - (s : Int), freelist := fl, p := some pp3 }

/-- Function `stringid_create`.  A negative page index from `find_page`
indexes `S->p` out of bounds and gives no result.  The id is
`page << 16 | sec`. -/
def stringid_create (S : stringpool) (mem : stringid_page) (str : List Nat) :
    Option (stringpool × Nat) :=
  match find_page S mem (count_slots str.length) with
  | none => none
  | some (S1, pagei) =>
    if pagei < 0 then none
    else
      let page := pagei.toNat
      let idx := S1.p page
      match idx.p with
      | none => none
      | some pp =>
        match create_in_page idx pp str with
        | none => none
        | some idx1 =>
          some (set_index S1 page idx1,
                (page <<< 16) ||| idx.freelist)

/-- Function `stringid_release`. -/
def stringid_release (S : stringpool) (id : Nat) : Option stringpool :=
  let page := id >>> 16
  let sec := id &&& 0xffff
  if page < S.pages then
    let idx := S.p page
    match idx.p with
    | none => none
    | some pp =>
      let count := get_number pp sec
      if count = 0 then
        let freelist := idx.freelist
        match chain_walk pp.header 1 SECTIONS sec 1 with
        | none => none
        | some (last, n) =>
          let pp1 := if idx.freeslot = 0 then padding_free pp last else set_header pp last freelist
          let idx1 : stringid_index :=
            { freeslot := idx.freeslot + (n : Int), freelist := sec, p := some pp1 }
          some (set_index S page idx1)
      else
        let idx1 : stringid_index := { idx with p := some (set_number pp sec (count - 1)) }
        some (set_index S page idx1)
  else none

/-- Function `count_slots_in_header`. -/
def count_slots_in_header (p : stringid_page) (sec : Nat) : Option Nat :=
  match chain_walk p.header 1 SECTIONS sec 1 with
  | none => none
  | some (_, n) => some n

/-- The loop `for (i=0;i<n;i++)` of `stringid_clone`.  `sp` is the source page
when it is another block than the destination page, `none` when `sp` and `dp`
point to the same block (the reads then see the writes).  Returns the
destination page, `dsec` and `lastsec`. -/
def clone_loop (sp : Option stringid_page) :
    Nat → stringid_page → Nat → Nat → Nat → stringid_page × Nat × Nat
  | 0, dp, dsec, _, lastsec => (dp, dsec, lastsec)
  | n + 1, dp, dsec, sec, _ =>
    let src := match sp with
      | some q => q
      | none => dp
    let dp1 := memcpy_section dp dsec (src.data sec)
    clone_loop sp n dp1 (dp1.header dsec) (src.header sec) dsec

/-- Function `stringid_clone`. -/
def stringid_clone (S : stringpool) (mem : stringid_page) (id : Nat) :
    Option (stringpool × Nat) :=
  let page := id >>> 16
  let sec := id &&& 0xffff
  if page < S.pages then
    let idx := S.p page
    match idx.p with
    | none => none
    | some pp =>
      let count := get_number pp sec
      if count < 0xffff then
        let idx1 : stringid_index := { idx with p := some (set_number pp sec (count + 1)) }
        some (set_index S page idx1, id)
      else
        match count_slots_in_header pp sec with
        | none => none
        | some n =>
          match find_page S mem n with
          | none => none
          | some (S1, dpagei) =>
            if dpagei < 0 then none
            else
              let dpage := dpagei.toNat
              let didx := S1.p dpage
              let dsec := didx.freelist
              match didx.p with
              | none => none
              | some dp =>
                let rid := (dpage <<< 16) ||| dsec
                let r := clone_loop (if dpage = page then none else some pp) n dp dsec sec dsec
                let dp1 := set_header r.1 r.2.2 r.2.2
                let dp2 := set_data (set_data dp1 dsec 0 0) dsec 1 0
                let didx1 : stringid_index :=
                  { freeslot := didx.freeslot - (n : Int), freelist := r.2.1, p := some dp2 }
                some (set_index S1 dpage didx1, rid)
  else none

/-! ## Notions used to state the properties -/

/-- Number of sections `stringid_create` links for a string of `sz` bytes.
The two refcount bytes, the `sz` payload bytes and the NUL behind them are
laid out one after another, 14 to a section: 1 section up to `sz = 11`, and
`(sz - 12) / 14 + 2` sections from `sz = 12` on (`chain_sections_long`). -/
def chain_sections (sz : Nat) : Nat :=
  (sz + 2) / 14 + 1

/-- The first `k` sections met from `sec` along `header`: `sec`, `header[sec]`,
`header[header[sec]]`, ... -/
def sections_from (header : Nat → Nat) (sec k : Nat) : List Nat :=
  (List.range k).map (fun i => header^[i] sec)

/-! ## Concrete inputs of the examples -/

/-- A block of memory that holds only zero bytes. -/
def zero_mem : stringid_page :=
  { header := fun _ => 0, data := fun _ _ => 0 }

/-- The bytes of "Hello World", the string `main` creates. -/
def hello : List Nat := [72, 101, 108, 108, 111, 32, 87, 111, 114, 108, 100]

/-- The bytes of "abcdefghijklmno". -/
def abc15 : List Nat := [97, 98, 99, 100, 101, 102, 103, 104, 105, 106, 107, 108, 109, 110, 111]

/-- The bytes of "abcdefghijklmnX": `abc15` with another last byte. -/
def abc15X : List Nat := [97, 98, 99, 100, 101, 102, 103, 104, 105, 106, 107, 108, 109, 110, 88]

/-- The pool after `stringid_create(S, "Hello World", 11)` in a new pool whose
page block is `zero_mem` (the first statement of `main`). -/
def hello_pool : stringpool :=
  match stringid_create stringid_newpool zero_mem hello with
  | some r => r.1
  | none => stringid_newpool

/-- Page 0 of `hello_pool`. -/
def hello_page : stringid_page :=
  match (hello_pool.p 0).p with
  | some pp => pp
  | none => zero_mem

/-- The `i`-th payload byte of the chain that starts at `sec`: byte `i+2` of
the chain's bytes, 14 to a section, the sections taken along `header`. -/
def chain_byte (p : stringid_page) (sec i : Nat) : Nat :=
  p.data (p.header^[(i + 2) / 14] sec) ((i + 2) % 14)

/-- A string of 917493 bytes 'a': with the two refcount bytes and the NUL it
fills the 65536 sections of a page exactly (`12 + 14 * 65534 + 5` bytes). -/
def big : List Nat := List.replicate 917493 97

/-- The pool `S` with the refcount stored at `data[sec][0..1]` of page `page`
set to `r`; all else as in `S`. -/
def with_refcount (S : stringpool) (page sec r : Nat) : stringpool :=
  match (S.p page).p with
  | none => S
  | some pp =>
    set_index S page
      { freeslot := (S.p page).freeslot, freelist := (S.p page).freelist,
        p := some (set_number pp sec r) }

/-- The pool after `n` successive calls `stringid_clone(S, id)`, with the ids
the calls returned. -/
def clone_times (mem : stringid_page) (id : Nat) : Nat → stringpool → Option (stringpool × List Nat)
  | 0, S => some (S, [])
  | n + 1, S =>
    match stringid_clone S mem id with
    | none => none
    | some r =>
      match clone_times mem id n r.1 with
      | none => none
      | some q => some (q.1, r.2 :: q.2)

/-- The pool after `n` successive calls `stringid_release(S, id)`. -/
def release_times (id : Nat) : Nat → stringpool → Option stringpool
  | 0, S => some S
  | n + 1, S =>
    match stringid_release S id with
    | none => none
    | some S1 => release_times id n S1

/-- The first `k` sections of the free list of page `i` (none when the page
is not allocated). -/
def free_sections (S : stringpool) (i k : Nat) : List Nat :=
  match (S.p i).p with
  | none => []
  | some q => sections_from q.header (S.p i).freelist k

/-- The pool `hello_pool` after 0xFFFF clones of its string: the stored
refcount of id 0 is 0xFFFF. -/
def sat_pool : stringpool := with_refcount hello_pool 0 0 0xffff

/-- Page 0 of `sat_pool`. -/
def sat_page : stringid_page :=
  match (sat_pool.p 0).p with
  | some pp => pp
  | none => zero_mem

/-- The chain of `k` consecutive sections `a, a+1, ..., a+k-1` is linked in
this order, ends with a self-pointer and has stored refcount bytes 0. -/
def chain_intact (pp : stringid_page) (a k : Nat) : Prop :=
  0 < k ∧ (∀ i, i < k - 1 → pp.header (a + i) = a + i + 1) ∧
  pp.header (a + (k - 1)) = a + (k - 1) ∧ pp.data a 0 = 0 ∧ pp.data a 1 = 0

/-- One `stringid_create` for each string of the list, in order; returns the
pool and the ids in the order of creation. -/
def create_all (mem : stringid_page) : List (List Nat) → stringpool → Option (stringpool × List Nat)
  | [], S => some (S, [])
  | s :: rest, S =>
    match stringid_create S mem s with
    | none => none
    | some r =>
      match create_all mem rest r.1 with
      | none => none
      | some q => some (q.1, r.2 :: q.2)

/-- One `stringid_release` for each id of the list, in order. -/
def release_all : List Nat → stringpool → Option stringpool
  | [], S => some S
  | id :: rest, S =>
    match stringid_release S id with
    | none => none
    | some S1 => release_all rest S1

/-- The 26 bytes "abcdefghijklmnopqrstuvwxyz": 12 bytes for the head and
exactly 14 more. -/
def abc26 : List Nat :=
  [97, 98, 99, 100, 101, 102, 103, 104, 105, 106, 107, 108, 109, 110, 111, 112, 113, 114, 115,
   116, 117, 118, 119, 120, 121, 122]

/-- The pool `find_page` hands to the first `stringid_create` of a new pool:
page 0 has just been allocated (from the block `zero_mem`) and initialised. -/
def init_pool : stringpool :=
  { pages := 1, p := fun i => if i = 0 then page_init zero_mem else stringid_newpool.p i }

/-- Page 0 of `init_pool`. -/
def init_page : stringid_page :=
  match (init_pool.p 0).p with
  | some pp => pp
  | none => zero_mem

/-- A pool with a chain that is not contiguous: "x" and "y" are created in a
new pool, "x" is released, "abcdefghijklmno" is created; it takes the released
section 0 and section 2, so `header[0] == 2`.  Its id is 0. -/
def frag_pool : stringpool :=
  match ((stringid_create stringid_newpool zero_mem [120]).bind fun r1 =>
      (stringid_create r1.1 zero_mem [121]).bind fun r2 =>
        (stringid_release r2.1 r1.2).bind fun S3 =>
          stringid_create S3 zero_mem abc15) with
  | some r => r.1
  | none => stringid_newpool

/-- Page 0 of `frag_pool`. -/
def frag_page : stringid_page :=
  match (frag_pool.p 0).p with
  | some pp => pp
  | none => zero_mem

/-- A call that changes the pool, other than `stringid_release`; `mem` is the
block `malloc` would return to the call. -/
inductive pool_op where
  | create (mem : stringid_page) (str : List Nat) : pool_op
  | clone (mem : stringid_page) (id : Nat) : pool_op

/-- Whether `stringid_clone(S, id)` takes the path that copies the chain: the
test `count < 0xffff` fails. -/
def clone_copies (S : stringpool) (id : Nat) : Bool :=
  match (S.p (id >>> 16)).p with
  | none => false
  | some pp => !decide (get_number pp (id &&& 0xffff) < 0xffff)

/-- The calls of the list in order.  Returns the pool and the ids of the
chains the calls produced: the id of each `stringid_create` and of each
`stringid_clone` that copied the chain. -/
def run_ops : List pool_op → stringpool → Option (stringpool × List Nat)
  | [], S => some (S, [])
  | pool_op.create mem str :: rest, S =>
    match stringid_create S mem str with
    | none => none
    | some r =>
      match run_ops rest r.1 with
      | none => none
      | some q => some (q.1, r.2 :: q.2)
  | pool_op.clone mem id :: rest, S =>
    match stringid_clone S mem id with
    | none => none
    | some r =>
      match run_ops rest r.1 with
      | none => none
      | some q => some (q.1, if clone_copies S id then r.2 :: q.2 else q.2)

/-- The free list from `f` on is the run `f, f+1, ..., 0xffff`, as
`page_init` builds it. -/
def free_run (h : Nat → Nat) (f : Nat) : Prop :=
  f ≤ 0xffff ∧ (∀ x, f ≤ x → x < 0xffff → h x = x + 1) ∧ h 0xffff = 0xffff

/-- The chain from `a` is contiguous: `n` links `header[s] == s+1`, then the
self-pointer of the terminal section. -/
def contiguous (h : Nat → Nat) (a : Nat) : Prop :=
  ∃ n, a + n < 0x10000 ∧ (∀ i, i < n → h (a + i) = a + i + 1) ∧ h (a + n) = a + n

/-- State of a pool that only `stringid_create` and `stringid_clone` were
called on: no page yet, or page 0 alone with its free list still a run. -/
def fresh (S : stringpool) : Prop :=
  (S.pages = 0 ∧ (S.p 0).p = none) ∨
  (S.pages = 1 ∧ ∃ pp, (S.p 0).p = some pp ∧ free_run pp.header (S.p 0).freelist)

/-- The id names a contiguous chain of an allocated page of `S`. -/
def good_id (S : stringpool) (id : Nat) : Prop :=
  id >>> 16 < S.pages ∧
  ∃ pp, (S.p (id >>> 16)).p = some pp ∧ contiguous pp.header (id &&& 0xffff)

/-- The pool after `stringid_create(S, "abcdefghijklmnopqrstuvwxyz", 26)` in a
new pool; the string has id 0 and the sections 0, 1, 2. -/
def abc26_pool : stringpool :=
  match stringid_create stringid_newpool zero_mem abc26 with
  | some r => r.1
  | none => stringid_newpool

/-- Page 0 of `abc26_pool`. -/
def abc26_page : stringid_page :=
  match (abc26_pool.p 0).p with
  | some pp => pp
  | none => zero_mem

/-- A create, 0xFFFF clones of its id, which bring the stored refcount to
0xFFFF, and one more clone, which copies the chain. -/
def copy_ops : List pool_op :=
  pool_op.create zero_mem abc26 ::
    (List.replicate 0xffff (pool_op.clone zero_mem 0) ++ [pool_op.clone zero_mem 0])

/-- The pool after `copy_ops`. -/
def copy_pool : stringpool :=
  match stringid_clone (with_refcount abc26_pool 0 0 0xffff) zero_mem 0 with
  | some r => r.1
  | none => stringid_newpool

/-- A string of 917479 bytes 'a': its chain takes 65535 sections, so it leaves
one section of a new page free. -/
def near_full : List Nat := List.replicate 917479 97


/-! ## Basic facts -/

theorem page_init_loop_eq_fill (tmp : stringid_page) (n : Nat) :
    page_init_loop tmp n = page_init_fill tmp n := by
  induction n with
  | zero => simp [page_init_loop, page_init_fill]
  | succ n ih =>
    simp only [page_init_loop, ih, page_init_fill, set_header]
    congr 1
    funext i
    by_cases h1 : i = n
    · subst h1; simp
    · by_cases h2 : i < n
      · have : i < n + 1 := by omega
        simp [h1, h2, this]
      · have : ¬ i < n + 1 := by omega
        simp [h1, h2, this]

theorem id_or_eq_add (page sec : Nat) (h : sec < 0x10000) :
    (page <<< 16) ||| sec = page * 0x10000 + sec := by
  have := Nat.mul_add_lt_is_or (show sec < 2 ^ 16 by simpa using h) page
  rw [Nat.shiftLeft_eq, Nat.mul_comm, ← this]

theorem id_page (page sec : Nat) (h : sec < 0x10000) :
    ((page <<< 16) ||| sec) >>> 16 = page := by
  rw [id_or_eq_add page sec h, Nat.shiftRight_eq_div_pow]
  omega

theorem id_sec (page sec : Nat) (h : sec < 0x10000) :
    ((page <<< 16) ||| sec) &&& 0xffff = sec := by
  rw [id_or_eq_add page sec h]
  have := Nat.and_pow_two_sub_one_eq_mod (page * 0x10000 + sec) 16
  simp only [Nat.reducePow, Nat.add_one_sub_one] at this
  rw [show (0xffff : Nat) = 65536 - 1 from rfl, this]
  omega

theorem and_ff (v : Nat) : v &&& 0xff = v % 256 := by
  have := Nat.and_pow_two_sub_one_eq_mod v 8
  simpa using this

theorem get_number_eq (p : stringid_page) (sec : Nat)
    (h0 : p.data sec 0 < 256) (h1 : p.data sec 1 < 256) :
    get_number p sec = p.data sec 0 + 256 * p.data sec 1 := by
  unfold get_number
  have := Nat.mul_add_lt_is_or (show p.data sec 0 < 2 ^ 8 by simpa using h0) (p.data sec 1)
  rw [Nat.lor_comm, Nat.shiftLeft_eq, Nat.mul_comm, ← this]
  norm_num
  omega

theorem get_set_number (p : stringid_page) (sec v : Nat) (hv : v < 0x10000) :
    get_number (set_number p sec v) sec = v := by
  have e0 : (set_number p sec v).data sec 0 = v % 256 := by
    simp [set_number, set_data, and_ff]
  have e1 : (set_number p sec v).data sec 1 = v / 256 % 256 := by
    simp [set_number, set_data, and_ff, Nat.shiftRight_eq_div_pow]
  rw [get_number_eq _ _ (by rw [e0]; omega) (by rw [e1]; omega), e0, e1]
  omega

theorem create_pad_header (pp : stringid_page) (sec start : Nat) :
    (create_pad pp sec start).header = pp.header := by
  unfold create_pad
  generalize (List.range' start (STRING_SECTION - start)) = l
  induction l generalizing pp with
  | nil => rfl
  | cons a l ih => simp only [List.foldl_cons]; rw [ih]; rfl

theorem foldl_pad_data (sec : Nat) : ∀ (n a : Nat) (pp : stringid_page) (s j : Nat),
    ((List.range' a n).foldl (fun q i => set_data q sec i EOS_PADDING) pp).data s j
      = if s = sec ∧ a ≤ j ∧ j < a + n then EOS_PADDING else pp.data s j := by
  intro n
  induction n with
  | zero =>
    intro a pp s j
    have : ¬ (s = sec ∧ a ≤ j ∧ j < a + 0) := by omega
    simp only [List.range', List.foldl_nil, this, if_false]
  | succ n ih =>
    intro a pp s j
    simp only [List.range', List.foldl_cons]
    rw [ih]
    by_cases h1 : s = sec
    · by_cases h2 : j = a
      · subst h1; subst h2
        have : ¬ (j + 1 ≤ j) := by omega
        simp [set_data, this]
      · have e : (a + 1 ≤ j ∧ j < a + 1 + n) ↔ (a ≤ j ∧ j < a + (n + 1)) := by omega
        simp [set_data, h1, h2, e]
    · simp [set_data, h1]

theorem create_pad_data (pp : stringid_page) (sec start s j : Nat) (hs : start ≤ 14) :
    (create_pad pp sec start).data s j
      = if s = sec ∧ start ≤ j ∧ j < 14 then EOS_PADDING else pp.data s j := by
  unfold create_pad
  rw [foldl_pad_data]
  have e : start + (STRING_SECTION - start) = 14 := by simp [STRING_SECTION]; omega
  rw [e]

@[simp] theorem set_index_pages (S : stringpool) (page : Nat) (idx : stringid_index) :
    (set_index S page idx).pages = S.pages := rfl

@[simp] theorem set_index_p_same (S : stringpool) (page : Nat) (idx : stringid_index) :
    (set_index S page idx).p page = idx := by
  simp [set_index]

theorem set_index_p_ne (S : stringpool) (page i : Nat) (idx : stringid_index) (h : i ≠ page) :
    (set_index S page idx).p i = S.p i := by
  simp [set_index, h]

@[simp] theorem set_data_header (p : stringid_page) (sec i v : Nat) :
    (set_data p sec i v).header = p.header := rfl

@[simp] theorem memcpy_to_header (p : stringid_page) (sec off : Nat) (src : List Nat) :
    (memcpy_to p sec off src).header = p.header := rfl

@[simp] theorem memcpy_section_header (p : stringid_page) (sec : Nat) (b : Nat → Nat) :
    (memcpy_section p sec b).header = p.header := rfl

@[simp] theorem set_header_data (p : stringid_page) (sec v : Nat) :
    (set_header p sec v).data = p.data := rfl

@[simp] theorem set_number_header (p : stringid_page) (sec v : Nat) :
    (set_number p sec v).header = p.header := rfl

@[simp] theorem padding_free_header (p : stringid_page) (sec : Nat) :
    (padding_free p sec).header = p.header := rfl

theorem getD_drop (l : List Nat) (n i : Nat) : (l.drop n).getD i 0 = l.getD (n + i) 0 := by
  simp [List.getD_eq_getElem?_getD, List.getElem?_drop]

theorem getD_take (l : List Nat) (n i : Nat) (h : i < n) : (l.take n).getD i 0 = l.getD i 0 := by
  simp [List.getD_eq_getElem?_getD, List.getElem?_take, h]

theorem create_loop_spec (h : Nat → Nat) : ∀ (fuel : Nat) (pp : stringid_page) (sec s : Nat)
    (str : List Nat), pp.header = h → str.length < fuel →
    (∀ i j, 1 ≤ i → i < j → j ≤ str.length / 14 + 1 → h^[i] sec ≠ h^[j] sec) →
    ∃ pp', create_loop fuel pp sec s str
        = some (pp', h (h^[str.length / 14 + 1] sec), s + (str.length / 14 + 1)) ∧
      pp'.header = (fun x => if x = h^[str.length / 14 + 1] sec then x else h x) ∧
      (∀ x, (∀ i, 1 ≤ i → i ≤ str.length / 14 + 1 → x ≠ h^[i] sec) → pp'.data x = pp.data x) ∧
      (∀ i j, 1 ≤ i → i ≤ str.length / 14 → j < 14 →
        pp'.data (h^[i] sec) j = str.getD (14 * (i - 1) + j) 0) ∧
      (∀ j, j < str.length % 14 →
        pp'.data (h^[str.length / 14 + 1] sec) j = str.getD (14 * (str.length / 14) + j) 0) ∧
      pp'.data (h^[str.length / 14 + 1] sec) (str.length % 14) = 0 ∧
      (∀ j, str.length % 14 < j → j < 14 →
        pp'.data (h^[str.length / 14 + 1] sec) j = 0xff) := by
  intro fuel
  induction fuel with
  | zero => intro pp sec s str _ hf; omega
  | succ fuel ih =>
    intro pp sec s str hh hf hnd
    by_cases hlen : str.length < 14
    · have hq : str.length / 14 = 0 := Nat.div_eq_of_lt hlen
      have hr : str.length % 14 = str.length := Nat.mod_eq_of_lt hlen
      rw [hq, hr]
      simp only [zero_add, Function.iterate_one, Nat.mul_zero]
      refine ⟨set_header (create_pad (set_data (memcpy_to pp (h sec) 0 str) (h sec) str.length 0)
        (h sec) (str.length + 1)) (h sec) (h sec), ?_, ?_, ?_, ?_, ?_, ?_, ?_⟩
      · simp [create_loop, hlen, STRING_SECTION, hh, create_pad_header]
      · funext x
        simp only [set_header, create_pad_header, set_data_header, memcpy_to_header, hh]
        by_cases hx : x = h sec
        · simp [hx]
        · simp [hx]
      · intro x hx
        have hx1 : x ≠ h sec := by simpa using hx 1 (le_refl 1) (le_refl 1)
        funext j
        simp [create_pad_data _ _ _ _ _ (show str.length + 1 ≤ 14 by omega), set_data,
          memcpy_to, hx1]
      · intro i j h1 h2; omega
      · intro j hj
        have h3 : ¬ (str.length + 1 ≤ j) := by omega
        have h4 : j ≠ str.length := by omega
        simp [create_pad_data _ _ _ _ _ (show str.length + 1 ≤ 14 by omega), set_data,
          memcpy_to, h3, h4, hj]
      · simp [create_pad_data _ _ _ _ _ (show str.length + 1 ≤ 14 by omega), set_data,
          memcpy_to]
      · intro j hj1 hj2
        have h3 : str.length + 1 ≤ j := by omega
        simp [create_pad_data _ _ _ _ _ (show str.length + 1 ≤ 14 by omega), h3, hj2,
          EOS_PADDING]
    · have hl' : (str.drop 14).length = str.length - 14 := by simp
      have hq : str.length / 14 = (str.drop 14).length / 14 + 1 := by rw [hl']; omega
      have hr : str.length % 14 = (str.drop 14).length % 14 := by rw [hl']; omega
      have it : ∀ i, h^[i] (h sec) = h^[i + 1] sec := fun i =>
        (Function.iterate_succ_apply h i sec).symm
      have hnd' : ∀ i j, 1 ≤ i → i < j → j ≤ (str.drop 14).length / 14 + 1 →
          h^[i] (h sec) ≠ h^[j] (h sec) := by
        intro i j h1 h2 h3
        rw [it, it]
        exact hnd (i + 1) (j + 1) (by omega) (by omega) (by omega)
      obtain ⟨pp', e1, e2, e3, e4, e5, e6, e7⟩ :=
        ih (memcpy_to pp (h sec) 0 (str.take 14)) (h sec) (s + 1) (str.drop 14)
          (by simp [hh]) (by rw [hl']; omega) hnd'
      rw [hq, hr]
      generalize hqq : (str.drop 14).length / 14 = q at *
      generalize hrr : (str.drop 14).length % 14 = r at *
      rw [it] at e1 e2 e5 e6 e7
      refine ⟨pp', ?_, e2, ?_, ?_, ?_, e6, e7⟩
      · have : create_loop (fuel + 1) pp sec s str
            = create_loop fuel (memcpy_to pp (h sec) 0 (str.take 14)) (h sec) (s + 1)
                (str.drop 14) := by
          simp [create_loop, hlen, STRING_SECTION, hh]
        rw [this, e1]
        simp only [Option.some.injEq, Prod.mk.injEq, true_and]
        omega
      · intro x hx
        have hx1 : x ≠ h sec := by simpa using hx 1 (le_refl 1) (by omega)
        rw [e3 x (fun i h1 h2 => by rw [it]; exact hx (i + 1) (by omega) (by omega))]
        funext j
        simp [memcpy_to, hx1]
      · intro i j h1 h2 hj
        by_cases hi : i = 1
        · subst hi
          have := e3 (h sec) (fun i h1 h2 => by
            rw [it]
            have := hnd 1 (i + 1) (le_refl 1) (by omega) (by omega)
            simpa using this)
          simp only [Function.iterate_one, Nat.sub_self, Nat.mul_zero, zero_add]
          rw [this]
          have hl14 : (List.take 14 str).length = 14 := by simp; omega
          simp only [memcpy_to, hl14, Nat.sub_zero]
          rw [if_pos (by simp; omega), getD_take _ _ _ hj]
        · have := e4 (i - 1) j (by omega) (by omega) hj
          rw [it, getD_drop] at this
          have e : i - 1 + 1 = i := by omega
          rw [e] at this
          rw [this]
          congr 1
          omega
      · intro j hj
        rw [e5 j hj, getD_drop]
        congr 1
        omega

theorem chain_sections_short (sz : Nat) (h : sz ≤ 11) : chain_sections sz = 1 := by
  unfold chain_sections; omega

theorem chain_sections_long (sz : Nat) (h : 12 ≤ sz) :
    chain_sections sz = (sz - 12) / 14 + 2 := by
  unfold chain_sections; omega

theorem sections_from_length (h : Nat → Nat) (sec k : Nat) :
    (sections_from h sec k).length = k := by
  simp [sections_from]

theorem mem_sections_from (h : Nat → Nat) (sec k x : Nat) :
    x ∈ sections_from h sec k ↔ ∃ i, i < k ∧ h^[i] sec = x := by
  simp only [sections_from, List.mem_map, List.mem_range]

theorem sections_from_nodup (h : Nat → Nat) (sec k : Nat)
    (hnd : (sections_from h sec k).Nodup) :
    ∀ i j, i < j → j < k → h^[i] sec ≠ h^[j] sec := by
  intro i j hij hjk he
  have hi : i < (sections_from h sec k).length := by rw [sections_from_length]; omega
  have hj : j < (sections_from h sec k).length := by rw [sections_from_length]; omega
  have e : (sections_from h sec k)[i] = (sections_from h sec k)[j] := by
    simp [sections_from, he]
  have := hnd.getElem_inj_iff.1 e
  omega

/-- What `create_in_page` does on a page whose first `chain_sections sz`
sections along the free list are pairwise different. -/
theorem create_in_page_spec (idx : stringid_index) (pp : stringid_page) (str : List Nat)
    (hnd : ∀ i j, i < j → j < chain_sections str.length →
      pp.header^[i] idx.freelist ≠ pp.header^[j] idx.freelist) :
    ∃ pp', create_in_page idx pp str
        = some { freeslot := idx.freeslot - (chain_sections str.length : Int),
                 freelist := pp.header (pp.header^[chain_sections str.length - 1] idx.freelist),
                 p := some pp' } ∧
      pp'.header = (fun x =>
        if x = pp.header^[chain_sections str.length - 1] idx.freelist then x
        else pp.header x) ∧
      (∀ x, (∀ i, i < chain_sections str.length → x ≠ pp.header^[i] idx.freelist) →
        pp'.data x = pp.data x) ∧
      pp'.data idx.freelist 0 = 0 ∧ pp'.data idx.freelist 1 = 0 ∧
      (∀ i, i < str.length →
        pp'.data (pp.header^[(i + 2) / 14] idx.freelist) ((i + 2) % 14) = str.getD i 0) ∧
      pp'.data (pp.header^[(str.length + 2) / 14] idx.freelist) ((str.length + 2) % 14) = 0 ∧
      (12 ≤ str.length → ∀ j, (str.length + 2) % 14 < j → j < 14 →
        pp'.data (pp.header^[(str.length + 2) / 14] idx.freelist) j = 0xff) ∧
      (str.length ≤ 11 → ∀ j, str.length + 2 < j →
        pp'.data idx.freelist j = pp.data idx.freelist j) := by
  generalize hsec : idx.freelist = sec at *
  generalize hh : pp.header = h at *
  by_cases hs : str.length ≤ 11
  · have hk : chain_sections str.length = 1 := chain_sections_short _ hs
    have hd : (str.length + 2) / 14 = 0 := by omega
    have hm : (str.length + 2) % 14 = str.length + 2 := by omega
    rw [hk, hd, hm]
    simp only [Nat.sub_self, Function.iterate_zero, id_eq]
    refine ⟨set_header (set_data (memcpy_to (set_data (set_data pp sec 0 0) sec 1 0) sec 2 str)
      sec (2 + str.length) 0) sec sec, ?_, ?_, ?_, ?_, ?_, ?_, ?_, ?_, ?_⟩
    · simp [create_in_page, hs, STRING_SECTION, hsec, hh]
    · funext x
      simp only [set_header, set_data_header, memcpy_to_header, hh]
      by_cases hx : x = sec
      · simp [hx]
      · simp [hx]
    · intro x hx
      have hx0 : x ≠ sec := by simpa using hx 0 (by omega)
      funext j
      simp [set_data, memcpy_to, hx0]
    · simp [set_data, memcpy_to]
    · simp [set_data, memcpy_to]
    · intro i hi
      have e1 : (i + 2) / 14 = 0 := by omega
      have e2 : (i + 2) % 14 = i + 2 := by omega
      rw [e1, e2]
      have h1 : i + 2 ≠ 2 + str.length := by omega
      have h2 : i + 2 < 2 + str.length := by omega
      simp [set_data, memcpy_to, h1, h2]
    · simp [set_data, memcpy_to, Nat.add_comm]
    · intro h12; omega
    · intro _ j hj
      have h1 : j ≠ 2 + str.length := by omega
      have h2 : ¬ j < 2 + str.length := by omega
      have h3 : j ≠ 0 := by omega
      have h4 : j ≠ 1 := by omega
      simp [set_data, memcpy_to, h1, h2, h3, h4]
  · have hs' : 12 ≤ str.length := by omega
    have hl' : (str.drop 12).length = str.length - 12 := by simp
    have hk : chain_sections str.length = (str.drop 12).length / 14 + 2 := by
      rw [chain_sections_long _ hs', hl']
    have hd : (str.length + 2) / 14 = (str.drop 12).length / 14 + 1 := by rw [hl']; omega
    have hm : (str.length + 2) % 14 = (str.drop 12).length % 14 := by rw [hl']; omega
    rw [hk] at hnd ⊢
    rw [hd, hm]
    obtain ⟨pp', e1, e2, e3, e4, e5, e6, e7⟩ :=
      create_loop_spec h (str.length + 1)
        (memcpy_to (set_data (set_data pp sec 0 0) sec 1 0) sec 2 (str.take 12)) sec 1
        (str.drop 12) (by simp [hh]) (by rw [hl']; omega)
        (fun i j h1 h2 h3 => hnd i j h2 (by omega))
    have hhead : pp'.data sec
        = (memcpy_to (set_data (set_data pp sec 0 0) sec 1 0) sec 2 (str.take 12)).data sec :=
      e3 sec (fun i h1 h2 => by
        have := hnd 0 i (by omega) (by omega)
        simpa using this)
    have hl12 : (List.take 12 str).length = 12 := by simp; omega
    have hk1 : (str.drop 12).length / 14 + 2 - 1 = (str.drop 12).length / 14 + 1 := by omega
    rw [hk1]
    refine ⟨pp', ?_, e2, ?_, ?_, ?_, ?_, e6, ?_, ?_⟩
    · simp only [create_in_page, STRING_SECTION, hsec, Nat.reduceSub, hs, if_false, e1]
      simp only [Option.some.injEq]
      congr 1
      push_cast
      omega
    · intro x hx
      have hx0 : x ≠ sec := by simpa using hx 0 (by omega)
      rw [e3 x (fun i h1 h2 => hx i (by omega))]
      funext j
      simp [set_data, memcpy_to, hx0]
    · rw [hhead]; simp [set_data, memcpy_to]
    · rw [hhead]; simp [set_data, memcpy_to]
    · intro i hi
      by_cases h12 : i < 12
      · have a1 : (i + 2) / 14 = 0 := by omega
        have a2 : (i + 2) % 14 = i + 2 := by omega
        rw [a1, a2]
        simp only [Function.iterate_zero, id_eq]
        rw [hhead]
        simp only [memcpy_to, hl12]
        rw [if_pos (by simp; omega)]
        rw [show i + 2 - 2 = i by omega, getD_take _ _ _ h12]
      · by_cases hmid : (i + 2) / 14 ≤ (str.drop 12).length / 14
        · have := e4 ((i + 2) / 14) ((i + 2) % 14) (by omega) hmid (Nat.mod_lt _ (by omega))
          rw [this, getD_drop]
          congr 1
          omega
        · have a1 : (i + 2) / 14 = (str.drop 12).length / 14 + 1 := by rw [hl'] at hmid ⊢; omega
          rw [a1]
          have := e5 ((i + 2) % 14) (by rw [hl'] at a1 ⊢; omega)
          rw [this, getD_drop]
          congr 1
          rw [hl'] at a1 ⊢
          omega
    · intro _ j h1 h2
      exact e7 j h1 h2
    · intro h11; omega

/-! ## Header walks -/

theorem chain_walk_spec (h : Nat → Nat) (step : Nat) : ∀ (n fuel sec acc : Nat), n < fuel →
    (∀ i, i < n → h (h^[i] sec) ≠ h^[i] sec) → h (h^[n] sec) = h^[n] sec →
    chain_walk h step fuel sec acc = some (h^[n] sec, acc + step * n) := by
  intro n
  induction n with
  | zero =>
    intro fuel sec acc hf _ hend
    obtain ⟨f, rfl⟩ : ∃ f, fuel = f + 1 := ⟨fuel - 1, by omega⟩
    simp only [Function.iterate_zero, id_eq] at hend
    simp [chain_walk, hend]
  | succ n ih =>
    intro fuel sec acc hf hne hend
    obtain ⟨f, rfl⟩ : ∃ f, fuel = f + 1 := ⟨fuel - 1, by omega⟩
    have h0 : h sec ≠ sec := by simpa using hne 0 (by omega)
    have := ih f (h sec) (acc + step) (by omega)
      (fun i hi => by
        rw [← Function.iterate_succ_apply]
        exact hne (i + 1) (by omega))
      (by rw [← Function.iterate_succ_apply]; exact hend)
    rw [← Function.iterate_succ_apply] at this
    simp only [chain_walk, h0, ne_eq, not_false_eq_true, if_true, this]
    simp only [Option.some.injEq, Prod.mk.injEq, true_and]
    rw [Nat.mul_succ]
    omega

theorem string_continuous_spec (h : Nat → Nat) : ∀ (n fuel sec : Nat), n < fuel →
    (∀ i, i < n → h (sec + i) = sec + i + 1) → h (sec + n) = sec + n →
    string_continuous h fuel sec = some true := by
  intro n
  induction n with
  | zero =>
    intro fuel sec hf _ hend
    obtain ⟨f, rfl⟩ : ∃ f, fuel = f + 1 := ⟨fuel - 1, by omega⟩
    simp only [Nat.add_zero] at hend
    simp [string_continuous, hend]
  | succ n ih =>
    intro fuel sec hf hlink hend
    obtain ⟨f, rfl⟩ : ∃ f, fuel = f + 1 := ⟨fuel - 1, by omega⟩
    have h0 : h sec = sec + 1 := by simpa using hlink 0 (by omega)
    have := ih f (sec + 1) (by omega)
      (fun i hi => by
        have := hlink (i + 1) (by omega)
        rw [show sec + 1 + i = sec + (i + 1) by omega]
        exact this)
      (by rw [show sec + 1 + n = sec + (n + 1) by omega]; exact hend)
    simp [string_continuous, h0, this]

/-- Along a run `header[x] = x+1` the `i`-th section after `m` is `m+i`. -/
theorem iterate_run (h : Nat → Nat) (m n : Nat) (hrun : ∀ x, m ≤ x → x < m + n → h x = x + 1) :
    ∀ i, i ≤ n → h^[i] m = m + i := by
  intro i
  induction i with
  | zero => intro _; rfl
  | succ i ih =>
    intro hi
    rw [Function.iterate_succ_apply', ih (by omega), hrun (m + i) (by omega) (by omega)]
    rfl

/-- Function `string_len` always returns when the walk ends within the page. -/
theorem string_len_isSome (p : stringid_page) (sec n : Nat) (hn : n < SECTIONS)
    (hne : ∀ i, i < n → p.header (p.header^[i] sec) ≠ p.header^[i] sec)
    (hend : p.header (p.header^[n] sec) = p.header^[n] sec) :
    ∃ len, string_len p sec = some len := by
  unfold string_len
  rw [chain_walk_spec p.header STRING_SECTION n SECTIONS sec _ hn hne hend]
  simp only
  split_ifs
  · exact ⟨_, rfl⟩
  · exact ⟨_, rfl⟩
  · exact ⟨_, rfl⟩

/-! ## The first page of a new pool -/

theorem page_init_header (mem : stringid_page) (pp : stringid_page)
    (h : (page_init mem).p = some pp) :
    ∀ x, pp.header x = if x < 0xffff then x + 1 else if x = 0xffff then 0xffff
      else mem.header x := by
  intro x
  simp only [page_init, Option.some.injEq] at h
  subst h
  simp only [padding_free_header, set_header, page_init_fill]
  by_cases h1 : x < 0xffff
  · have : x ≠ 0xffff := by omega
    simp [h1, this]
  · simp [h1]

theorem find_page_newpool (mem : stringid_page) (n : Nat) :
    find_page stringid_newpool mem n
      = some ({ pages := 1, p := fun i => if i = 0 then page_init mem
                                          else stringid_newpool.p i }, 0) := by
  simp [find_page, find_page_loop, new_page, stringid_newpool, STRING_MAXPAGE, set_index]

/-- Function `create_in_page` on a free list that starts with a run of
consecutive sections `m, m+1, ...` (as in a page where nothing was released). -/
theorem create_in_page_run (idx : stringid_index) (pp : stringid_page) (str : List Nat)
    (hrun : ∀ x, idx.freelist ≤ x → x < idx.freelist + (chain_sections str.length - 1) →
      pp.header x = x + 1) :
    ∃ pp', create_in_page idx pp str
        = some { freeslot := idx.freeslot - (chain_sections str.length : Int),
                 freelist := pp.header (idx.freelist + (chain_sections str.length - 1)),
                 p := some pp' } ∧
      pp'.header = (fun x =>
        if x = idx.freelist + (chain_sections str.length - 1) then x else pp.header x) ∧
      (∀ x, (x < idx.freelist ∨ idx.freelist + chain_sections str.length ≤ x) →
        pp'.data x = pp.data x) ∧
      pp'.data idx.freelist 0 = 0 ∧ pp'.data idx.freelist 1 = 0 ∧
      (∀ i, i < str.length →
        pp'.data (idx.freelist + (i + 2) / 14) ((i + 2) % 14) = str.getD i 0) ∧
      pp'.data (idx.freelist + (str.length + 2) / 14) ((str.length + 2) % 14) = 0 := by
  have hit := iterate_run pp.header idx.freelist (chain_sections str.length - 1) hrun
  have hk : chain_sections str.length = (str.length + 2) / 14 + 1 := rfl
  obtain ⟨pp', e1, e2, e3, e4, e5, e6, e7, _, _⟩ := create_in_page_spec idx pp str
    (fun i j hij hjk => by
      rw [hit i (by omega), hit j (by omega)]
      omega)
  rw [hit _ (le_refl _)] at e1 e2
  refine ⟨pp', e1, e2, ?_, e4, e5, ?_, ?_⟩
  · intro x hx
    apply e3
    intro i hi
    rw [hit i (by omega)]
    omega
  · intro i hi
    have := e6 i hi
    rw [hit _ (by rw [hk]; omega)] at this
    exact this
  · rw [hit _ (by rw [hk]; omega)] at e7
    exact e7


/-- Function `stringid_create` in a new pool: the string lands in page 0 from
section 0 on, in consecutive sections. -/
theorem create_newpool_spec (mem : stringid_page) (s : List Nat)
    (hfit : chain_sections s.length ≤ SECTIONS) :
    ∃ S pp', stringid_create stringid_newpool mem s = some (S, 0) ∧ S.pages = 1 ∧
      (S.p 0).freeslot = 0x10000 - (chain_sections s.length : Int) ∧
      (S.p 0).freelist = (if chain_sections s.length < 0x10000 then chain_sections s.length
        else 0xffff) ∧
      (S.p 0).p = some pp' ∧
      (∀ x, pp'.header x = if x + 1 = chain_sections s.length then x
        else if x < 0xffff then x + 1 else if x = 0xffff then x else mem.header x) ∧
      (∀ x, chain_sections s.length ≤ x → ∀ j, pp'.data x j =
        if x = 0xffff ∧ j = 13 then EOS_FREE else mem.data x j) ∧
      pp'.data 0 0 = 0 ∧ pp'.data 0 1 = 0 ∧
      (∀ i, i < s.length → pp'.data ((i + 2) / 14) ((i + 2) % 14) = s.getD i 0) ∧
      pp'.data ((s.length + 2) / 14) ((s.length + 2) % 14) = 0 ∧
      (∀ i, i ≠ 0 → S.p i = stringid_newpool.p i) := by
  have hS : SECTIONS = 0x10000 := rfl
  obtain ⟨pp0, hpp0⟩ : ∃ pp0, (page_init mem).p = some pp0 := ⟨_, rfl⟩
  have hfl : (page_init mem).freelist = 0 := rfl
  have hfs : (page_init mem).freeslot = 0x10000 := rfl
  have hh0 := page_init_header mem pp0 hpp0
  have hd0 : ∀ x j, pp0.data x j = if x = 0xffff ∧ j = 13 then EOS_FREE else mem.data x j := by
    intro x j
    simp only [page_init, Option.some.injEq] at hpp0
    subst hpp0
    simp [padding_free, set_data, page_init_fill, STRING_SECTION]
  obtain ⟨pp', e1, e2, e3, e4, e5, e6, e7⟩ := create_in_page_run (page_init mem) pp0 s
    (fun x _ hx => by
      rw [hh0 x, if_pos (by rw [hfl] at hx; omega)])
  rw [hfl] at e1 e2 e3 e4 e5 e6 e7
  simp only [Nat.zero_add] at e1 e2 e3 e4 e5 e6 e7
  have hkpos : 0 < chain_sections s.length := by unfold chain_sections; omega
  refine ⟨set_index { pages := 1, p := fun i => if i = 0 then page_init mem
        else stringid_newpool.p i } 0
        { freeslot := (page_init mem).freeslot - (chain_sections s.length : Int),
          freelist := pp0.header (chain_sections s.length - 1), p := some pp' },
      pp', ?_, rfl, ?_, ?_, ?_, ?_, ?_, e4, e5, e6, e7, ?_⟩
  · simp only [stringid_create, find_page_newpool]
    simp only [Int.toNat_zero, if_true, hpp0, e1, hfl]
    simp
  · simp [hfs]
  · simp only [set_index_p_same]
    rw [hh0]
    by_cases hk : chain_sections s.length < 0x10000
    · rw [if_pos (by omega), if_pos hk]; omega
    · rw [if_neg (by omega), if_neg hk, if_pos (by omega)]
  · simp
  · intro x
    rw [e2]
    simp only
    by_cases hx : x + 1 = chain_sections s.length
    · rw [if_pos (by omega), if_pos hx]
    · rw [if_neg (by omega), if_neg hx, hh0]
      by_cases h1 : x < 0xffff
      · simp [h1]
      · by_cases h2 : x = 0xffff
        · simp [h2]
        · simp [h1, h2]
  · intro x hx j
    rw [e3 x (Or.inr hx), hd0]
  · intro i hi
    rw [set_index_p_ne _ _ _ _ hi]
    simp [hi]

/-- C1. Round trip on content: for every byte string `s` (any byte values, any
length that fits in a page, whatever the contents `mem` of the block `malloc`
hands out), after `id = stringid_create(S, s, |s|)` in a new pool the call
`stringid_str(S, id, buffer, &sz)` returns, and the first `|s|` bytes at the
pointer it returns are exactly `s` (for every buffer and buffer size). -/
theorem stringid_str_create_roundtrip (mem : stringid_page) (s : List Nat)
    (buffer : Nat → Nat) (bufsz : Int) (hfit : chain_sections s.length ≤ SECTIONS) :
    ∃ S id ptr buf len, stringid_create stringid_newpool mem s = some (S, id) ∧
      stringid_str S id buffer bufsz = some (ptr, buf, len) ∧
      ∀ i, i < s.length → deref S buf ptr i = s[i]? := by
  have hS : SECTIONS = 0x10000 := rfl
  obtain ⟨S, pp', hS1, hS2, _, _, hS3, e2, _, _, _, e6, _⟩ := create_newpool_spec mem s hfit
  generalize hk : chain_sections s.length = k at *
  have hkpos : 0 < k := by rw [← hk]; unfold chain_sections; omega
  -- the chain of the new string is the run 0, 1, ..., k - 1
  have hlink : ∀ i, i < k - 1 → pp'.header (0 + i) = 0 + i + 1 := by
    intro i hi
    rw [e2]
    simp only [Nat.zero_add]
    rw [if_neg (by omega), if_pos (by omega)]
  have hend : pp'.header (0 + (k - 1)) = 0 + (k - 1) := by
    rw [e2]
    simp only [Nat.zero_add]
    rw [if_pos (by omega)]
  have hit := iterate_run pp'.header 0 (k - 1) (fun x _ hx => by
    have := hlink x (by omega)
    simpa using this)
  obtain ⟨len, hlen⟩ := string_len_isSome pp' 0 (k - 1) (by omega)
    (fun i hi => by
      rw [hit i (by omega)]
      have := hlink i hi
      omega)
    (by rw [hit (k - 1) (le_refl _)]; exact hend)
  have hcont := string_continuous_spec pp'.header (k - 1) SECTIONS 0 (by omega) hlink hend
  refine ⟨S, 0, str_ptr.in_page 0 0 2, buffer, len, hS1, ?_, ?_⟩
  · simp [stringid_str, hS2, hS3, hlen, hcont]
  · intro i hi
    have := e6 i hi
    simp only [deref, hS3, STRING_SECTION, Nat.mul_zero, Nat.zero_add]
    rw [Nat.add_comm 2 i, this]
    simp [List.getD_eq_getElem?_getD, List.getElem?_eq_getElem hi]

theorem stringid_str_create_roundtrip_witness :
    chain_sections hello.length ≤ SECTIONS ∧
    ∃ S id ptr buf len, stringid_create stringid_newpool zero_mem hello = some (S, id) ∧
      stringid_str S id (fun _ => 0) 128 = some (ptr, buf, len) ∧
      ∀ i, i < hello.length → deref S buf ptr i = hello[i]? :=
  ⟨by decide, stringid_str_create_roundtrip zero_mem hello (fun _ => 0) 128 (by decide)⟩

/-- C2. The length law fails on the short path: "Hello World" is created and
released, then "x" is created; it gets the same section, whose byte 13 still
holds the NUL of "Hello World", and the length decoded for "x" (the value
`stringid_str` stores into `*sz`) is 11, not 1. -/
theorem short_string_length_wrong :
    ((stringid_create stringid_newpool zero_mem hello).bind fun r1 =>
      (stringid_release r1.1 r1.2).bind fun S2 =>
        (stringid_create S2 zero_mem [120]).bind fun r3 =>
          (stringid_str r3.1 r3.2 (fun _ => 0) 128).map fun r => r.2.2) = some 11 := by
  decide

/-- C3. For the 15 bytes "abcdefghijklmno" created in a new pool,
`stringid_eq(S, id, "abcdefghijklmno", 15)` returns 0: on the long path
`string_eq` ends with `memcmp(...) != 0`. -/
theorem stringid_eq_create_long_false :
    ((stringid_create stringid_newpool zero_mem abc15).bind fun r =>
      stringid_eq r.1 r.2 abc15) = some false := by
  decide

/-- C4. For the 15 bytes "abcdefghijklmno" created in a new pool,
`stringid_eq(S, id, "abcdefghijklmnX", 15)` returns 1 although the last byte
differs from the stored string. -/
theorem stringid_eq_accepts_other_string :
    ((stringid_create stringid_newpool zero_mem abc15).bind fun r =>
      stringid_eq r.1 r.2 abc15X) = some true := by
  decide

/-- C6. Clone fast path: for every id whose page is allocated and whose stored
refcount `r` is below 0xFFFF, `stringid_clone` returns the same id, stores
`r+1` little-endian into `data[head][0..1]` and changes nothing else: no
header entry, no other data byte, no `freelist`, no `freeslot`, no other page
and not the page count. -/
theorem stringid_clone_fast_path (S : stringpool) (mem : stringid_page) (id : Nat)
    (pp : stringid_page) (hpage : id >>> 16 < S.pages)
    (hpp : (S.p (id >>> 16)).p = some pp)
    (hr : get_number pp (id &&& 0xffff) < 0xffff) :
    ∃ S' pp', stringid_clone S mem id = some (S', id) ∧
      (S'.p (id >>> 16)).p = some pp' ∧
      get_number pp' (id &&& 0xffff) = get_number pp (id &&& 0xffff) + 1 ∧
      pp'.data (id &&& 0xffff) 0 = (get_number pp (id &&& 0xffff) + 1) % 256 ∧
      pp'.data (id &&& 0xffff) 1 = (get_number pp (id &&& 0xffff) + 1) / 256 ∧
      pp'.header = pp.header ∧
      (∀ s j, ¬ (s = id &&& 0xffff ∧ j < 2) → pp'.data s j = pp.data s j) ∧
      (S'.p (id >>> 16)).freelist = (S.p (id >>> 16)).freelist ∧
      (S'.p (id >>> 16)).freeslot = (S.p (id >>> 16)).freeslot ∧
      (∀ i, i ≠ id >>> 16 → S'.p i = S.p i) ∧
      S'.pages = S.pages := by
  refine ⟨set_index S (id >>> 16)
      { freeslot := (S.p (id >>> 16)).freeslot, freelist := (S.p (id >>> 16)).freelist,
        p := some (set_number pp (id &&& 0xffff) (get_number pp (id &&& 0xffff) + 1)) },
    set_number pp (id &&& 0xffff) (get_number pp (id &&& 0xffff) + 1),
    ?_, ?_, ?_, ?_, ?_, ?_, ?_, ?_, ?_, ?_, ?_⟩
  · simp [stringid_clone, hpage, hpp, hr]
  · simp
  · exact get_set_number _ _ _ (by omega)
  · simp [set_number, set_data, and_ff]
  · simp only [set_number, set_data, and_ff, Nat.shiftRight_eq_div_pow]
    simp only [true_and, if_true]
    omega
  · rfl
  · intro s j hsj
    have : ¬ (s = id &&& 0xffff ∧ j = 0) := fun h => hsj ⟨h.1, by omega⟩
    have : ¬ (s = id &&& 0xffff ∧ j = 1) := fun h => hsj ⟨h.1, by omega⟩
    simp [set_number, set_data, *]
  · simp
  · simp
  · intro i hi
    exact set_index_p_ne _ _ _ _ hi
  · rfl

theorem stringid_clone_fast_path_witness :
    (0 : Nat) >>> 16 < hello_pool.pages ∧
    (hello_pool.p (0 >>> 16)).p = some hello_page ∧
    get_number hello_page (0 &&& 0xffff) < 0xffff ∧
    ∃ S' pp', stringid_clone hello_pool zero_mem 0 = some (S', 0) ∧
      (S'.p (0 >>> 16)).p = some pp' ∧
      get_number pp' (0 &&& 0xffff) = get_number hello_page (0 &&& 0xffff) + 1 ∧
      pp'.data (0 &&& 0xffff) 0 = (get_number hello_page (0 &&& 0xffff) + 1) % 256 ∧
      pp'.data (0 &&& 0xffff) 1 = (get_number hello_page (0 &&& 0xffff) + 1) / 256 ∧
      pp'.header = hello_page.header ∧
      (∀ s j, ¬ (s = 0 &&& 0xffff ∧ j < 2) → pp'.data s j = hello_page.data s j) ∧
      (S'.p (0 >>> 16)).freelist = (hello_pool.p (0 >>> 16)).freelist ∧
      (S'.p (0 >>> 16)).freeslot = (hello_pool.p (0 >>> 16)).freeslot ∧
      (∀ i, i ≠ 0 >>> 16 → S'.p i = hello_pool.p i) ∧
      S'.pages = hello_pool.pages :=
  ⟨by decide, rfl, by decide,
    stringid_clone_fast_path hello_pool zero_mem 0 hello_page (by decide) rfl (by decide)⟩

/-! ## Page selection -/

theorem find_page_loop_no_room (S : stringpool) (mem : stringid_page) (n : Nat) :
    ∀ (k : Nat) (pp0 : Option stringid_page),
      (∀ i, i < k → ∃ pg, (S.p i).p = some pg ∧ (S.p i).freeslot < (n : Int)) →
      (k = 0 → ∃ pg, pp0 = some pg) →
      ∃ pg, find_page_loop S mem n k pp0 = some (S, -1, some pg) := by
  intro k
  induction k with
  | zero =>
    intro pp0 _ h0
    obtain ⟨pg, rfl⟩ := h0 rfl
    exact ⟨pg, rfl⟩
  | succ k ih =>
    intro pp0 hfull _
    obtain ⟨pg, h1, h2⟩ := hfull k (by omega)
    obtain ⟨pg', h3⟩ := ih (some pg) (fun i hi => hfull i (by omega)) (fun _ => ⟨pg, rfl⟩)
    refine ⟨pg', ?_⟩
    simp only [find_page_loop, h1]
    rw [if_neg (by omega)]
    exact h3

/-- When the pool has pages, all of them allocated, and none has `n` free
slots, `find_page` leaves its loop with `i = -1` and `pp != NULL`, skips the
allocation of a new page and returns -1. -/
theorem find_page_no_room (S : stringpool) (mem : stringid_page) (n : Nat)
    (ht : 0 < S.pages)
    (hfull : ∀ i, i < S.pages → ∃ pg, (S.p i).p = some pg ∧ (S.p i).freeslot < (n : Int)) :
    find_page S mem n = some (S, -1) := by
  obtain ⟨pg, h⟩ := find_page_loop_no_room S mem n S.pages none hfull (fun h0 => by omega)
  simp [find_page, h]

/-- When the highest touched page is allocated and has `n` free slots,
`find_page` returns it and changes nothing. -/
theorem find_page_top (S : stringpool) (mem : stringid_page) (n t : Nat) (pg : stringid_page)
    (ht : S.pages = t + 1) (hpg : (S.p t).p = some pg) (hroom : (n : Int) ≤ (S.p t).freeslot) :
    find_page S mem n = some (S, (t : Int)) := by
  simp [find_page, ht, find_page_loop, hpg, hroom]

theorem stringid_create_of_find (S S1 : stringpool) (mem : stringid_page) (str : List Nat)
    (page : Nat) (pp : stringid_page)
    (hf : find_page S mem (count_slots str.length) = some (S1, (page : Int)))
    (hpp : (S1.p page).p = some pp) :
    stringid_create S mem str = (create_in_page (S1.p page) pp str).map (fun idx1 =>
      (set_index S1 page idx1, (page <<< 16) ||| (S1.p page).freelist)) := by
  simp only [stringid_create, hf, hpp, Int.toNat_ofNat]
  rw [if_neg (by omega)]
  cases create_in_page (S1.p page) pp str <;> rfl

theorem big_length : big.length = 917493 :=
  List.length_replicate 917493 97

theorem big_getD (i : Nat) (hi : i < 917493) : big.getD i 0 = 97 := by
  unfold big
  rw [List.getD_eq_getElem?_getD, List.getElem?_replicate, if_pos hi]
  rfl

/-- The pool after `stringid_create` of `big` in a new pool: page 0 is full. -/
theorem create_big_spec :
    ∃ S pp, stringid_create stringid_newpool zero_mem big = some (S, 0) ∧ S.pages = 1 ∧
      (S.p 0).freeslot = 0 ∧ (S.p 0).freelist = 0xffff ∧ (S.p 0).p = some pp ∧
      (∀ x, x < 0xffff → pp.header x = x + 1) ∧ pp.header 0xffff = 0xffff ∧
      pp.data 0xffff 0 = 97 ∧ (∀ i, i ≠ 0 → (S.p i).p = none) := by
  have hk : chain_sections big.length = 0x10000 := by
    rw [big_length]; rfl
  obtain ⟨S, pp, h1, h2, h3, h4, h5, h6, _, _, _, h7, _, h8⟩ :=
    create_newpool_spec zero_mem big (by rw [hk]; decide)
  rw [hk] at h3 h4 h6
  refine ⟨S, pp, h1, h2, by simpa using h3, by simpa using h4, h5, ?_, ?_, ?_, ?_⟩
  · intro x hx
    rw [h6, if_neg (by omega), if_pos hx]
  · rw [h6]; simp
  · have := h7 917488 (by rw [big_length]; omega)
    simp only [Nat.reduceAdd, Nat.reduceDiv, Nat.reduceMod] at this
    rw [this]
    exact big_getD _ (by omega)
  · intro i hi
    rw [h8 i hi]
    rfl

/-- C10. Page roll-over does not happen: after `big` has filled page 0 of a
new pool (touched count 1, `freeslot` 0, so no touched page has 1 free slot),
`find_page(S, 1)` returns -1, initialises no page and leaves the touched count
at 1; the next `stringid_create` of "Hello World" then indexes `S->p[-1]` and
gives no result. -/
theorem find_page_no_rollover :
    ∃ S, stringid_create stringid_newpool zero_mem big = some (S, 0) ∧ S.pages = 1 ∧
      (S.p 0).freeslot = 0 ∧
      (find_page S zero_mem 1).map (fun r => r.2) = some (-1) ∧
      (find_page S zero_mem 1).map (fun r => r.1.pages) = some 1 ∧
      (find_page S zero_mem 1).map (fun r => (r.1.p 1).p.isNone) = some true ∧
      (S.p 1).p.isNone = true ∧
      stringid_create S zero_mem hello = none := by
  obtain ⟨S, pp, h1, h2, h3, _, h5, _, _, _, h9⟩ := create_big_spec
  have hf : find_page S zero_mem 1 = some (S, -1) :=
    find_page_no_room S zero_mem 1 (by omega) (fun i hi => by
      have : i = 0 := by omega
      subst this
      exact ⟨pp, h5, by rw [h3]; decide⟩)
  have hnone : (S.p 1).p.isNone = true := by
    rw [h9 1 (by omega)]
    rfl
  refine ⟨S, h1, h2, h3, by rw [hf]; rfl, by rw [hf]; simp [h2], by rw [hf]; simpa using hnone,
    hnone, ?_⟩
  have hc : count_slots hello.length = 1 := by decide
  simp [stringid_create, hc, hf]

/-- C5. A create can overwrite a live string: `big` fills page 0 of a new pool
(all 65536 sections are in its chain, the free list is empty, `freeslot` is
0).  `stringid_create(S, "x", 1)` asks `find_page` for `count_slots(1) = 0`
slots, gets the full page, and writes into the stale `freelist` section
65535, the last section of the live chain: payload byte 917488 of the live
string changes from 'a' to 0, and `freeslot` becomes -1. -/
theorem create_on_full_page_overwrites :
    ∃ S1 pp1 S2 pp2, stringid_create stringid_newpool zero_mem big = some (S1, 0) ∧
      (S1.p 0).p = some pp1 ∧ (S1.p 0).freeslot = 0 ∧
      stringid_create S1 zero_mem [120] = some (S2, 0xffff) ∧
      (S2.p 0).p = some pp2 ∧
      chain_byte pp1 0 917488 = 97 ∧ chain_byte pp2 0 917488 = 0 ∧
      (S2.p 0).freeslot = -1 := by
  obtain ⟨S1, pp1, h1, h2, h3, h4, h5, h6, h7, h8, _⟩ := create_big_spec
  have hf : find_page S1 zero_mem (count_slots [120].length) = some (S1, ((0 : Nat) : Int)) :=
    find_page_top S1 zero_mem _ 0 pp1 h2 h5 (by rw [h3]; decide)
  have hc := stringid_create_of_find S1 S1 zero_mem [120] 0 pp1 hf h5
  obtain ⟨pp2, e1, e2, _, e4, _⟩ := create_in_page_spec (S1.p 0) pp1 [120]
    (fun i j hij hj => by
      have : chain_sections [120].length = 1 := by decide
      omega)
  rw [h4] at e1 e2 e4
  have hk : chain_sections [120].length - 1 = 0 := by decide
  rw [hk] at e1 e2
  simp only [Function.iterate_zero, id_eq] at e1 e2
  rw [e1, h4, h3] at hc
  have hit1 := iterate_run pp1.header 0 0xffff (fun x _ hx => h6 x (by omega)) 0xffff
    (le_refl _)
  have hit2 := iterate_run pp2.header 0 0xffff (fun x _ hx => by
    rw [e2]
    simp only
    rw [if_neg (by omega)]
    exact h6 x (by omega)) 0xffff (le_refl _)
  refine ⟨S1, pp1, _, pp2, h1, h5, h3, hc, by simp, ?_, ?_, by simp; rfl⟩
  · simp only [chain_byte, Nat.reduceAdd, Nat.reduceDiv, Nat.reduceMod]
    rw [hit1]
    exact h8
  · simp only [chain_byte, Nat.reduceAdd, Nat.reduceDiv, Nat.reduceMod]
    rw [hit2]
    exact e4

/-! ## Pools that differ in one refcount -/

theorem stringpool_ext (S T : stringpool) (h1 : S.pages = T.pages) (h2 : ∀ i, S.p i = T.p i) :
    S = T := by
  cases S; cases T
  simp only at h1 h2
  subst h1
  congr 1
  funext i
  exact h2 i

theorem set_index_set_index (S : stringpool) (page : Nat) (a b : stringid_index) :
    set_index (set_index S page a) page b = set_index S page b := by
  apply stringpool_ext
  · rfl
  · intro i
    by_cases hi : i = page
    · subst hi; simp
    · simp [set_index_p_ne _ _ _ _ hi]

theorem set_index_self (S : stringpool) (page : Nat) (a : stringid_index) (h : S.p page = a) :
    set_index S page a = S := by
  apply stringpool_ext
  · rfl
  · intro i
    by_cases hi : i = page
    · subst hi; simp [h]
    · simp [set_index_p_ne _ _ _ _ hi]

theorem set_number_set_number (p : stringid_page) (sec a b : Nat) :
    set_number (set_number p sec a) sec b = set_number p sec b := by
  unfold set_number set_data
  congr 1
  funext s j
  by_cases h1 : s = sec ∧ j = 1
  · simp [h1]
  · by_cases h0 : s = sec ∧ j = 0
    · simp [h0]
    · simp [h1, h0]

theorem set_number_zero_self (p : stringid_page) (sec : Nat)
    (h0 : p.data sec 0 = 0) (h1 : p.data sec 1 = 0) : set_number p sec 0 = p := by
  cases p with
  | mk header data =>
    unfold set_number set_data
    congr 1
    funext s j
    simp only at h0 h1
    by_cases h1' : s = sec ∧ j = 1
    · simp [h1'.1, h1'.2, h1]
    · by_cases h0' : s = sec ∧ j = 0
      · simp [h0'.1, h0'.2, h0]
      · simp [h1', h0']

theorem with_refcount_eq (S : stringpool) (page sec r : Nat) (pp : stringid_page)
    (h : (S.p page).p = some pp) :
    with_refcount S page sec r = set_index S page
      { freeslot := (S.p page).freeslot, freelist := (S.p page).freelist,
        p := some (set_number pp sec r) } := by
  simp [with_refcount, h]

theorem with_refcount_zero (S : stringpool) (page sec : Nat) (pp : stringid_page)
    (h : (S.p page).p = some pp) (h0 : pp.data sec 0 = 0) (h1 : pp.data sec 1 = 0) :
    with_refcount S page sec 0 = S := by
  rw [with_refcount_eq S page sec 0 pp h, set_number_zero_self pp sec h0 h1]
  apply set_index_self
  rw [← h]

/-- A clone on the fast path turns refcount `r` into `r+1`. -/
theorem clone_with_refcount (S : stringpool) (mem : stringid_page) (page sec r : Nat)
    (pp : stringid_page) (hpage : page < S.pages) (hsec : sec < 0x10000)
    (hpp : (S.p page).p = some pp) (hr : r < 0xffff) :
    stringid_clone (with_refcount S page sec r) mem ((page <<< 16) ||| sec)
      = some (with_refcount S page sec (r + 1), (page <<< 16) ||| sec) := by
  rw [with_refcount_eq S page sec r pp hpp, with_refcount_eq S page sec (r + 1) pp hpp]
  simp only [stringid_clone, id_page page sec hsec, id_sec page sec hsec, set_index_pages, hpage,
    if_true, set_index_p_same, get_set_number pp sec r (by omega), hr, set_index_set_index,
    set_number_set_number]

/-- A release of a string with refcount `r+1` turns it into `r`. -/
theorem release_with_refcount (S : stringpool) (page sec r : Nat)
    (pp : stringid_page) (hpage : page < S.pages) (hsec : sec < 0x10000)
    (hpp : (S.p page).p = some pp) (hr : r < 0xffff) :
    stringid_release (with_refcount S page sec (r + 1)) ((page <<< 16) ||| sec)
      = some (with_refcount S page sec r) := by
  rw [with_refcount_eq S page sec r pp hpp, with_refcount_eq S page sec (r + 1) pp hpp]
  simp only [stringid_release, id_page page sec hsec, id_sec page sec hsec, set_index_pages,
    hpage, if_true, set_index_p_same, get_set_number pp sec (r + 1) (by omega),
    set_index_set_index, set_number_set_number]
  simp

theorem clone_times_with_refcount (S : stringpool) (mem : stringid_page) (page sec : Nat)
    (pp : stringid_page) (hpage : page < S.pages) (hsec : sec < 0x10000)
    (hpp : (S.p page).p = some pp) :
    ∀ (n r : Nat), r + n ≤ 0xffff →
      clone_times mem ((page <<< 16) ||| sec) n (with_refcount S page sec r)
        = some (with_refcount S page sec (r + n), List.replicate n ((page <<< 16) ||| sec)) := by
  intro n
  induction n with
  | zero => intro r _; rfl
  | succ n ih =>
    intro r hr
    simp only [clone_times, clone_with_refcount S mem page sec r pp hpage hsec hpp (by omega),
      ih (r + 1) (by omega)]
    rw [Nat.add_right_comm, Nat.add_assoc]
    rfl

theorem release_times_with_refcount (S : stringpool) (page sec : Nat)
    (pp : stringid_page) (hpage : page < S.pages) (hsec : sec < 0x10000)
    (hpp : (S.p page).p = some pp) :
    ∀ (j r : Nat), r + j ≤ 0xffff →
      release_times ((page <<< 16) ||| sec) j (with_refcount S page sec (r + j))
        = some (with_refcount S page sec r) := by
  intro j
  induction j with
  | zero => intro r _; rfl
  | succ j ih =>
    intro r hr
    have := release_with_refcount S page sec (r + j) pp hpage hsec hpp (by omega)
    simp only [release_times]
    rw [show r + (j + 1) = r + j + 1 by omega, this]
    exact ih r (by omega)

/-! ## The chain a create leaves -/

theorem iterate_congr (h1 h : Nat → Nat) (sec m : Nat)
    (hagree : ∀ i, i < m → h1 (h^[i] sec) = h (h^[i] sec)) :
    ∀ i, i ≤ m → h1^[i] sec = h^[i] sec := by
  intro i
  induction i with
  | zero => intro _; rfl
  | succ i ih =>
    intro hi
    rw [Function.iterate_succ_apply', Function.iterate_succ_apply', ih (by omega),
      hagree i (by omega)]

/-- The header walk over a chain of `k` different sections whose last header
entry has been set to point to itself. -/
theorem chain_walk_created (h h1 : Nat → Nat) (sec k step acc fuel : Nat) (hk : 0 < k)
    (hfuel : k ≤ fuel)
    (hnd : ∀ i j, i < j → j < k → h^[i] sec ≠ h^[j] sec)
    (hh1 : h1 = fun x => if x = h^[k - 1] sec then x else h x) :
    (∀ i, i ≤ k - 1 → h1^[i] sec = h^[i] sec) ∧
    chain_walk h1 step fuel sec acc = some (h^[k - 1] sec, acc + step * (k - 1)) := by
  have hagree : ∀ i, i < k - 1 → h1 (h^[i] sec) = h (h^[i] sec) := by
    intro i hi
    rw [hh1]
    simp only
    rw [if_neg (hnd i (k - 1) hi (by omega))]
  have hit := iterate_congr h1 h sec (k - 1) hagree
  refine ⟨hit, ?_⟩
  have := chain_walk_spec h1 step (k - 1) fuel sec acc (by omega)
    (fun i hi => by
      rw [hit i (by omega), hagree i hi]
      intro e
      have := hnd i (i + 1) (by omega) (by omega)
      rw [Function.iterate_succ_apply'] at this
      exact this e.symm)
    (by rw [hit _ (le_refl _), hh1]; simp)
  rw [this, hit _ (le_refl _)]

theorem new_page_pages (S S1 : stringpool) (mem : stringid_page) (page : Nat)
    (h : new_page S mem page = some S1) : page < S1.pages ∧ S.pages ≤ S1.pages := by
  unfold new_page at h
  split_ifs at h with h1
  split at h
  · cases h
  · simp only [set_index_pages] at h
    split_ifs at h with h2
    · cases h
      simp only
      omega
    · cases h
      simp only [set_index_pages]
      omega

theorem find_page_loop_lt (S : stringpool) (mem : stringid_page) (n : Nat) :
    ∀ (k : Nat) (pp0 : Option stringid_page) (S1 : stringpool) (i : Int)
      (pp1 : Option stringid_page), k ≤ S.pages →
      find_page_loop S mem n k pp0 = some (S1, i, pp1) → i < S1.pages ∧ S.pages ≤ S1.pages := by
  intro k
  induction k with
  | zero =>
    intro pp0 S1 i pp1 _ h
    simp only [find_page_loop, Option.some.injEq, Prod.mk.injEq] at h
    obtain ⟨rfl, rfl, _⟩ := h
    omega
  | succ k ih =>
    intro pp0 S1 i pp1 hk h
    simp only [find_page_loop] at h
    split at h
    · split at h
      · cases h
      · rename_i S2 hnp
        simp only [Option.some.injEq, Prod.mk.injEq] at h
        obtain ⟨rfl, rfl, _⟩ := h
        have := new_page_pages S S2 mem k hnp
        omega
    · split_ifs at h
      · simp only [Option.some.injEq, Prod.mk.injEq] at h
        obtain ⟨rfl, rfl, _⟩ := h
        omega
      · exact ih _ S1 i pp1 (by omega) h

/-- A page index `find_page` returns is below the page count. -/
theorem find_page_lt (S S1 : stringpool) (mem : stringid_page) (n : Nat) (i : Int)
    (h : find_page S mem n = some (S1, i)) : i < S1.pages := by
  unfold find_page at h
  split at h
  · cases h
  · rename_i S2 j pp hl
    have := find_page_loop_lt S mem n S.pages none S2 j pp (le_refl _) hl
    split at h
    · simp only [Option.some.injEq, Prod.mk.injEq] at h
      obtain ⟨rfl, rfl⟩ := h
      exact this.1
    · split at h
      · cases h
      · rename_i S3 hnp
        simp only [Option.some.injEq, Prod.mk.injEq] at h
        obtain ⟨rfl, rfl⟩ := h
        have := new_page_pages S2 S3 mem S2.pages hnp
        omega

/-- The release of a string whose stored refcount is 0 and whose chain ends
after `n` sections at `last`. -/
theorem release_last (S : stringpool) (page sec last n : Nat) (pp : stringid_page)
    (hpage : page < S.pages) (hsec : sec < 0x10000) (hpp : (S.p page).p = some pp)
    (hcount : get_number pp sec = 0)
    (hwalk : chain_walk pp.header 1 SECTIONS sec 1 = some (last, n)) :
    stringid_release S ((page <<< 16) ||| sec) = some (set_index S page
      { freeslot := (S.p page).freeslot + (n : Int), freelist := sec,
        p := some (if (S.p page).freeslot = 0 then padding_free pp last
                   else set_header pp last (S.p page).freelist) }) := by
  simp only [stringid_release, id_page page sec hsec, id_sec page sec hsec, hpage, if_true, hpp,
    hcount, hwalk]

theorem release_times_succ_last (id : Nat) : ∀ (j : Nat) (S : stringpool),
    release_times id (j + 1) S = (release_times id j S).bind (fun T => stringid_release T id) := by
  intro j
  induction j with
  | zero =>
    intro S
    simp only [release_times, Option.some_bind]
    cases h : stringid_release S id <;> rfl
  | succ j ih =>
    intro S
    rw [release_times]
    cases h : stringid_release S id with
    | none => simp [release_times, h]
    | some S1 =>
      simp only
      rw [ih S1]
      conv_rhs => rw [release_times, h]

/-- What `with_refcount` leaves alone: everything but `data[sec][0..1]`. -/
theorem with_refcount_frame (S : stringpool) (page sec r : Nat) (pp : stringid_page)
    (h : (S.p page).p = some pp) :
    (with_refcount S page sec r).pages = S.pages ∧
    (∀ i, i ≠ page → (with_refcount S page sec r).p i = S.p i) ∧
    ((with_refcount S page sec r).p page).freeslot = (S.p page).freeslot ∧
    ((with_refcount S page sec r).p page).freelist = (S.p page).freelist ∧
    ∃ ppr, ((with_refcount S page sec r).p page).p = some ppr ∧ ppr.header = pp.header ∧
      ∀ s j, ¬ (s = sec ∧ j < 2) → ppr.data s j = pp.data s j := by
  rw [with_refcount_eq S page sec r pp h]
  refine ⟨rfl, fun i hi => set_index_p_ne _ _ _ _ hi, by simp, by simp,
    set_number pp sec r, by simp, rfl, ?_⟩
  intro s j hsj
  have : ¬ (s = sec ∧ j = 0) := fun h => hsj ⟨h.1, by omega⟩
  have : ¬ (s = sec ∧ j = 1) := fun h => hsj ⟨h.1, by omega⟩
  simp [set_number, set_data, *]

/-- The refcount law on a page with enough free sections.  Let
`stringid_create` store `str` in a page whose free list starts with
`chain_sections |str|` different sections.  The id it returns has stored
refcount 0 and a chain of `k = chain_sections |str|` sections.  For every
`n ≤ 0xFFFF`, `n` calls of `stringid_clone(id)` all return `id` and leave the
pool as it was except for the stored refcount, now `n`; each of the first `n`
calls of `stringid_release(id)` only decrements the stored refcount (after `j`
of them the pool is the pool after the create with refcount `n-j`); the
`(n+1)`-th release returns the chain to the free list: `freeslot` grows by `k`
and `freelist` becomes the head section of id. -/
theorem refcount_law (S0 Sf : stringpool) (mem pp : stringid_page) (str : List Nat)
    (page n : Nat)
    (hf : find_page S0 mem (count_slots str.length) = some (Sf, (page : Int)))
    (hpp : (Sf.p page).p = some pp)
    (hsec : (Sf.p page).freelist < 0x10000)
    (hnd : (sections_from pp.header (Sf.p page).freelist (chain_sections str.length)).Nodup)
    (hfit : chain_sections str.length ≤ SECTIONS)
    (hn : n ≤ 0xffff) :
    ∃ S1 id pp1, stringid_create S0 mem str = some (S1, id) ∧
      (S1.p (id >>> 16)).p = some pp1 ∧
      get_number pp1 (id &&& 0xffff) = 0 ∧
      count_slots_in_header pp1 (id &&& 0xffff) = some (chain_sections str.length) ∧
      clone_times mem id n S1
        = some (with_refcount S1 (id >>> 16) (id &&& 0xffff) n, List.replicate n id) ∧
      (∀ j, j ≤ n →
        release_times id j (with_refcount S1 (id >>> 16) (id &&& 0xffff) n)
          = some (with_refcount S1 (id >>> 16) (id &&& 0xffff) (n - j))) ∧
      with_refcount S1 (id >>> 16) (id &&& 0xffff) 0 = S1 ∧
      (∀ r, ((with_refcount S1 (id >>> 16) (id &&& 0xffff) r).p (id >>> 16)).freeslot
            = (S1.p (id >>> 16)).freeslot ∧
          ((with_refcount S1 (id >>> 16) (id &&& 0xffff) r).p (id >>> 16)).freelist
            = (S1.p (id >>> 16)).freelist ∧
          ∃ ppr, ((with_refcount S1 (id >>> 16) (id &&& 0xffff) r).p (id >>> 16)).p = some ppr ∧
            ppr.header = pp1.header ∧
            ∀ s j, ¬ (s = id &&& 0xffff ∧ j < 2) → ppr.data s j = pp1.data s j) ∧
      ∃ S2, release_times id (n + 1) (with_refcount S1 (id >>> 16) (id &&& 0xffff) n) = some S2 ∧
        (S2.p (id >>> 16)).freeslot
          = (S1.p (id >>> 16)).freeslot + (chain_sections str.length : Int) ∧
        (S2.p (id >>> 16)).freelist = id &&& 0xffff := by
  have hpg : page < Sf.pages := by
    have := find_page_lt S0 Sf mem _ _ hf
    exact_mod_cast this
  have hnd' := sections_from_nodup _ _ _ hnd
  have hkpos : 0 < chain_sections str.length := by unfold chain_sections; omega
  obtain ⟨pp1, e1, e2, _, e4, e5, _⟩ := create_in_page_spec (Sf.p page) pp str hnd'
  have hc := stringid_create_of_find S0 Sf mem str page pp hf hpp
  rw [e1] at hc
  simp only [Option.map_some'] at hc
  generalize hsec' : (Sf.p page).freelist = sec at *
  generalize hS1 : set_index Sf page
    { freeslot := (Sf.p page).freeslot - (chain_sections str.length : Int),
      freelist := pp.header (pp.header^[chain_sections str.length - 1] sec),
      p := some pp1 } = S1 at hc
  have hpp1 : (S1.p page).p = some pp1 := by rw [← hS1]; simp
  have hpg1 : page < S1.pages := by rw [← hS1]; exact hpg
  have hcount : get_number pp1 sec = 0 := by
    rw [get_number_eq _ _ (by rw [e4]; omega) (by rw [e5]; omega), e4, e5]
  obtain ⟨_, hwalk⟩ := chain_walk_created pp.header pp1.header sec (chain_sections str.length)
    1 1 SECTIONS hkpos hfit hnd' e2
  have hwalk' : chain_walk pp1.header 1 SECTIONS sec 1
      = some (pp.header^[chain_sections str.length - 1] sec, chain_sections str.length) := by
    rw [hwalk]
    simp only [Option.some.injEq, Prod.mk.injEq, true_and]
    omega
  have hzero := with_refcount_zero S1 page sec pp1 hpp1 e4 e5
  refine ⟨S1, (page <<< 16) ||| sec, pp1, hc, ?_⟩
  rw [id_page page sec hsec, id_sec page sec hsec]
  refine ⟨hpp1, hcount, ?_, ?_, ?_, hzero, ?_, ?_⟩
  · simp [count_slots_in_header, hwalk']
  · have := clone_times_with_refcount S1 mem page sec pp1 hpg1 hsec hpp1 n 0 (by omega)
    rw [hzero, Nat.zero_add] at this
    exact this
  · intro j hj
    have := release_times_with_refcount S1 page sec pp1 hpg1 hsec hpp1 j (n - j) (by omega)
    rw [show n - j + j = n by omega] at this
    exact this
  · intro r
    obtain ⟨_, _, h3, h4, h5⟩ := with_refcount_frame S1 page sec r pp1 hpp1
    exact ⟨h3, h4, h5⟩
  · have hrel := release_times_with_refcount S1 page sec pp1 hpg1 hsec hpp1 n 0 (by omega)
    rw [Nat.zero_add, hzero] at hrel
    rw [release_times_succ_last, hrel]
    simp only [Option.some_bind]
    rw [release_last S1 page sec _ _ pp1 hpg1 hsec hpp1 hcount hwalk']
    exact ⟨_, rfl, by simp, by simp⟩

theorem refcount_law_witness :
    find_page hello_pool zero_mem (count_slots abc15.length) = some (hello_pool, ((0 : Nat) : Int)) ∧
    (hello_pool.p 0).p = some hello_page ∧
    (hello_pool.p 0).freelist < 0x10000 ∧
    (sections_from hello_page.header (hello_pool.p 0).freelist
      (chain_sections abc15.length)).Nodup ∧
    chain_sections abc15.length ≤ SECTIONS ∧ 3 ≤ 0xffff ∧
    ∃ S1 id pp1, stringid_create hello_pool zero_mem abc15 = some (S1, id) ∧
      (S1.p (id >>> 16)).p = some pp1 ∧
      get_number pp1 (id &&& 0xffff) = 0 ∧
      count_slots_in_header pp1 (id &&& 0xffff) = some (chain_sections abc15.length) ∧
      clone_times zero_mem id 3 S1
        = some (with_refcount S1 (id >>> 16) (id &&& 0xffff) 3, List.replicate 3 id) ∧
      (∀ j, j ≤ 3 →
        release_times id j (with_refcount S1 (id >>> 16) (id &&& 0xffff) 3)
          = some (with_refcount S1 (id >>> 16) (id &&& 0xffff) (3 - j))) ∧
      with_refcount S1 (id >>> 16) (id &&& 0xffff) 0 = S1 ∧
      (∀ r, ((with_refcount S1 (id >>> 16) (id &&& 0xffff) r).p (id >>> 16)).freeslot
            = (S1.p (id >>> 16)).freeslot ∧
          ((with_refcount S1 (id >>> 16) (id &&& 0xffff) r).p (id >>> 16)).freelist
            = (S1.p (id >>> 16)).freelist ∧
          ∃ ppr, ((with_refcount S1 (id >>> 16) (id &&& 0xffff) r).p (id >>> 16)).p = some ppr ∧
            ppr.header = pp1.header ∧
            ∀ s j, ¬ (s = id &&& 0xffff ∧ j < 2) → ppr.data s j = pp1.data s j) ∧
      ∃ S2, release_times id (3 + 1) (with_refcount S1 (id >>> 16) (id &&& 0xffff) 3) = some S2 ∧
        (S2.p (id >>> 16)).freeslot
          = (S1.p (id >>> 16)).freeslot + (chain_sections abc15.length : Int) ∧
        (S2.p (id >>> 16)).freelist = id &&& 0xffff :=
  ⟨find_page_top hello_pool zero_mem _ 0 hello_page (by decide) rfl (by decide), rfl, by decide,
    by decide, by decide, by decide,
    refcount_law hello_pool hello_pool zero_mem hello_page abc15 0 3
      (find_page_top hello_pool zero_mem _ 0 hello_page (by decide) rfl (by decide)) rfl
      (by decide) (by decide) (by decide) (by decide)⟩

/-! ## The refcount on a page with too few free sections -/

theorem near_full_length : near_full.length = 917479 :=
  List.length_replicate 917479 97

/-- The pool after `stringid_create` of `near_full` in a new pool: page 0 has
one free section, section 65535. -/
theorem create_near_full_spec :
    ∃ S pp, stringid_create stringid_newpool zero_mem near_full = some (S, 0) ∧ S.pages = 1 ∧
      (S.p 0).freeslot = 1 ∧ (S.p 0).freelist = 0xffff ∧ (S.p 0).p = some pp ∧
      pp.header 0xffff = 0xffff := by
  have hk : chain_sections near_full.length = 0xffff := by
    rw [near_full_length]; rfl
  obtain ⟨S, pp, h1, h2, h3, h4, h5, h6, _⟩ :=
    create_newpool_spec zero_mem near_full (by rw [hk]; decide)
  rw [hk] at h3 h4 h6
  refine ⟨S, pp, h1, h2, by simpa using h3, by simpa using h4, h5, ?_⟩
  rw [h6]
  simp

/-- "abcdefghijklmno" needs two sections.  On a free list that holds the one
section 65535 both rounds of `stringid_create` write into that section: the
tail "mno" lands on the refcount bytes. -/
theorem create_abc15_on_last_section (idx : stringid_index) (pp : stringid_page)
    (hfl : idx.freelist = 0xffff) (hh : pp.header 0xffff = 0xffff) :
    ∃ pp1, create_in_page idx pp abc15
        = some { freeslot := idx.freeslot - 2, freelist := 0xffff, p := some pp1 } ∧
      pp1.header = pp.header ∧ pp1.data 0xffff 0 = 109 ∧ pp1.data 0xffff 1 = 110 := by
  refine ⟨(set_header
      (create_pad
        (set_data
          (memcpy_to
            (memcpy_to (set_data (set_data pp 65535 0 0) 65535 1 0) 65535 2
              [97, 98, 99, 100, 101, 102, 103, 104, 105, 106, 107, 108])
            65535 0 [109, 110, 111])
          65535 3 0)
        65535 4)
      65535 65535), ?_, ?_, ?_, ?_⟩
  · simp only [create_in_page, hfl, abc15, STRING_SECTION, List.length_cons, List.length_nil,
      create_loop, set_data_header, memcpy_to_header, hh, create_pad_header]
    norm_num
  · funext x
    simp only [set_header, create_pad_header, set_data_header, memcpy_to_header]
    split_ifs with hx
    · rw [hx, hh]
    · rfl
  · simp [set_header, create_pad_data, set_data, memcpy_to]
  · simp [set_header, create_pad_data, set_data, memcpy_to]

/-- C8. The refcount law fails for an id that `stringid_create` has just
returned: `near_full` leaves one free section in page 0 of a new pool;
`count_slots(15) == 1`, so the next `stringid_create` of "abcdefghijklmno",
which needs two sections, is served from that page.  Both rounds write into
section 65535, the returned id is 65535 and its stored refcount is 28269 (the
bytes "mn"), not 0; `freeslot` is -1.  The first `stringid_release` of the id
only decrements the stored refcount to 28268: nothing goes back to the free
list, `freeslot` stays -1 and the header is as before. -/
theorem refcount_lost_on_crowded_page :
    ∃ S1 S2 pp2 S3 pp3,
      stringid_create stringid_newpool zero_mem near_full = some (S1, 0) ∧
      (S1.p 0).freeslot = 1 ∧
      stringid_create S1 zero_mem abc15 = some (S2, 0xffff) ∧
      (S2.p 0).p = some pp2 ∧ get_number pp2 0xffff = 28269 ∧ (S2.p 0).freeslot = -1 ∧
      stringid_release S2 0xffff = some S3 ∧ (S3.p 0).p = some pp3 ∧
      get_number pp3 0xffff = 28268 ∧ (S3.p 0).freeslot = -1 ∧
      (S3.p 0).freelist = (S2.p 0).freelist ∧ pp3.header = pp2.header := by
  obtain ⟨S1, pp, h1, h2, h3, h4, h5, h6⟩ := create_near_full_spec
  have hc1 : count_slots abc15.length = 1 := by decide
  have hf : find_page S1 zero_mem (count_slots abc15.length) = some (S1, ((0 : Nat) : Int)) :=
    find_page_top S1 zero_mem _ 0 pp h2 h5 (by rw [hc1, h3]; decide)
  obtain ⟨pp2, e1, e2, e3, e4⟩ := create_abc15_on_last_section (S1.p 0) pp h4 h6
  have hc := stringid_create_of_find S1 S1 zero_mem abc15 0 pp hf h5
  rw [e1, h4, h3] at hc
  simp only [Option.map_some'] at hc
  have hid : (0 <<< 16) ||| 0xffff = 0xffff := by decide
  rw [hid] at hc
  have hn2 : get_number pp2 0xffff = 28269 := by
    rw [get_number_eq _ _ (by rw [e3]; omega) (by rw [e4]; omega), e3, e4]
  have hp1 : (0xffff : Nat) >>> 16 = 0 := by decide
  have hp2 : (0xffff : Nat) &&& 0xffff = 0xffff := by decide
  refine ⟨S1, _, pp2, set_index (set_index S1 0
      { freeslot := 1 - 2, freelist := 0xffff, p := some pp2 }) 0
      { freeslot := 1 - 2, freelist := 0xffff, p := some (set_number pp2 0xffff 28268) },
    set_number pp2 0xffff 28268, h1, h3, hc, by simp, hn2, by simp, ?_, by simp, ?_, by simp,
    by simp, by simp⟩
  · simp only [stringid_release, hp1, hp2, set_index_pages, h2, set_index_p_same, hn2]
    simp
  · exact get_set_number pp2 0xffff 28268 (by omega)

/-! ## Clone at saturation -/

theorem find_page_loop_room (S : stringpool) (mem : stringid_page) (n : Nat) :
    ∀ (m : Nat) (pp0 : Option stringid_page),
      (∀ i, i < m → (S.p i).p.isSome = true) →
      (∃ i, i < m ∧ (n : Int) ≤ (S.p i).freeslot) →
      ∃ i pg, i < m ∧ (n : Int) ≤ (S.p i).freeslot ∧
        find_page_loop S mem n m pp0 = some (S, (i : Int), some pg) := by
  intro m
  induction m with
  | zero =>
    intro pp0 _ hroom
    obtain ⟨i, hi, _⟩ := hroom
    omega
  | succ m ih =>
    intro pp0 hall hroom
    obtain ⟨pg, hpg⟩ := Option.isSome_iff_exists.1 (hall m (by omega))
    by_cases hm : (n : Int) ≤ (S.p m).freeslot
    · exact ⟨m, pg, by omega, hm, by simp [find_page_loop, hpg, hm]⟩
    · obtain ⟨i, hi, hr⟩ := hroom
      have him : i < m := by
        by_cases e : i = m
        · subst e; exact absurd hr hm
        · omega
      obtain ⟨i', pg', h1, h2, h3⟩ := ih (some pg) (fun j hj => hall j (by omega)) ⟨i, him, hr⟩
      exact ⟨i', pg', by omega, h2, by simp [find_page_loop, hpg, hm, h3]⟩

/-- When every touched page is allocated and one of them has `n` free slots,
`find_page` returns such a page and leaves the pool as it is. -/
theorem find_page_room (S : stringpool) (mem : stringid_page) (n : Nat)
    (hall : ∀ i, i < S.pages → (S.p i).p.isSome = true)
    (hroom : ∃ i, i < S.pages ∧ (n : Int) ≤ (S.p i).freeslot) :
    ∃ i, i < S.pages ∧ (n : Int) ≤ (S.p i).freeslot ∧ find_page S mem n = some (S, (i : Int)) := by
  obtain ⟨i, pg, h1, h2, h3⟩ := find_page_loop_room S mem n S.pages none hall hroom
  exact ⟨i, h1, h2, by simp [find_page, h3]⟩

theorem chain_walk_ge (h : Nat → Nat) (step : Nat) : ∀ (fuel sec acc last n : Nat),
    chain_walk h step fuel sec acc = some (last, n) → acc ≤ n := by
  intro fuel
  induction fuel with
  | zero => intro sec acc last n h0; simp [chain_walk] at h0
  | succ fuel ih =>
    intro sec acc last n h0
    simp only [chain_walk] at h0
    split_ifs at h0 with h1
    · have := ih _ _ _ _ h0
      omega
    · simp only [Option.some.injEq, Prod.mk.injEq] at h0
      omega

/-- The copy loop of `stringid_clone`: `n` sections are copied from the source
chain to the first `n` sections of the destination free list, which are
different from each other and, when both are in one page, from the source
sections. -/
theorem clone_loop_spec (sp : Option stringid_page) (hs hd : Nat → Nat) :
    ∀ (n : Nat) (dp : stringid_page) (dsec sec lastsec : Nat),
      dp.header = hd →
      (∀ q, sp = some q → q.header = hs) → (sp = none → hd = hs) →
      (∀ i j, i < j → j < n → hd^[i] dsec ≠ hd^[j] dsec) →
      (sp = none → ∀ i j, i < n → j < n → hd^[i] dsec ≠ hs^[j] sec) →
      (clone_loop sp n dp dsec sec lastsec).1.header = hd ∧
      (clone_loop sp n dp dsec sec lastsec).2.1 = hd^[n] dsec ∧
      (0 < n → (clone_loop sp n dp dsec sec lastsec).2.2 = hd^[n - 1] dsec) ∧
      (∀ x, (∀ i, i < n → x ≠ hd^[i] dsec) →
        (clone_loop sp n dp dsec sec lastsec).1.data x = dp.data x) ∧
      (∀ i j, i < n → j < 14 →
        (clone_loop sp n dp dsec sec lastsec).1.data (hd^[i] dsec) j
          = (match sp with
             | some q => q
             | none => dp).data (hs^[i] sec) j) := by
  intro n
  induction n with
  | zero =>
    intro dp dsec sec lastsec hdp _ _ _ _
    refine ⟨hdp, rfl, fun h => by omega, fun x _ => rfl, fun i j hi => by omega⟩
  | succ n ih =>
    intro dp dsec sec lastsec hdp hsp1 hsp2 hnd hdisj
    have hsrc : (match sp with
        | some q => q
        | none => dp).header = hs := by
      cases sp with
      | none => simp only; rw [hdp]; exact hsp2 rfl
      | some q => exact hsp1 q rfl
    have itd : ∀ i, hd^[i] (hd dsec) = hd^[i + 1] dsec := fun i =>
      (Function.iterate_succ_apply hd i dsec).symm
    have its : ∀ i, hs^[i] (hs sec) = hs^[i + 1] sec := fun i =>
      (Function.iterate_succ_apply hs i sec).symm
    obtain ⟨e1, e2, e3, e4, e5⟩ := ih
      (memcpy_section dp dsec ((match sp with
        | some q => q
        | none => dp).data sec)) (hd dsec) (hs sec) dsec
      (by simp [hdp]) hsp1 hsp2
      (fun i j hij hj => by rw [itd, itd]; exact hnd (i + 1) (j + 1) (by omega) (by omega))
      (fun h0 i j hi hj => by rw [itd, its]; exact hdisj h0 (i + 1) (j + 1) (by omega) (by omega))
    have hstep : clone_loop sp (n + 1) dp dsec sec lastsec
        = clone_loop sp n (memcpy_section dp dsec ((match sp with
            | some q => q
            | none => dp).data sec)) (hd dsec) (hs sec) dsec := by
      simp only [clone_loop, memcpy_section_header, hdp, hsrc]
    rw [hstep]
    refine ⟨e1, ?_, ?_, ?_, ?_⟩
    · rw [e2, itd]
    · intro _
      by_cases hn : n = 0
      · subst hn
        simp [clone_loop]
      · rw [e3 (by omega), itd]
        congr 1
        omega
    · intro x hx
      rw [e4 x (fun i hi => by rw [itd]; exact hx (i + 1) (by omega))]
      have hx0 : x ≠ dsec := by simpa using hx 0 (by omega)
      funext j
      simp [memcpy_section, hx0]
    · intro i j hi hj
      by_cases hi0 : i = 0
      · subst hi0
        simp only [Function.iterate_zero, id_eq]
        rw [e4 dsec (fun i hi => by
          rw [itd]
          have := hnd 0 (i + 1) (by omega) (by omega)
          simpa using this)]
        simp [memcpy_section, STRING_SECTION, hj]
      · have := e5 (i - 1) j (by omega) hj
        rw [itd, its, show i - 1 + 1 = i by omega] at this
        rw [this]
        cases sp with
        | some q => rfl
        | none =>
          simp only
          have hne : hs^[i] sec ≠ dsec := by
            have := hdisj rfl 0 i (by omega) hi
            simpa using this.symm
          simp [memcpy_section, hne]

theorem id_decompose (id : Nat) : ((id >>> 16) <<< 16) ||| (id &&& 0xffff) = id := by
  have h1 : id &&& 0xffff = id % 65536 := by
    have := Nat.and_pow_two_sub_one_eq_mod id 16
    simpa using this
  rw [h1, id_or_eq_add _ _ (Nat.mod_lt _ (by omega)), Nat.shiftRight_eq_div_pow]
  have := Nat.div_add_mod id 65536
  norm_num
  omega

theorem id_sec_lt (id : Nat) : id &&& 0xffff < 0x10000 := by
  have h1 : id &&& 0xffff = id % 65536 := by
    have := Nat.and_pow_two_sub_one_eq_mod id 16
    simpa using this
  rw [h1]
  omega

theorem set_number_self (p : stringid_page) (sec : Nat)
    (h0 : p.data sec 0 < 256) (h1 : p.data sec 1 < 256) :
    set_number p sec (get_number p sec) = p := by
  rw [get_number_eq p sec h0 h1]
  cases p with
  | mk header data =>
    simp only at h0 h1
    unfold set_number set_data
    simp only [and_ff, Nat.shiftRight_eq_div_pow]
    congr 1
    funext s j
    by_cases c1 : s = sec ∧ j = 1
    · rw [if_pos c1, c1.1, c1.2]
      norm_num
      omega
    · rw [if_neg c1]
      by_cases c0 : s = sec ∧ j = 0
      · rw [if_pos c0, c0.1, c0.2]
        omega
      · rw [if_neg c0]

theorem with_refcount_self (S : stringpool) (page sec : Nat) (pp : stringid_page)
    (h : (S.p page).p = some pp) (h0 : pp.data sec 0 < 256) (h1 : pp.data sec 1 < 256) :
    with_refcount S page sec (get_number pp sec) = S := by
  rw [with_refcount_eq S page sec _ pp h, set_number_self pp sec h0 h1]
  apply set_index_self
  rw [← h]

theorem with_refcount_p (S : stringpool) (page sec r : Nat) (pp : stringid_page)
    (h : (S.p page).p = some pp) :
    ((with_refcount S page sec r).p page).p = some (set_number pp sec r) := by
  rw [with_refcount_eq S page sec r pp h]
  simp

theorem with_refcount_with_refcount (S : stringpool) (page sec a b : Nat) (pp : stringid_page)
    (h : (S.p page).p = some pp) :
    with_refcount (with_refcount S page sec a) page sec b = with_refcount S page sec b := by
  rw [with_refcount_eq _ page sec b _ (with_refcount_p S page sec a pp h),
    with_refcount_eq S page sec a pp h, with_refcount_eq S page sec b pp h,
    set_index_set_index, set_number_set_number]
  simp

theorem clone_times_succ_last (mem : stringid_page) (id : Nat) : ∀ (n : Nat) (S : stringpool),
    clone_times mem id (n + 1) S = (clone_times mem id n S).bind (fun q =>
      (stringid_clone q.1 mem id).map (fun r => (r.1, q.2 ++ [r.2]))) := by
  intro n
  induction n with
  | zero =>
    intro S
    simp only [clone_times, Option.some_bind]
    cases h : stringid_clone S mem id <;> rfl
  | succ n ih =>
    intro S
    rw [clone_times]
    cases h : stringid_clone S mem id with
    | none => simp [clone_times, h]
    | some r =>
      simp only
      rw [ih r.1]
      conv_rhs => rw [clone_times, h]
      simp only
      cases h2 : clone_times mem id n r.1 with
      | none => rfl
      | some q =>
        simp only [Option.some_bind]
        cases stringid_clone q.1 mem id <;> rfl

/-- C7. Clone at saturation.  Let the stored refcount of `id` be 0xFFFF and
its chain have `k` sections; let every touched page be allocated, some touched
page have `freeslot ≥ k`, and in every such page let the first `k` sections of
the free list be different 16-bit indices that are not sections of the source
chain.  Then `stringid_clone` returns an id different from `id`, in a page
`dpage` with `freeslot ≥ k`; the new chain has exactly `k` sections, whose 14
bytes each equal those of the source section at the same place, except that
the two refcount bytes of the new head are 0; the source's stored refcount is
still 0xFFFF; `freeslot` of `dpage` has decreased by exactly `k`.
Consequently, whatever the stored refcount `r0` was before, the first
`0xFFFF - r0 + 1` (at most 0x10000) clones of `id` return that new id. -/
theorem stringid_clone_saturated (S : stringpool) (mem pp : stringid_page) (id k : Nat)
    (hpage : id >>> 16 < S.pages)
    (hpp : (S.p (id >>> 16)).p = some pp)
    (hbytes : pp.data (id &&& 0xffff) 0 < 256 ∧ pp.data (id &&& 0xffff) 1 < 256)
    (hr : get_number pp (id &&& 0xffff) = 0xffff)
    (hk : count_slots_in_header pp (id &&& 0xffff) = some k)
    (hall : ∀ i, i < S.pages → (S.p i).p.isSome = true)
    (hroom : ∃ i, i < S.pages ∧ (k : Int) ≤ (S.p i).freeslot)
    (hfree : ∀ i, i < S.pages → (k : Int) ≤ (S.p i).freeslot →
      (free_sections S i k).Nodup ∧ (∀ x ∈ free_sections S i k, x < 0x10000) ∧
      (i = id >>> 16 →
        ∀ x ∈ free_sections S i k, x ∉ sections_from pp.header (id &&& 0xffff) k)) :
    ∃ dpage dp S' dp' sp', dpage < S.pages ∧ (S.p dpage).p = some dp ∧
      (k : Int) ≤ (S.p dpage).freeslot ∧
      stringid_clone S mem id = some (S', (dpage <<< 16) ||| (S.p dpage).freelist) ∧
      (dpage <<< 16) ||| (S.p dpage).freelist ≠ id ∧
      (S'.p dpage).p = some dp' ∧
      count_slots_in_header dp' (S.p dpage).freelist = some k ∧
      (∀ i j, i < k → j < 14 → ¬ (i = 0 ∧ j < 2) →
        dp'.data (dp'.header^[i] (S.p dpage).freelist) j
          = pp.data (pp.header^[i] (id &&& 0xffff)) j) ∧
      dp'.data (S.p dpage).freelist 0 = 0 ∧ dp'.data (S.p dpage).freelist 1 = 0 ∧
      (S'.p (id >>> 16)).p = some sp' ∧ get_number sp' (id &&& 0xffff) = 0xffff ∧
      (S'.p dpage).freeslot = (S.p dpage).freeslot - (k : Int) ∧
      ∀ r0, r0 ≤ 0xffff → ∃ Sx ids,
        clone_times mem id (0xffff - r0 + 1) (with_refcount S (id >>> 16) (id &&& 0xffff) r0)
          = some (Sx, ids) ∧
        ((dpage <<< 16) ||| (S.p dpage).freelist) ∈ ids := by
  obtain ⟨dpage, hdlt, hdroom, hfp⟩ := find_page_room S mem k hall hroom
  obtain ⟨dp, hdp⟩ := Option.isSome_iff_exists.1 (hall dpage hdlt)
  obtain ⟨hnd0, hlt0, hdisj0⟩ := hfree dpage hdlt hdroom
  have hfs : free_sections S dpage k = sections_from dp.header (S.p dpage).freelist k := by
    simp [free_sections, hdp]
  rw [hfs] at hnd0 hlt0 hdisj0
  generalize hsecdef : id &&& 0xffff = sec at *
  generalize hdsecdef : (S.p dpage).freelist = dsec at *
  have hkpos : 0 < k := by
    unfold count_slots_in_header at hk
    split at hk
    · cases hk
    · rename_i last n hw
      have := chain_walk_ge _ _ _ _ _ _ _ hw
      simp only [Option.some.injEq] at hk
      omega
  have hnd := sections_from_nodup _ _ _ hnd0
  have hdsec : dsec < 0x10000 :=
    hlt0 dsec ((mem_sections_from _ _ _ _).2 ⟨0, hkpos, rfl⟩)
  have hdisj : dpage = id >>> 16 → ∀ i j, i < k → j < k →
      dp.header^[i] dsec ≠ pp.header^[j] sec := by
    intro e i j hi hj he
    exact hdisj0 e _ ((mem_sections_from _ _ _ _).2 ⟨i, hi, rfl⟩)
      ((mem_sections_from _ _ _ _).2 ⟨j, hj, he.symm⟩)
  have hsame : dpage = id >>> 16 → dp = pp := by
    intro e
    rw [e, hpp] at hdp
    exact (Option.some.inj hdp).symm
  -- the copy loop
  obtain ⟨l1, l2, l3, l4, l5⟩ := clone_loop_spec
    (if dpage = id >>> 16 then none else some pp) pp.header dp.header k dp dsec sec dsec rfl
    (fun q hq => by
      split_ifs at hq
      cases hq
      rfl)
    (fun h0 => by
      split_ifs at h0 with e
      rw [hsame e])
    hnd
    (fun h0 => by
      split_ifs at h0 with e
      exact hdisj e)
  have hsrc : ∀ i j, (match (if dpage = id >>> 16 then none else some pp) with
      | some q => q
      | none => dp).data (pp.header^[i] sec) j = pp.data (pp.header^[i] sec) j := by
    intro i j
    by_cases e : dpage = id >>> 16
    · simp only [e, if_true]
      rw [hsame e]
    · simp only [e, if_false]
  generalize hloop : clone_loop (if dpage = id >>> 16 then none else some pp) k dp dsec sec dsec
    = r at *
  have l3' := l3 hkpos
  -- the new chain
  obtain ⟨hit, hwalk⟩ := chain_walk_created dp.header
    (set_data (set_data (set_header r.1 r.2.2 r.2.2) dsec 0 0) dsec 1 0).header dsec k 1 1
    SECTIONS hkpos (by
      have hlen : (sections_from dp.header dsec k).length = k := sections_from_length _ _ _
      have hsub : ∀ x ∈ sections_from dp.header dsec k, x ∈ List.range 0x10000 := fun x hx =>
        List.mem_range.2 (hlt0 x hx)
      have := (List.subperm_of_subset hnd0 hsub).length_le
      rw [hlen, List.length_range] at this
      exact this) hnd (by
      funext x
      simp only [set_data_header, set_header, l1, l3']
      by_cases hx : x = dp.header^[k - 1] dsec
      · simp [hx]
      · simp [hx])
  have hclone : stringid_clone S mem id = some (set_index S dpage
      { freeslot := (S.p dpage).freeslot - (k : Int), freelist := r.2.1,
        p := some (set_data (set_data (set_header r.1 r.2.2 r.2.2) dsec 0 0) dsec 1 0) },
      (dpage <<< 16) ||| dsec) := by
    simp only [stringid_clone, hsecdef, hpage, if_true, hpp, hr, lt_self_iff_false, if_false, hk,
      hfp, Int.toNat_ofNat, hdp, hdsecdef, hloop]
    rw [if_neg (by omega)]
  have hdata : ∀ x j, ¬ (x = dsec ∧ j < 2) →
      (set_data (set_data (set_header r.1 r.2.2 r.2.2) dsec 0 0) dsec 1 0).data x j
        = r.1.data x j := by
    intro x j hxj
    have : ¬ (x = dsec ∧ j = 0) := fun h => hxj ⟨h.1, by omega⟩
    have : ¬ (x = dsec ∧ j = 1) := fun h => hxj ⟨h.1, by omega⟩
    simp [set_data, *]
  have hsrcdata : ∀ j, dpage = id >>> 16 → r.1.data sec j = pp.data sec j := by
    intro j e
    rw [l4 sec (fun i hi he => by
      have := hdisj e i 0 hi hkpos
      simp only [Function.iterate_zero, id_eq] at this
      exact this he.symm), hsame e]
  have hne : (dpage <<< 16) ||| dsec ≠ id := by
    intro e
    have e1 : dpage = id >>> 16 := by rw [← e, id_page dpage dsec hdsec]
    have e2 : dsec = sec := by rw [← hsecdef, ← e, id_sec dpage dsec hdsec]
    have := hdisj e1 0 0 hkpos hkpos
    simp only [Function.iterate_zero, id_eq] at this
    exact this e2
  have hsp : ∃ sp', ((set_index S dpage
      { freeslot := (S.p dpage).freeslot - (k : Int), freelist := r.2.1,
        p := some (set_data (set_data (set_header r.1 r.2.2 r.2.2) dsec 0 0) dsec 1 0) }).p
        (id >>> 16)).p = some sp' ∧ get_number sp' sec = 0xffff := by
    by_cases e : dpage = id >>> 16
    · refine ⟨set_data (set_data (set_header r.1 r.2.2 r.2.2) dsec 0 0) dsec 1 0,
        by rw [← e]; simp, ?_⟩
      have hsd : sec ≠ dsec := by
        have := hdisj e 0 0 hkpos hkpos
        simp only [Function.iterate_zero, id_eq] at this
        exact fun h => this h.symm
      unfold get_number
      rw [hdata sec 0 (fun h => hsd h.1), hdata sec 1 (fun h => hsd h.1), hsrcdata 0 e,
        hsrcdata 1 e]
      exact hr
    · refine ⟨pp, ?_, hr⟩
      rw [set_index_p_ne _ _ _ _ (fun h => e h.symm)]
      exact hpp
  obtain ⟨sp', hsp1, hsp2⟩ := hsp
  subst hdsecdef
  refine ⟨dpage, dp, set_index S dpage
      { freeslot := (S.p dpage).freeslot - (k : Int), freelist := r.2.1,
        p := some (set_data (set_data (set_header r.1 r.2.2 r.2.2) (S.p dpage).freelist 0 0) (S.p dpage).freelist 1 0) },
    set_data (set_data (set_header r.1 r.2.2 r.2.2) (S.p dpage).freelist 0 0) (S.p dpage).freelist 1 0, sp', hdlt, hdp, hdroom,
    hclone, hne, by simp, ?_, ?_, ?_, ?_, hsp1, hsp2, by simp, ?_⟩
  · simp only [count_slots_in_header, hwalk]
    simp only [Option.some.injEq]
    omega
  · intro i j hi hj hij
    rw [hit i (by omega)]
    have hx : ¬ (dp.header^[i] (S.p dpage).freelist = (S.p dpage).freelist ∧ j < 2) := by
      intro h
      apply hij
      refine ⟨?_, h.2⟩
      by_contra hi0
      have := hnd 0 i (by omega) hi
      simp only [Function.iterate_zero, id_eq] at this
      exact this h.1.symm
    rw [hdata _ _ hx, l5 i j hi hj, hsrc]
  · simp [set_data]
  · simp [set_data]
  · intro r0 hr0
    have hseclt : sec < 0x10000 := by rw [← hsecdef]; exact id_sec_lt id
    have hidd : ((id >>> 16) <<< 16) ||| sec = id := by rw [← hsecdef]; exact id_decompose id
    have h1 := clone_times_with_refcount (with_refcount S (id >>> 16) sec r0) mem (id >>> 16) sec
      (set_number pp sec r0) (by rw [(with_refcount_frame S _ sec r0 pp hpp).1]; exact hpage)
      hseclt (with_refcount_p S _ sec r0 pp hpp) (0xffff - r0) r0 (by omega)
    rw [with_refcount_with_refcount S _ sec r0 r0 pp hpp,
      with_refcount_with_refcount S _ sec r0 _ pp hpp, hidd,
      show r0 + (0xffff - r0) = 0xffff by omega] at h1
    have h2 := with_refcount_self S (id >>> 16) sec pp hpp hbytes.1 hbytes.2
    rw [hr] at h2
    rw [h2] at h1
    rw [clone_times_succ_last, h1]
    simp only [Option.some_bind, hclone, Option.map_some']
    exact ⟨_, _, rfl, by simp⟩

theorem stringid_clone_saturated_witness :
    (0 : Nat) >>> 16 < sat_pool.pages ∧
    (sat_pool.p (0 >>> 16)).p = some sat_page ∧
    (sat_page.data (0 &&& 0xffff) 0 < 256 ∧ sat_page.data (0 &&& 0xffff) 1 < 256) ∧
    get_number sat_page (0 &&& 0xffff) = 0xffff ∧
    count_slots_in_header sat_page (0 &&& 0xffff) = some 1 ∧
    (∀ i, i < sat_pool.pages → (sat_pool.p i).p.isSome = true) ∧
    (∃ i, i < sat_pool.pages ∧ ((1 : Nat) : Int) ≤ (sat_pool.p i).freeslot) ∧
    (∀ i, i < sat_pool.pages → ((1 : Nat) : Int) ≤ (sat_pool.p i).freeslot →
      (free_sections sat_pool i 1).Nodup ∧ (∀ x ∈ free_sections sat_pool i 1, x < 0x10000) ∧
      (i = 0 >>> 16 →
        ∀ x ∈ free_sections sat_pool i 1, x ∉ sections_from sat_page.header (0 &&& 0xffff) 1)) ∧
    ∃ dpage dp S' dp' sp', dpage < sat_pool.pages ∧ (sat_pool.p dpage).p = some dp ∧
      ((1 : Nat) : Int) ≤ (sat_pool.p dpage).freeslot ∧
      stringid_clone sat_pool zero_mem 0
        = some (S', (dpage <<< 16) ||| (sat_pool.p dpage).freelist) ∧
      (dpage <<< 16) ||| (sat_pool.p dpage).freelist ≠ 0 ∧
      (S'.p dpage).p = some dp' ∧
      count_slots_in_header dp' (sat_pool.p dpage).freelist = some 1 ∧
      (∀ i j, i < 1 → j < 14 → ¬ (i = 0 ∧ j < 2) →
        dp'.data (dp'.header^[i] (sat_pool.p dpage).freelist) j
          = sat_page.data (sat_page.header^[i] (0 &&& 0xffff)) j) ∧
      dp'.data (sat_pool.p dpage).freelist 0 = 0 ∧ dp'.data (sat_pool.p dpage).freelist 1 = 0 ∧
      (S'.p (0 >>> 16)).p = some sp' ∧ get_number sp' (0 &&& 0xffff) = 0xffff ∧
      (S'.p dpage).freeslot = (sat_pool.p dpage).freeslot - ((1 : Nat) : Int) ∧
      ∀ r0, r0 ≤ 0xffff → ∃ Sx ids,
        clone_times zero_mem 0 (0xffff - r0 + 1) (with_refcount sat_pool (0 >>> 16) (0 &&& 0xffff) r0)
          = some (Sx, ids) ∧
        ((dpage <<< 16) ||| (sat_pool.p dpage).freelist) ∈ ids :=
  ⟨by decide, rfl, by decide, by decide, by decide, by decide, ⟨0, by decide, by decide⟩,
    (by
      intro i hi _
      have hi0 : i = 0 := by
        have : i < 1 := hi
        omega
      subst hi0
      exact ⟨by decide, by decide, fun _ => by decide⟩),
    stringid_clone_saturated sat_pool zero_mem sat_page 0 1 (by decide) rfl (by decide)
      (by decide) (by decide) (by decide) ⟨0, by decide, by decide⟩
      (by
        intro i hi _
        have hi0 : i = 0 := by
          have : i < 1 := hi
          omega
        subst hi0
        exact ⟨by decide, by decide, fun _ => by decide⟩)⟩

/-! ## Creating and releasing several strings in the first page -/

theorem release_all_spec : ∀ (rel : List (Nat × Nat)) (S : stringpool) (pp : stringid_page),
    0 < S.pages → (S.p 0).p = some pp →
    (∀ c ∈ rel, c.1 + c.2 ≤ 0x10000 ∧ chain_intact pp c.1 c.2) →
    rel.Pairwise (fun c d => c.1 + c.2 ≤ d.1 ∨ d.1 + d.2 ≤ c.1) →
    ∃ S', release_all (rel.map Prod.fst) S = some S' ∧
      (S'.p 0).freeslot = (S.p 0).freeslot + (((rel.map Prod.snd).sum : Nat) : Int) ∧
      (∀ c, rel.getLast? = some c → (S'.p 0).freelist = c.1) := by
  intro rel
  induction rel with
  | nil =>
    intro S pp _ _ _ _
    exact ⟨S, rfl, by simp, by simp⟩
  | cons c rest ih =>
    intro S pp hpages hpp hall hpw
    obtain ⟨hcb, hk, hlink, hend, hd0, hd1⟩ := hall c (List.mem_cons_self _ _)
    obtain ⟨a, k⟩ := c
    simp only at hcb hk hlink hend hd0 hd1
    have ha : a < 0x10000 := by omega
    have hit := iterate_run pp.header a (k - 1) (fun x h1 h2 => by
      have := hlink (x - a) (by omega)
      rw [show a + (x - a) = x by omega] at this
      exact this)
    have hwalk : chain_walk pp.header 1 SECTIONS a 1 = some (a + (k - 1), k) := by
      have := chain_walk_spec pp.header 1 (k - 1) SECTIONS a 1
        (by simp only [SECTIONS]; omega)
        (fun i hi => by
          rw [hit i (by omega), hlink i hi]
          omega)
        (by rw [hit _ (le_refl _)]; exact hend)
      rw [this, hit _ (le_refl _)]
      simp only [Option.some.injEq, Prod.mk.injEq, true_and]
      omega
    have hcount : get_number pp a = 0 := by
      rw [get_number_eq _ _ (by rw [hd0]; omega) (by rw [hd1]; omega), hd0, hd1]
    have hid : (0 <<< 16) ||| a = a := by
      rw [id_or_eq_add 0 a ha]; omega
    have hrel := release_last S 0 a _ _ pp hpages ha hpp hcount hwalk
    rw [hid] at hrel
    generalize hpp1 : (if (S.p 0).freeslot = 0 then padding_free pp (a + (k - 1))
      else set_header pp (a + (k - 1)) (S.p 0).freelist) = pp1 at hrel
    have hh1 : ∀ x, x ≠ a + (k - 1) → pp1.header x = pp.header x := by
      intro x hx
      rw [← hpp1]
      split_ifs
      · rfl
      · simp [set_header, hx]
    have hdat1 : ∀ x j, j ≠ 13 → pp1.data x j = pp.data x j := by
      intro x j hj
      rw [← hpp1]
      split_ifs
      · simp [padding_free, set_data, STRING_SECTION, hj]
      · rfl
    rw [List.pairwise_cons] at hpw
    obtain ⟨S', e1, e2, e3⟩ := ih
      (set_index S 0 { freeslot := (S.p 0).freeslot + (k : Int), freelist := a, p := some pp1 })
      pp1 hpages (by simp)
      (fun d hd => by
        obtain ⟨hdb, hdk, hdlink, hdend, hdd0, hdd1⟩ := hall d (List.mem_cons_of_mem _ hd)
        have hdis := hpw.1 d hd
        simp only at hdis
        refine ⟨hdb, hdk, ?_, ?_, ?_, ?_⟩
        · intro i hi
          rw [hh1 _ (by omega)]
          exact hdlink i hi
        · rw [hh1 _ (by omega)]
          exact hdend
        · rw [hdat1 _ _ (by omega)]; exact hdd0
        · rw [hdat1 _ _ (by omega)]; exact hdd1)
      hpw.2
    refine ⟨S', ?_, ?_, ?_⟩
    · simp only [List.map_cons, release_all, hrel]
      exact e1
    · rw [e2]
      simp only [set_index_p_same, List.map_cons, List.sum_cons]
      push_cast
      omega
    · intro d hd
      cases rest with
      | nil =>
        simp only [List.getLast?_singleton, Option.some.injEq] at hd
        subst hd
        simp only [List.map_nil, release_all, Option.some.injEq] at e1
        subst e1
        simp
      | cons d' rest' =>
        rw [List.getLast?_cons_cons] at hd
        exact e3 d hd

theorem count_slots_le_chain_sections (sz : Nat) : count_slots sz ≤ chain_sections sz := by
  unfold count_slots chain_sections STRING_SECTION
  omega

/-- One `stringid_create` in a pool whose only page is untouched from section
`m` on: the string takes the sections `m, ..., m+k-1`. -/
theorem create_step (S0 S : stringpool) (mem pp : stringid_page) (s : List Nat) (m : Nat)
    (hf : find_page S0 mem (count_slots s.length) = some (S, ((0 : Nat) : Int)))
    (hp : S.pages = 1) (hpp : (S.p 0).p = some pp)
    (hfs : (S.p 0).freeslot = 0x10000 - (m : Int)) (hfl : (S.p 0).freelist = m)
    (hrun : ∀ x, m ≤ x → x < 0xffff → pp.header x = x + 1)
    (hlast : pp.header 0xffff = 0xffff)
    (hfit : m + chain_sections s.length ≤ 0x10000) :
    ∃ S' pp', stringid_create S0 mem s = some (S', m) ∧ S'.pages = 1 ∧
      (S'.p 0).p = some pp' ∧
      (S'.p 0).freeslot = 0x10000 - ((m + chain_sections s.length : Nat) : Int) ∧
      (m + chain_sections s.length < 0x10000 →
        (S'.p 0).freelist = m + chain_sections s.length) ∧
      (∀ x, m + chain_sections s.length ≤ x → x < 0xffff → pp'.header x = x + 1) ∧
      pp'.header 0xffff = 0xffff ∧
      (∀ x, x < m → pp'.header x = pp.header x ∧ pp'.data x = pp.data x) ∧
      chain_intact pp' m (chain_sections s.length) := by
  have hkpos : 0 < chain_sections s.length := by unfold chain_sections; omega
  generalize hk : chain_sections s.length = k at *
  obtain ⟨pp', e1, e2, e3, e4, e5, _⟩ := create_in_page_run (S.p 0) pp s (fun x h1 h2 => by
    rw [hfl] at h1 h2
    rw [hk] at h2
    exact hrun x h1 (by omega))
  rw [hfl, hk] at e1 e2 e3
  rw [hfl] at e4 e5
  have hc := stringid_create_of_find S0 S mem s 0 pp hf hpp
  rw [e1, hfl, id_or_eq_add 0 m (by omega)] at hc
  simp only [Option.map_some', Nat.zero_mul, Nat.zero_add] at hc
  refine ⟨_, pp', hc, by simp [hp], by simp, ?_, ?_, ?_, ?_, ?_, ?_⟩
  · simp only [set_index_p_same, hfs]
    push_cast
    omega
  · intro hlt
    simp only [set_index_p_same]
    rw [hrun _ (by omega) (by omega)]
    omega
  · intro x h1 h2
    rw [e2]
    simp only
    rw [if_neg (by omega)]
    exact hrun x (by omega) h2
  · rw [e2]
    simp only
    split_ifs
    · rfl
    · exact hlast
  · intro x hx
    refine ⟨?_, e3 x (Or.inl hx)⟩
    rw [e2]
    simp only
    rw [if_neg (by omega)]
  · refine ⟨hkpos, ?_, ?_, e4, e5⟩
    · intro i hi
      rw [e2]
      simp only
      rw [if_neg (by omega)]
      exact hrun _ (by omega) (by omega)
    · rw [e2]
      simp

theorem create_all_spec (mem : stringid_page) : ∀ (rest : List (List Nat)) (s : List Nat)
    (S0 S : stringpool) (pp : stringid_page) (m : Nat),
    find_page S0 mem (count_slots s.length) = some (S, ((0 : Nat) : Int)) →
    S.pages = 1 → (S.p 0).p = some pp →
    (S.p 0).freeslot = 0x10000 - (m : Int) → (S.p 0).freelist = m →
    (∀ x, m ≤ x → x < 0xffff → pp.header x = x + 1) → pp.header 0xffff = 0xffff →
    m + ((s :: rest).map (fun t => chain_sections t.length)).sum ≤ 0x10000 →
    ∃ (Sf : stringpool) (ppf : stringid_page) (cs : List (Nat × Nat)),
      create_all mem (s :: rest) S0 = some (Sf, cs.map Prod.fst) ∧
      Sf.pages = 1 ∧ (Sf.p 0).p = some ppf ∧
      (Sf.p 0).freeslot = 0x10000 -
        ((m + ((s :: rest).map (fun t => chain_sections t.length)).sum : Nat) : Int) ∧
      (∀ x, x < m → ppf.header x = pp.header x ∧ ppf.data x = pp.data x) ∧
      (∀ c ∈ cs, m ≤ c.1 ∧ c.1 + c.2 ≤ 0x10000 ∧ chain_intact ppf c.1 c.2) ∧
      cs.Pairwise (fun c d => c.1 + c.2 ≤ d.1) ∧
      (cs.map Prod.snd).sum = ((s :: rest).map (fun t => chain_sections t.length)).sum := by
  intro rest
  induction rest with
  | nil =>
    intro s S0 S pp m hf hp hpp hfs hfl hrun hlast hfit
    simp only [List.map_cons, List.map_nil, List.sum_cons, List.sum_nil, Nat.add_zero] at hfit ⊢
    obtain ⟨S', pp', c1, c2, c3, c4, _, _, _, c8, c9⟩ :=
      create_step S0 S mem pp s m hf hp hpp hfs hfl hrun hlast hfit
    refine ⟨S', pp', [(m, chain_sections s.length)], ?_, c2, c3, c4, c8, ?_, by simp, by simp⟩
    · simp [create_all, c1]
    · intro c hc
      simp only [List.mem_singleton] at hc
      subst hc
      exact ⟨le_refl _, hfit, c9⟩
  | cons s' rest' ih =>
    intro s S0 S pp m hf hp hpp hfs hfl hrun hlast hfit
    have hk' : 0 < chain_sections s'.length := by unfold chain_sections; omega
    have hsum : ((s :: s' :: rest').map (fun t => chain_sections t.length)).sum
        = chain_sections s.length
          + ((s' :: rest').map (fun t => chain_sections t.length)).sum := by
      simp
    have hsum' : ((s' :: rest').map (fun t => chain_sections t.length)).sum
        = chain_sections s'.length + (rest'.map (fun t => chain_sections t.length)).sum := by
      simp
    rw [hsum] at hfit ⊢
    generalize htot : ((s' :: rest').map (fun t => chain_sections t.length)).sum = tot at *
    obtain ⟨S', pp', c1, c2, c3, c4, c5, c6, c7, c8, c9⟩ :=
      create_step S0 S mem pp s m hf hp hpp hfs hfl hrun hlast (by omega)
    have hroom := count_slots_le_chain_sections s'.length
    obtain ⟨Sf, ppf, cs, d1, d2, d3, d4, d5, d6, d7, d8⟩ :=
      ih s' S' S' pp' (m + chain_sections s.length)
        (find_page_top S' mem _ 0 pp' c2 c3 (by rw [c4]; push_cast; omega))
        c2 c3 c4 (c5 (by omega)) c6 c7 (by rw [htot]; omega)
    rw [htot] at d4 d8
    refine ⟨Sf, ppf, (m, chain_sections s.length) :: cs, ?_, d2, d3, ?_, ?_, ?_, ?_, ?_⟩
    · rw [create_all, c1]
      simp only [d1, List.map_cons]
    · rw [d4]
      congr 2
      omega
    · intro x hx
      obtain ⟨f1, f2⟩ := d5 x (by omega)
      obtain ⟨g1, g2⟩ := c8 x hx
      exact ⟨by rw [f1, g1], by rw [f2, g2]⟩
    · intro c hc
      rw [List.mem_cons] at hc
      rcases hc with rfl | hc
      · obtain ⟨i1, i2, i3, i4, i5⟩ := c9
        refine ⟨le_refl _, by omega, i1, ?_, ?_, ?_, ?_⟩
        · intro i hi
          rw [(d5 _ (by omega)).1]
          exact i2 i hi
        · rw [(d5 _ (by omega)).1]
          exact i3
        · rw [(d5 _ (by omega)).2]
          exact i4
        · rw [(d5 _ (by omega)).2]
          exact i5
      · obtain ⟨j1, j2, j3⟩ := d6 c hc
        exact ⟨by omega, j2, j3⟩
    · rw [List.pairwise_cons]
      exact ⟨fun c hc => (d6 c hc).1, d7⟩
    · simp only [List.map_cons, List.sum_cons, d8]

theorem perm_map_inv {α β : Type} (f : α → β) : ∀ (cs : List α) (l : List β),
    l.Perm (cs.map f) → ∃ rel : List α, rel.Perm cs ∧ rel.map f = l := by
  intro cs
  induction cs with
  | nil =>
    intro l hl
    simp only [List.map_nil, List.perm_nil] at hl
    exact ⟨[], List.Perm.refl _, by simp [hl]⟩
  | cons c cs ih =>
    intro l hl
    have hmem : f c ∈ l := hl.mem_iff.2 (by simp)
    obtain ⟨l1, l2, rfl⟩ := List.append_of_mem hmem
    have h2 : (l1 ++ l2).Perm (cs.map f) :=
      (List.perm_middle.symm.trans hl).cons_inv
    obtain ⟨rel, hr1, hr2⟩ := ih (l1 ++ l2) h2
    obtain ⟨r1, r2, rfl, hm1, hm2⟩ := List.map_eq_append_iff.1 hr2
    refine ⟨r1 ++ c :: r2, List.perm_middle.trans (hr1.cons c), ?_⟩
    simp [hm1, hm2]

/-- C9 (as stated, refuted).  For K = 0 strings: nothing is created and
nothing released, the pool is still the new pool, page 0 is not allocated and
its `freeslot` field is 0, not 65536. -/
theorem free_list_untouched_without_strings :
    ∃ S1 S2, create_all zero_mem [] stringid_newpool = some (S1, []) ∧
      release_all [] S1 = some S2 ∧ (S2.p 0).p = none ∧ (S2.p 0).freeslot = 0 ∧
      (S2.p 0).freeslot ≠ 0x10000 :=
  ⟨stringid_newpool, stringid_newpool, rfl, rfl, rfl, rfl, by decide⟩

/-- C9 (amended).  Free-list restoration: in a new pool, for every K ≥ 1 and
every K strings that together fit in page 0 (their chains take at most 65536
sections), creating all of them and then releasing each id once, in any
order, leaves page 0 with `freeslot == 65536` and with `freelist` equal to the
head section of the chain released last. -/
theorem free_list_restored (mem : stringid_page) (strs : List (List Nat)) (hne : strs ≠ [])
    (hfit : (strs.map (fun s => chain_sections s.length)).sum ≤ SECTIONS) :
    ∃ S1 ids, create_all mem strs stringid_newpool = some (S1, ids) ∧
      ∀ order, order.Perm ids → ∃ S2, release_all order S1 = some S2 ∧
        (S2.p 0).freeslot = 0x10000 ∧
        ∀ last, order.getLast? = some last → (S2.p 0).freelist = last &&& 0xffff := by
  obtain ⟨s, rest, rfl⟩ := List.exists_cons_of_ne_nil hne
  obtain ⟨pp0, hpp0⟩ : ∃ pp0, (page_init mem).p = some pp0 := ⟨_, rfl⟩
  have hh0 := page_init_header mem pp0 hpp0
  obtain ⟨Sf, ppf, cs, d1, d2, d3, d4, _, d6, d7, d8⟩ :=
    create_all_spec mem rest s stringid_newpool
      { pages := 1, p := fun i => if i = 0 then page_init mem else stringid_newpool.p i } pp0 0
      (find_page_newpool mem _) rfl hpp0 rfl rfl
      (fun x _ hx => by rw [hh0 x, if_pos hx])
      (by rw [hh0]; simp)
      (by
        have : SECTIONS = 0x10000 := rfl
        omega)
  refine ⟨Sf, cs.map Prod.fst, d1, ?_⟩
  intro order hperm
  obtain ⟨rel, hr1, hr2⟩ := perm_map_inv Prod.fst cs order hperm
  have hpw : cs.Pairwise (fun c d => c.1 + c.2 ≤ d.1 ∨ d.1 + d.2 ≤ c.1) :=
    d7.imp (fun h => Or.inl h)
  have hpw' : rel.Pairwise (fun c d => c.1 + c.2 ≤ d.1 ∨ d.1 + d.2 ≤ c.1) :=
    (hr1.pairwise_iff (fun h => h.symm)).2 hpw
  obtain ⟨S2, r1, r2, r3⟩ := release_all_spec rel Sf ppf (by omega) d3
    (fun c hc => ⟨(d6 c (hr1.mem_iff.1 hc)).2.1, (d6 c (hr1.mem_iff.1 hc)).2.2⟩) hpw'
  rw [hr2] at r1
  refine ⟨S2, r1, ?_, ?_⟩
  · have hsum : (rel.map Prod.snd).sum = (cs.map Prod.snd).sum := (hr1.map Prod.snd).sum_eq
    rw [r2, d4, hsum, d8]
    push_cast
    omega
  · intro last hlast
    rw [← hr2, List.getLast?_map] at hlast
    cases hc : rel.getLast? with
    | none => rw [hc] at hlast; cases hlast
    | some c =>
      rw [hc] at hlast
      simp only [Option.map_some', Option.some.injEq] at hlast
      rw [r3 c hc, ← hlast]
      have hcm : c ∈ rel := List.mem_of_getLast?_eq_some hc
      have hcb := (d6 c (hr1.mem_iff.1 hcm)).2
      have hck := hcb.2.1
      have hlt : c.1 < 2 ^ 16 := by
        have := hcb.1
        norm_num
        omega
      exact (Nat.and_pow_two_sub_one_of_lt_two_pow hlt).symm

theorem free_list_restored_witness :
    [List.replicate 100 97, hello] ≠ [] ∧
    (([List.replicate 100 97, hello] : List (List Nat)).map
      (fun s => chain_sections s.length)).sum ≤ SECTIONS ∧
    ∃ S1 ids, create_all zero_mem [List.replicate 100 97, hello] stringid_newpool
        = some (S1, ids) ∧
      ∀ order, order.Perm ids → ∃ S2, release_all order S1 = some S2 ∧
        (S2.p 0).freeslot = 0x10000 ∧
        ∀ last, order.getLast? = some last → (S2.p 0).freelist = last &&& 0xffff :=
  ⟨by decide, by decide,
    free_list_restored zero_mem [List.replicate 100 97, hello] (by decide) (by decide)⟩

/-! ## The tag of a short string and the slot count -/

/-- C14. The terminator tag of a short string can be any byte: "abcdefghijklmno"
is created in a new pool and released, then "x" is created.  It gets section
0, the former head, whose byte 13 still holds the payload byte 'l' (108);
the section is the terminal section of the live chain of "x" (its header
entry points to itself), its tag is neither 0x00 nor 0xFF, and the length
`stringid_str` stores into `*sz` is -1. -/
theorem short_string_stale_tag :
    ((stringid_create stringid_newpool zero_mem abc15).bind fun r1 =>
      (stringid_release r1.1 r1.2).bind fun S2 =>
        (stringid_create S2 zero_mem [120]).bind fun r3 =>
          ((r3.1.p 0).p.bind fun pp =>
            (stringid_str r3.1 r3.2 (fun _ => 0) 128).map fun r =>
              (r3.2, pp.header 0, padding_tag pp 0, r.2.2)))
      = some (0, 0, 108, -1) := by
  decide

/-- C15. The slot count is too small: for the one byte "x", `count_slots` is
`(1 + 3) / 14 = 0`, and `stringid_create` in a new pool takes one section off
the free list (`freeslot` falls from 65536 by 1). -/
theorem count_slots_too_small :
    count_slots [120].length = 0 ∧
    ((stringid_create stringid_newpool zero_mem [120]).map fun r =>
      (0x10000 : Int) - (r.1.p 0).freeslot) = some 1 := by
  decide

/-- A create of at most 10 bytes asks for 0 slots, so it is served from the
highest page also when that page has no free slot; `freeslot` becomes -1. -/
theorem create_short_on_full_page (S : stringpool) (mem pp : stringid_page) (str : List Nat)
    (t : Nat) (ht : S.pages = t + 1) (hpp : (S.p t).p = some pp)
    (hfs : (S.p t).freeslot = 0) (hlen : str.length ≤ 10) :
    ∃ S', stringid_create S mem str = some (S', (t <<< 16) ||| (S.p t).freelist) ∧
      (S'.p t).freeslot = -1 := by
  have hc0 : count_slots str.length = 0 := by
    unfold count_slots STRING_SECTION
    omega
  have hf : find_page S mem (count_slots str.length) = some (S, (t : Int)) :=
    find_page_top S mem _ t pp ht hpp (by rw [hc0, hfs]; decide)
  have hk : chain_sections str.length = 1 := chain_sections_short _ (by omega)
  obtain ⟨pp2, e1, _⟩ := create_in_page_spec (S.p t) pp str (fun i j hij hj => by omega)
  have hc := stringid_create_of_find S S mem str t pp hf hpp
  rw [e1] at hc
  simp only [Option.map_some'] at hc
  refine ⟨_, hc, ?_⟩
  simp only [set_index_p_same, hfs, hk]
  decide

/-- C13. The counter does not stay at the length of the free list: `big`
fills page 0 of a new pool (`freeslot` 0, the free list is empty); the next
`stringid_create(S, "x", 1)` is served from that page and leaves
`freeslot == -1`. -/
theorem freeslot_becomes_negative :
    ∃ S1 S2, stringid_create stringid_newpool zero_mem big = some (S1, 0) ∧
      (S1.p 0).freeslot = 0 ∧
      stringid_create S1 zero_mem [120] = some (S2, 0xffff) ∧
      (S2.p 0).freeslot = -1 := by
  obtain ⟨S1, pp1, h1, h2, h3, h4, h5, _⟩ := create_big_spec
  obtain ⟨S2, e1, e2⟩ := create_short_on_full_page S1 zero_mem pp1 [120] 0 h2 h5 h3 (by decide)
  rw [h4] at e1
  exact ⟨S1, S2, h1, h3, e1, e2⟩

/-! ## Release and the data bytes -/

/-- The padding a long create leaves in its terminal section, on a free list
that starts with a run of consecutive sections. -/
theorem create_in_page_run_pad (idx : stringid_index) (pp : stringid_page) (str : List Nat)
    (hrun : ∀ x, idx.freelist ≤ x → x < idx.freelist + (chain_sections str.length - 1) →
      pp.header x = x + 1)
    (h12 : 12 ≤ str.length) :
    ∃ pp', create_in_page idx pp str
        = some { freeslot := idx.freeslot - (chain_sections str.length : Int),
                 freelist := pp.header (idx.freelist + (chain_sections str.length - 1)),
                 p := some pp' } ∧
      ∀ j, (str.length + 2) % 14 < j → j < 14 →
        pp'.data (idx.freelist + (str.length + 2) / 14) j = 0xff := by
  have hit := iterate_run pp.header idx.freelist (chain_sections str.length - 1) hrun
  have hk : chain_sections str.length = (str.length + 2) / 14 + 1 := rfl
  obtain ⟨pp', e1, _, _, _, _, _, _, e8, _⟩ := create_in_page_spec idx pp str
    (fun i j hij hjk => by
      rw [hit i (by omega), hit j (by omega)]
      omega)
  rw [hit _ (le_refl _)] at e1
  refine ⟨pp', e1, ?_⟩
  intro j h1 h2
  have := e8 h12 j h1 h2
  rw [hit _ (by rw [hk]; omega)] at this
  exact this

/-- The padding of the terminal section of a long string created in a new
pool. -/
theorem create_newpool_pad (mem : stringid_page) (s : List Nat)
    (hfit : chain_sections s.length ≤ SECTIONS) (h12 : 12 ≤ s.length) :
    ∃ S pp', stringid_create stringid_newpool mem s = some (S, 0) ∧
      (S.p 0).p = some pp' ∧
      ∀ j, (s.length + 2) % 14 < j → j < 14 → pp'.data ((s.length + 2) / 14) j = 0xff := by
  have hS : SECTIONS = 0x10000 := rfl
  obtain ⟨pp0, hpp0⟩ : ∃ pp0, (page_init mem).p = some pp0 := ⟨_, rfl⟩
  have hfl : (page_init mem).freelist = 0 := rfl
  have hh0 := page_init_header mem pp0 hpp0
  obtain ⟨pp', e1, e2⟩ := create_in_page_run_pad (page_init mem) pp0 s
    (fun x _ hx => by
      rw [hh0 x, if_pos (by rw [hfl] at hx; omega)])
    h12
  have hc := stringid_create_of_find stringid_newpool _ mem s 0 pp0
    (find_page_newpool mem _) hpp0
  simp only [if_true] at hc
  rw [e1, hfl] at hc
  simp only [Option.map_some'] at hc
  refine ⟨_, pp', hc, by simp, ?_⟩
  intro j h1 h2
  have := e2 j h1 h2
  rw [hfl, Nat.zero_add] at this
  exact this

/-- The tag of the last section of page 0 after `big` was created. -/
theorem create_big_tag :
    ∃ S pp, stringid_create stringid_newpool zero_mem big = some (S, 0) ∧
      (S.p 0).p = some pp ∧ pp.data 0xffff 13 = 0xff := by
  have hk : chain_sections big.length = 0x10000 := by
    rw [big_length]; rfl
  obtain ⟨S, pp, h1, h2, h3⟩ := create_newpool_pad zero_mem big (by rw [hk]; decide)
    (by rw [big_length]; omega)
  refine ⟨S, pp, h1, h2, ?_⟩
  have := h3 13 (by rw [big_length]; omega) (by omega)
  rw [big_length] at this
  simp only [Nat.reduceAdd, Nat.reduceDiv] at this
  exact this

/-- C19 (as stated, refuted). A release with `freeslot == 0` writes a data
byte: `big` fills page 0 of a new pool; its stored refcount is 0.
`stringid_release` of its id changes byte 13 of the chain's last section
65535 from 0xFF to `EOS_FREE` (0xFE). -/
theorem release_writes_tag_free :
    ∃ S1 pp1 S2 pp2, stringid_create stringid_newpool zero_mem big = some (S1, 0) ∧
      (S1.p 0).p = some pp1 ∧ (S1.p 0).freeslot = 0 ∧ get_number pp1 0 = 0 ∧
      stringid_release S1 0 = some S2 ∧ (S2.p 0).p = some pp2 ∧
      pp1.data 0xffff 13 = 0xff ∧ pp2.data 0xffff 13 = 0xfe := by
  obtain ⟨S1, pp1, h1, h2, h3, _, h5, h6, h7, _⟩ := create_big_spec
  obtain ⟨S1', pp1', t1, t2, t3⟩ := create_big_tag
  rw [h1] at t1
  simp only [Option.some.injEq, Prod.mk.injEq, and_true] at t1
  subst t1
  rw [h5] at t2
  simp only [Option.some.injEq] at t2
  subst t2
  obtain ⟨S1'', pp', c1, _, _, _, c5, _, _, c8, c9, _⟩ :=
    create_newpool_spec zero_mem big (by rw [big_length]; decide)
  rw [h1] at c1
  simp only [Option.some.injEq, Prod.mk.injEq, and_true] at c1
  subst c1
  rw [h5] at c5
  simp only [Option.some.injEq] at c5
  subst c5
  have hcount : get_number pp1 0 = 0 := by
    rw [get_number_eq _ _ (by rw [c8]; omega) (by rw [c9]; omega), c8, c9]
  have hit := iterate_run pp1.header 0 0xffff (fun x _ hx => h6 x (by omega))
  have hwalk : chain_walk pp1.header 1 SECTIONS 0 1 = some (0xffff, 0x10000) := by
    have := chain_walk_spec pp1.header 1 0xffff SECTIONS 0 1 (by decide)
      (fun i hi => by
        rw [hit i (by omega), h6 _ (by omega)]
        omega)
      (by rw [hit _ (le_refl _)]; exact h7)
    rw [this, hit _ (le_refl _)]
  have hrel := release_last S1 0 0 _ _ pp1 (by omega) (by omega) h5 hcount hwalk
  have hid : (0 <<< 16) ||| 0 = 0 := by decide
  rw [hid, h3] at hrel
  simp only [if_true] at hrel
  refine ⟨S1, pp1, _, padding_free pp1 0xffff, h1, h5, h3, hcount, hrel, by simp, t3, ?_⟩
  simp [padding_free, set_data, STRING_SECTION, EOS_FREE]

/-- C19 (amended). For every id whose page is allocated, whose stored
refcount is 0 and whose chain ends at a section `last`: when the page's
`freeslot` is not 0, `stringid_release` changes no byte of the data array and
one header entry, `header[last]`, which becomes the old `freelist`; when
`freeslot` is 0 it changes no header entry and exactly one data byte,
`data[last][13]`, which becomes `EOS_FREE`.  Besides that it changes only
`freelist` (now the head section) and `freeslot` (plus the chain length). -/
theorem stringid_release_frame (S : stringpool) (id last n : Nat) (pp : stringid_page)
    (hpage : id >>> 16 < S.pages)
    (hpp : (S.p (id >>> 16)).p = some pp)
    (hcount : get_number pp (id &&& 0xffff) = 0)
    (hwalk : chain_walk pp.header 1 SECTIONS (id &&& 0xffff) 1 = some (last, n)) :
    ∃ S' pp', stringid_release S id = some S' ∧ (S'.p (id >>> 16)).p = some pp' ∧
      ((S.p (id >>> 16)).freeslot ≠ 0 →
        pp'.data = pp.data ∧ pp'.header last = (S.p (id >>> 16)).freelist) ∧
      ((S.p (id >>> 16)).freeslot = 0 →
        pp'.header = pp.header ∧ pp'.data last 13 = EOS_FREE ∧
        ∀ s j, ¬ (s = last ∧ j = 13) → pp'.data s j = pp.data s j) ∧
      (∀ x, x ≠ last → pp'.header x = pp.header x) ∧
      (S'.p (id >>> 16)).freelist = id &&& 0xffff ∧
      (S'.p (id >>> 16)).freeslot = (S.p (id >>> 16)).freeslot + (n : Int) ∧
      (∀ i, i ≠ id >>> 16 → S'.p i = S.p i) ∧ S'.pages = S.pages := by
  refine ⟨set_index S (id >>> 16)
      { freeslot := (S.p (id >>> 16)).freeslot + (n : Int), freelist := id &&& 0xffff,
        p := some (if (S.p (id >>> 16)).freeslot = 0 then padding_free pp last
                   else set_header pp last (S.p (id >>> 16)).freelist) },
    (if (S.p (id >>> 16)).freeslot = 0 then padding_free pp last
      else set_header pp last (S.p (id >>> 16)).freelist), ?_, by simp, ?_, ?_, ?_, by simp,
    by simp, fun i hi => set_index_p_ne _ _ _ _ hi, rfl⟩
  · simp only [stringid_release, hpage, if_true, hpp, hcount, hwalk]
  · intro h0
    rw [if_neg h0]
    exact ⟨rfl, by simp [set_header]⟩
  · intro h0
    rw [if_pos h0]
    refine ⟨rfl, by simp [padding_free, set_data, STRING_SECTION], ?_⟩
    intro s j hsj
    simp [padding_free, set_data, STRING_SECTION, hsj]
  · intro x hx
    split_ifs
    · rfl
    · simp [set_header, hx]

theorem stringid_release_frame_witness :
    (0 : Nat) >>> 16 < hello_pool.pages ∧
    (hello_pool.p (0 >>> 16)).p = some hello_page ∧
    get_number hello_page (0 &&& 0xffff) = 0 ∧
    chain_walk hello_page.header 1 SECTIONS (0 &&& 0xffff) 1 = some (0, 1) ∧
    ∃ S' pp', stringid_release hello_pool 0 = some S' ∧ (S'.p (0 >>> 16)).p = some pp' ∧
      ((hello_pool.p (0 >>> 16)).freeslot ≠ 0 →
        pp'.data = hello_page.data ∧ pp'.header 0 = (hello_pool.p (0 >>> 16)).freelist) ∧
      ((hello_pool.p (0 >>> 16)).freeslot = 0 →
        pp'.header = hello_page.header ∧ pp'.data 0 13 = EOS_FREE ∧
        ∀ s j, ¬ (s = 0 ∧ j = 13) → pp'.data s j = hello_page.data s j) ∧
      (∀ x, x ≠ 0 → pp'.header x = hello_page.header x) ∧
      (S'.p (0 >>> 16)).freelist = 0 &&& 0xffff ∧
      (S'.p (0 >>> 16)).freeslot = (hello_pool.p (0 >>> 16)).freeslot + ((1 : Nat) : Int) ∧
      (∀ i, i ≠ 0 >>> 16 → S'.p i = hello_pool.p i) ∧ S'.pages = hello_pool.pages :=
  ⟨by decide, rfl, by decide, by decide,
    stringid_release_frame hello_pool 0 0 1 hello_page (by decide) rfl (by decide) (by decide)⟩

/-! ## The layout a create writes -/

theorem nodup_lt_length_le (l : List Nat) (n : Nat) (hnd : l.Nodup) (hlt : ∀ x ∈ l, x < n) :
    l.length ≤ n := by
  have hsub : ∀ x ∈ l, x ∈ List.range n := fun x hx => List.mem_range.2 (hlt x hx)
  have := (List.subperm_of_subset hnd hsub).length_le
  rw [List.length_range] at this
  exact this

/-- Function `stringid_create` on the page `find_page` picked, when the first
`chain_sections |s|` sections of its free list are different 16-bit indices:
the result of the call and what it wrote, section by section. -/
theorem create_of_find_spec (S0 Sf : stringpool) (mem pp : stringid_page) (s : List Nat)
    (page : Nat)
    (hf : find_page S0 mem (count_slots s.length) = some (Sf, (page : Int)))
    (hpp : (Sf.p page).p = some pp)
    (hnd : (sections_from pp.header (Sf.p page).freelist (chain_sections s.length)).Nodup)
    (hlt : ∀ x ∈ sections_from pp.header (Sf.p page).freelist (chain_sections s.length),
      x < 0x10000) :
    ∃ S1 pp1, stringid_create S0 mem s = some (S1, (page <<< 16) ||| (Sf.p page).freelist) ∧
      (S1.p page).p = some pp1 ∧
      (S1.p page).freelist
        = pp.header (pp.header^[chain_sections s.length - 1] (Sf.p page).freelist) ∧
      (S1.p page).freeslot = (Sf.p page).freeslot - (chain_sections s.length : Int) ∧
      pp1.header = (fun x =>
        if x = pp.header^[chain_sections s.length - 1] (Sf.p page).freelist then x
        else pp.header x) ∧
      (∀ i, i ≤ chain_sections s.length - 1 →
        pp1.header^[i] (Sf.p page).freelist = pp.header^[i] (Sf.p page).freelist) ∧
      (∀ step acc, chain_walk pp1.header step SECTIONS (Sf.p page).freelist acc
        = some (pp.header^[chain_sections s.length - 1] (Sf.p page).freelist,
                acc + step * (chain_sections s.length - 1))) ∧
      pp1.data (Sf.p page).freelist 0 = 0 ∧ pp1.data (Sf.p page).freelist 1 = 0 ∧
      (∀ i, i < s.length →
        pp1.data (pp.header^[(i + 2) / 14] (Sf.p page).freelist) ((i + 2) % 14) = s.getD i 0) ∧
      pp1.data (pp.header^[(s.length + 2) / 14] (Sf.p page).freelist) ((s.length + 2) % 14) = 0 ∧
      (12 ≤ s.length → ∀ j, (s.length + 2) % 14 < j → j < 14 →
        pp1.data (pp.header^[(s.length + 2) / 14] (Sf.p page).freelist) j = 0xff) := by
  have hnd' := sections_from_nodup _ _ _ hnd
  have hkpos : 0 < chain_sections s.length := by unfold chain_sections; omega
  have hfit : chain_sections s.length ≤ SECTIONS := by
    have := nodup_lt_length_le _ _ hnd hlt
    rw [sections_from_length] at this
    exact this
  obtain ⟨pp1, e1, e2, _, e4, e5, e6, e7, e8, _⟩ := create_in_page_spec (Sf.p page) pp s hnd'
  have hc := stringid_create_of_find S0 Sf mem s page pp hf hpp
  rw [e1] at hc
  simp only [Option.map_some'] at hc
  refine ⟨_, pp1, hc, by simp, by simp, by simp, e2, ?_, ?_, e4, e5, e6, e7, e8⟩
  · exact (chain_walk_created pp.header pp1.header _ _ 1 1 SECTIONS hkpos hfit hnd' e2).1
  · intro step acc
    exact (chain_walk_created pp.header pp1.header _ _ step acc SECTIONS hkpos hfit hnd' e2).2

/-- C17. Long-path layout: for every string `s` of `sz ≥ 12` bytes, with
`q = (sz - 12) / 14` and `r = (sz - 12) % 14`, `stringid_create` on a page
whose free list starts with `q+2` different sections links exactly these
`q+2` sections in free-list order: the head holds refcount 0 in bytes 0..1 and
`s[0..12)` in bytes 2..13; the `i`-th middle section holds `s[12+14i ..
26+14i)`; the terminal section holds the last `r` bytes at indices `0..r-1`,
NUL at index `r` and 0xFF at every index `r+1..13`, and its header entry
points to itself; `freelist` becomes the section that followed the terminal
one on the free list and `freeslot` decreases by `q+2`. -/
theorem create_long_layout (S0 Sf : stringpool) (mem pp : stringid_page) (s : List Nat)
    (page : Nat) (h12 : 12 ≤ s.length)
    (hf : find_page S0 mem (count_slots s.length) = some (Sf, (page : Int)))
    (hpp : (Sf.p page).p = some pp)
    (hnd : (sections_from pp.header (Sf.p page).freelist ((s.length - 12) / 14 + 2)).Nodup)
    (hlt : ∀ x ∈ sections_from pp.header (Sf.p page).freelist ((s.length - 12) / 14 + 2),
      x < 0x10000) :
    ∃ S1 pp1, stringid_create S0 mem s = some (S1, (page <<< 16) ||| (Sf.p page).freelist) ∧
      (S1.p page).p = some pp1 ∧
      count_slots_in_header pp1 (Sf.p page).freelist = some ((s.length - 12) / 14 + 2) ∧
      (∀ i, i ≤ (s.length - 12) / 14 + 1 →
        pp1.header^[i] (Sf.p page).freelist = pp.header^[i] (Sf.p page).freelist) ∧
      pp1.header (pp.header^[(s.length - 12) / 14 + 1] (Sf.p page).freelist)
        = pp.header^[(s.length - 12) / 14 + 1] (Sf.p page).freelist ∧
      pp1.data (Sf.p page).freelist 0 = 0 ∧ pp1.data (Sf.p page).freelist 1 = 0 ∧
      (∀ j, j < 12 → pp1.data (Sf.p page).freelist (2 + j) = s.getD j 0) ∧
      (∀ i j, i < (s.length - 12) / 14 → j < 14 →
        pp1.data (pp.header^[i + 1] (Sf.p page).freelist) j = s.getD (12 + 14 * i + j) 0) ∧
      (∀ j, j < (s.length - 12) % 14 →
        pp1.data (pp.header^[(s.length - 12) / 14 + 1] (Sf.p page).freelist) j
          = s.getD (12 + 14 * ((s.length - 12) / 14) + j) 0) ∧
      pp1.data (pp.header^[(s.length - 12) / 14 + 1] (Sf.p page).freelist)
        ((s.length - 12) % 14) = 0 ∧
      (∀ j, (s.length - 12) % 14 < j → j < 14 →
        pp1.data (pp.header^[(s.length - 12) / 14 + 1] (Sf.p page).freelist) j = 0xff) ∧
      (S1.p page).freelist
        = pp.header (pp.header^[(s.length - 12) / 14 + 1] (Sf.p page).freelist) ∧
      (S1.p page).freeslot
        = (Sf.p page).freeslot - (((s.length - 12) / 14 + 2 : Nat) : Int) := by
  have hk : chain_sections s.length = (s.length - 12) / 14 + 2 := chain_sections_long _ h12
  rw [← hk] at hnd hlt
  obtain ⟨S1, pp1, c1, c2, c3, c4, c5, c6, c7, c8, c9, c10, c11, c12⟩ :=
    create_of_find_spec S0 Sf mem pp s page hf hpp hnd hlt
  have hd : (s.length + 2) / 14 = (s.length - 12) / 14 + 1 := by omega
  have hm : (s.length + 2) % 14 = (s.length - 12) % 14 := by omega
  have hk1 : chain_sections s.length - 1 = (s.length - 12) / 14 + 1 := by omega
  rw [hk1] at c3 c5 c6 c7
  rw [hd, hm] at c11 c12
  rw [hk] at c4
  refine ⟨S1, pp1, c1, c2, ?_, c6, ?_, c8, c9, ?_, ?_, ?_, c11, c12 h12, c3, c4⟩
  · simp only [count_slots_in_header, c7 1 1]
    simp only [Option.some.injEq]
    omega
  · rw [c5]
    simp
  · intro j hj
    have := c10 j (by omega)
    rw [show (j + 2) / 14 = 0 by omega, show (j + 2) % 14 = j + 2 by omega] at this
    rw [Nat.add_comm 2 j]
    exact this
  · intro i j hi hj
    have hlen : 12 + 14 * i + j < s.length := by
      have := Nat.div_mul_le_self (s.length - 12) 14
      have h2 : 14 * (i + 1) ≤ 14 * ((s.length - 12) / 14) := Nat.mul_le_mul_left 14 hi
      omega
    have := c10 (12 + 14 * i + j) hlen
    rw [show (12 + 14 * i + j + 2) / 14 = i + 1 by omega,
      show (12 + 14 * i + j + 2) % 14 = j by omega] at this
    exact this
  · intro j hj
    have hlen : 12 + 14 * ((s.length - 12) / 14) + j < s.length := by
      have := Nat.div_add_mod (s.length - 12) 14
      omega
    have := c10 _ hlen
    rw [show (12 + 14 * ((s.length - 12) / 14) + j + 2) / 14 = (s.length - 12) / 14 + 1 by omega,
      show (12 + 14 * ((s.length - 12) / 14) + j + 2) % 14 = j by omega] at this
    exact this

theorem create_long_layout_witness :
    12 ≤ abc15.length ∧
    find_page stringid_newpool zero_mem (count_slots abc15.length)
      = some (init_pool, ((0 : Nat) : Int)) ∧
    (init_pool.p 0).p = some init_page ∧
    (sections_from init_page.header (init_pool.p 0).freelist
      ((abc15.length - 12) / 14 + 2)).Nodup ∧
    (∀ x ∈ sections_from init_page.header (init_pool.p 0).freelist
      ((abc15.length - 12) / 14 + 2), x < 0x10000) ∧
    (((stringid_create stringid_newpool zero_mem abc15).bind fun r =>
      (r.1.p 0).p.map fun pp => (pp.header 0, pp.header 1, (List.range 14).map (pp.data 1)))
      = some (1, 1, [109, 110, 111, 0, 255, 255, 255, 255, 255, 255, 255, 255, 255, 255])) ∧
    ∃ S1 pp1, stringid_create stringid_newpool zero_mem abc15
        = some (S1, (0 <<< 16) ||| (init_pool.p 0).freelist) ∧
      (S1.p 0).p = some pp1 ∧
      count_slots_in_header pp1 (init_pool.p 0).freelist = some ((abc15.length - 12) / 14 + 2) ∧
      (∀ i, i ≤ (abc15.length - 12) / 14 + 1 →
        pp1.header^[i] (init_pool.p 0).freelist = init_page.header^[i] (init_pool.p 0).freelist) ∧
      pp1.header (init_page.header^[(abc15.length - 12) / 14 + 1] (init_pool.p 0).freelist)
        = init_page.header^[(abc15.length - 12) / 14 + 1] (init_pool.p 0).freelist ∧
      pp1.data (init_pool.p 0).freelist 0 = 0 ∧ pp1.data (init_pool.p 0).freelist 1 = 0 ∧
      (∀ j, j < 12 → pp1.data (init_pool.p 0).freelist (2 + j) = abc15.getD j 0) ∧
      (∀ i j, i < (abc15.length - 12) / 14 → j < 14 →
        pp1.data (init_page.header^[i + 1] (init_pool.p 0).freelist) j
          = abc15.getD (12 + 14 * i + j) 0) ∧
      (∀ j, j < (abc15.length - 12) % 14 →
        pp1.data (init_page.header^[(abc15.length - 12) / 14 + 1] (init_pool.p 0).freelist) j
          = abc15.getD (12 + 14 * ((abc15.length - 12) / 14) + j) 0) ∧
      pp1.data (init_page.header^[(abc15.length - 12) / 14 + 1] (init_pool.p 0).freelist)
        ((abc15.length - 12) % 14) = 0 ∧
      (∀ j, (abc15.length - 12) % 14 < j → j < 14 →
        pp1.data (init_page.header^[(abc15.length - 12) / 14 + 1] (init_pool.p 0).freelist) j
          = 0xff) ∧
      (S1.p 0).freelist
        = init_page.header (init_page.header^[(abc15.length - 12) / 14 + 1]
            (init_pool.p 0).freelist) ∧
      (S1.p 0).freeslot
        = (init_pool.p 0).freeslot - (((abc15.length - 12) / 14 + 2 : Nat) : Int) :=
  ⟨by decide, find_page_newpool zero_mem _, rfl, by decide, by decide, by decide,
    create_long_layout stringid_newpool init_pool zero_mem init_page abc15 0 (by decide)
      (find_page_newpool zero_mem _) rfl (by decide) (by decide)⟩

/-- C18 (as stated, refuted). The 26 bytes "a..z" (`sz - 12 = 14`) are created
in a new pool.  The chain has three sections, 0, 1 and 2; the last 14 payload
bytes fill section 1, whose byte 13 is the final payload byte 'z' (122), but
section 1 is not the terminal section.  The terminal section 2 holds a NUL at
index 0 and 0xFF at indices 1..13: its byte 13 is 0xFF, not 'z', and both a
NUL and padding bytes were written. -/
theorem exact_fill_adds_terminal_section :
    ((stringid_create stringid_newpool zero_mem abc26).bind fun r =>
      (r.1.p 0).p.map fun pp =>
        ([pp.header 0, pp.header 1, pp.header 2, pp.data 1 13],
          (List.range 14).map (pp.data 2)))
      = some ([1, 2, 2, 122],
          [0, 255, 255, 255, 255, 255, 255, 255, 255, 255, 255, 255, 255, 255]) := by
  decide

/-- C18 (amended). When `sz - 12` is a positive multiple of 14 and the free
list of the page `find_page` picks starts with `(sz - 12) / 14 + 2` different
sections, the last 14 payload bytes fill a section completely, its byte 13
being the final payload byte, and `stringid_create` links one more section
behind it: the terminal section, which holds NUL at index 0 and 0xFF at every
index 1..13 and whose header entry points to itself.  The chain has
`(sz - 12) / 14 + 2` sections. -/
theorem create_exact_fill (S0 Sf : stringpool) (mem pp : stringid_page) (s : List Nat)
    (page : Nat) (h12 : 12 < s.length) (hmul : (s.length - 12) % 14 = 0)
    (hf : find_page S0 mem (count_slots s.length) = some (Sf, (page : Int)))
    (hpp : (Sf.p page).p = some pp)
    (hnd : (sections_from pp.header (Sf.p page).freelist ((s.length - 12) / 14 + 2)).Nodup)
    (hlt : ∀ x ∈ sections_from pp.header (Sf.p page).freelist ((s.length - 12) / 14 + 2),
      x < 0x10000) :
    ∃ S1 pp1, stringid_create S0 mem s = some (S1, (page <<< 16) ||| (Sf.p page).freelist) ∧
      (S1.p page).p = some pp1 ∧
      count_slots_in_header pp1 (Sf.p page).freelist = some ((s.length - 12) / 14 + 2) ∧
      pp1.data (pp1.header^[(s.length - 12) / 14] (Sf.p page).freelist) 13
        = s.getD (s.length - 1) 0 ∧
      pp1.header (pp1.header^[(s.length - 12) / 14] (Sf.p page).freelist)
        = pp1.header^[(s.length - 12) / 14 + 1] (Sf.p page).freelist ∧
      pp1.header^[(s.length - 12) / 14] (Sf.p page).freelist
        ≠ pp1.header^[(s.length - 12) / 14 + 1] (Sf.p page).freelist ∧
      pp1.header (pp1.header^[(s.length - 12) / 14 + 1] (Sf.p page).freelist)
        = pp1.header^[(s.length - 12) / 14 + 1] (Sf.p page).freelist ∧
      pp1.data (pp1.header^[(s.length - 12) / 14 + 1] (Sf.p page).freelist) 0 = 0 ∧
      (∀ j, 0 < j → j < 14 →
        pp1.data (pp1.header^[(s.length - 12) / 14 + 1] (Sf.p page).freelist) j = 0xff) := by
  have hk : chain_sections s.length = (s.length - 12) / 14 + 2 :=
    chain_sections_long _ (by omega)
  rw [← hk] at hnd hlt
  have hnd' := sections_from_nodup _ _ _ hnd
  obtain ⟨S1, pp1, c1, c2, _, _, c5, c6, c7, _, _, c10, c11, c12⟩ :=
    create_of_find_spec S0 Sf mem pp s page hf hpp hnd hlt
  have hqpos : 0 < (s.length - 12) / 14 := by omega
  have hd : (s.length + 2) / 14 = (s.length - 12) / 14 + 1 := by omega
  have hm : (s.length + 2) % 14 = 0 := by omega
  have hk1 : chain_sections s.length - 1 = (s.length - 12) / 14 + 1 := by omega
  rw [hk1] at c5 c6 c7
  rw [hk] at hnd'
  rw [hd, hm] at c11 c12
  have hne := hnd' ((s.length - 12) / 14) ((s.length - 12) / 14 + 1) (by omega) (by omega)
  refine ⟨S1, pp1, c1, c2, ?_, ?_, ?_, ?_, ?_, ?_, ?_⟩
  · simp only [count_slots_in_header, c7 1 1]
    simp only [Option.some.injEq]
    omega
  · rw [c6 _ (by omega)]
    have := c10 (s.length - 1) (by omega)
    rw [show (s.length - 1 + 2) / 14 = (s.length - 12) / 14 by omega,
      show (s.length - 1 + 2) % 14 = 13 by omega] at this
    exact this
  · rw [Function.iterate_succ_apply']
  · rw [c6 _ (by omega), c6 _ (le_refl _)]
    exact hne
  · rw [c6 _ (le_refl _), c5]
    simp
  · rw [c6 _ (le_refl _)]
    exact c11
  · intro j h1 h2
    rw [c6 _ (le_refl _)]
    exact c12 (by omega) j h1 h2

theorem create_exact_fill_witness :
    12 < abc26.length ∧ (abc26.length - 12) % 14 = 0 ∧
    find_page stringid_newpool zero_mem (count_slots abc26.length)
      = some (init_pool, ((0 : Nat) : Int)) ∧
    (init_pool.p 0).p = some init_page ∧
    (sections_from init_page.header (init_pool.p 0).freelist
      ((abc26.length - 12) / 14 + 2)).Nodup ∧
    (∀ x ∈ sections_from init_page.header (init_pool.p 0).freelist
      ((abc26.length - 12) / 14 + 2), x < 0x10000) ∧
    ∃ S1 pp1, stringid_create stringid_newpool zero_mem abc26
        = some (S1, (0 <<< 16) ||| (init_pool.p 0).freelist) ∧
      (S1.p 0).p = some pp1 ∧
      count_slots_in_header pp1 (init_pool.p 0).freelist = some ((abc26.length - 12) / 14 + 2) ∧
      pp1.data (pp1.header^[(abc26.length - 12) / 14] (init_pool.p 0).freelist) 13
        = abc26.getD (abc26.length - 1) 0 ∧
      pp1.header (pp1.header^[(abc26.length - 12) / 14] (init_pool.p 0).freelist)
        = pp1.header^[(abc26.length - 12) / 14 + 1] (init_pool.p 0).freelist ∧
      pp1.header^[(abc26.length - 12) / 14] (init_pool.p 0).freelist
        ≠ pp1.header^[(abc26.length - 12) / 14 + 1] (init_pool.p 0).freelist ∧
      pp1.header (pp1.header^[(abc26.length - 12) / 14 + 1] (init_pool.p 0).freelist)
        = pp1.header^[(abc26.length - 12) / 14 + 1] (init_pool.p 0).freelist ∧
      pp1.data (pp1.header^[(abc26.length - 12) / 14 + 1] (init_pool.p 0).freelist) 0 = 0 ∧
      (∀ j, 0 < j → j < 14 →
        pp1.data (pp1.header^[(abc26.length - 12) / 14 + 1] (init_pool.p 0).freelist) j
          = 0xff) :=
  ⟨by decide, by decide, find_page_newpool zero_mem _, rfl, by decide, by decide,
    create_exact_fill stringid_newpool init_pool zero_mem init_page abc26 0 (by decide)
      (by decide) (find_page_newpool zero_mem _) rfl (by decide) (by decide)⟩

/-! ## The length decoder -/

theorem scan_nul_eq (d : Nat → Nat) (r : Nat) : ∀ (n : Nat), r ≤ n →
    (∀ j, r < j → j ≤ n → d j ≠ 0) → (0 < r → d r = 0) → scan_nul d n = r := by
  intro n
  induction n with
  | zero =>
    intro hr _ _
    have : r = 0 := by omega
    subst this
    rfl
  | succ n ih =>
    intro hr hne hz
    by_cases h : r = n + 1
    · subst h
      simp [scan_nul, hz (by omega)]
    · have := hne (n + 1) (by omega) (le_refl _)
      simp only [scan_nul, this, if_false]
      exact ih (by omega) (fun j h1 h2 => hne j h1 (by omega)) hz

/-- C20. The decoder does not depend on the content for `sz ≥ 11`: for every
byte string `s` of `sz ≥ 11` bytes, whatever its byte values and whatever the
sections held before, when the first `chain_sections sz` sections of the
picked page's free list are different 16-bit indices, `string_len` on the
chain `stringid_create` wrote returns exactly `sz` (and so never -1). -/
theorem string_len_create (S0 Sf : stringpool) (mem pp : stringid_page) (s : List Nat)
    (page : Nat) (h11 : 11 ≤ s.length)
    (hf : find_page S0 mem (count_slots s.length) = some (Sf, (page : Int)))
    (hpp : (Sf.p page).p = some pp)
    (hnd : (sections_from pp.header (Sf.p page).freelist (chain_sections s.length)).Nodup)
    (hlt : ∀ x ∈ sections_from pp.header (Sf.p page).freelist (chain_sections s.length),
      x < 0x10000) :
    ∃ S1 id pp1, stringid_create S0 mem s = some (S1, id) ∧
      (S1.p (id >>> 16)).p = some pp1 ∧
      string_len pp1 (id &&& 0xffff) = some (s.length : Int) := by
  obtain ⟨S1, pp1, c1, c2, _, _, _, _, c7, _, _, _, c11, c12⟩ :=
    create_of_find_spec S0 Sf mem pp s page hf hpp hnd hlt
  have hkpos : 0 < chain_sections s.length := by unfold chain_sections; omega
  have hsec : (Sf.p page).freelist < 0x10000 :=
    hlt _ ((mem_sections_from _ _ _ _).2 ⟨0, hkpos, rfl⟩)
  refine ⟨S1, _, pp1, c1, ?_, ?_⟩
  · rw [id_page _ _ hsec]
    exact c2
  rw [id_sec _ _ hsec]
  have hd : (s.length + 2) / 14 = chain_sections s.length - 1 := by
    unfold chain_sections; omega
  rw [hd] at c11 c12
  generalize pp.header^[chain_sections s.length - 1] (Sf.p page).freelist = last at *
  have hk : chain_sections s.length = (s.length + 2) / 14 + 1 := rfl
  unfold string_len
  rw [c7 STRING_SECTION (STRING_SECTION - 3)]
  simp only [padding_tag, STRING_SECTION, EOS_PADDING]
  by_cases hr : (s.length + 2) % 14 = 13
  · rw [hr] at c11
    rw [if_pos c11]
    simp only [Option.some.injEq]
    have : 11 + 14 * (chain_sections s.length - 1) = s.length := by rw [hk]; omega
    simp only [Nat.reduceSub]
    exact_mod_cast this
  · have h12 : 12 ≤ s.length := by omega
    have htag : pp1.data last 13 = 0xff := c12 h12 13 (by omega) (by omega)
    have hscan : scan_nul (pp1.data last) 12 = (s.length + 2) % 14 :=
      scan_nul_eq _ _ 12 (by omega)
        (fun j h1 h2 => by rw [c12 h12 j h1 (by omega)]; decide)
        (fun _ => c11)
    rw [if_neg (by rw [htag]; decide), if_pos htag]
    simp only [Nat.reduceSub, hscan, Option.some.injEq]
    have : 11 + 14 * (chain_sections s.length - 1) + (s.length + 2) % 14 = s.length + 13 := by
      rw [hk]; omega
    push_cast
    omega

theorem string_len_create_witness :
    11 ≤ abc26.length ∧
    find_page stringid_newpool zero_mem (count_slots abc26.length)
      = some (init_pool, ((0 : Nat) : Int)) ∧
    (init_pool.p 0).p = some init_page ∧
    (sections_from init_page.header (init_pool.p 0).freelist
      (chain_sections abc26.length)).Nodup ∧
    (∀ x ∈ sections_from init_page.header (init_pool.p 0).freelist
      (chain_sections abc26.length), x < 0x10000) ∧
    ∃ S1 id pp1, stringid_create stringid_newpool zero_mem abc26 = some (S1, id) ∧
      (S1.p (id >>> 16)).p = some pp1 ∧
      string_len pp1 (id &&& 0xffff) = some (abc26.length : Int) :=
  ⟨by decide, find_page_newpool zero_mem _, rfl, by decide, by decide,
    string_len_create stringid_newpool init_pool zero_mem init_page abc26 0 (by decide)
      (find_page_newpool zero_mem _) rfl (by decide) (by decide)⟩

/-! ## The bounded copy of `stringid_str` -/

theorem string_cp_loop_spec (p : stringid_page) : ∀ (fuel sec : Nat) (buf : Nat → Nat)
    (dst l : Nat), l < fuel →
    ∃ b, string_cp_loop p fuel sec buf dst l = some b ∧
      ∀ j, b j = if dst ≤ j ∧ j < dst + l
        then p.data (p.header^[(j - dst) / 14 + 1] sec) ((j - dst) % 14) else buf j := by
  intro fuel
  induction fuel with
  | zero => intro sec buf dst l hl; omega
  | succ fuel ih =>
    intro sec buf dst l hl
    by_cases h14 : l ≥ 14
    · obtain ⟨b, hb1, hb2⟩ := ih (p.header sec)
        (memcpy_out buf dst (p.data (p.header sec)) 0 STRING_SECTION) (dst + 14) (l - 14)
        (by omega)
      refine ⟨b, ?_, ?_⟩
      · simp only [string_cp_loop, STRING_SECTION, h14, if_true]
        exact hb1
      · intro j
        rw [hb2 j]
        by_cases c1 : dst + 14 ≤ j ∧ j < dst + 14 + (l - 14)
        · rw [if_pos c1, if_pos (by omega), ← Function.iterate_succ_apply]
          rw [show ((j - (dst + 14)) / 14 + 1).succ = (j - dst) / 14 + 1 by omega,
            show (j - (dst + 14)) % 14 = (j - dst) % 14 by omega]
        · rw [if_neg c1]
          simp only [memcpy_out, STRING_SECTION]
          by_cases c2 : dst ≤ j ∧ j < dst + 14
          · rw [if_pos c2, if_pos (by omega)]
            rw [show (j - dst) / 14 + 1 = 1 by omega, show (j - dst) % 14 = j - dst by omega]
            simp
          · rw [if_neg c2, if_neg (by omega)]
    · refine ⟨memcpy_out buf dst (p.data (p.header sec)) 0 l, ?_, ?_⟩
      · simp only [string_cp_loop, STRING_SECTION, h14, if_false]
      · intro j
        simp only [memcpy_out]
        by_cases c2 : dst ≤ j ∧ j < dst + l
        · rw [if_pos c2, if_pos c2]
          rw [show (j - dst) / 14 + 1 = 1 by omega, show (j - dst) % 14 = j - dst by omega]
          simp
        · rw [if_neg c2, if_neg c2]

/-- Function `string_cp` copies the first `l` payload bytes of the chain to
the start of the buffer and leaves the rest of the buffer alone. -/
theorem string_cp_spec (p : stringid_page) (sec : Nat) (buf : Nat → Nat) (l : Int)
    (hl : 0 ≤ l) :
    ∃ b, string_cp p sec buf l = some b ∧
      ∀ j, b j = if j < l.toNat then chain_byte p sec j else buf j := by
  obtain ⟨n, rfl⟩ := Int.eq_ofNat_of_zero_le hl
  simp only [Int.toNat_ofNat]
  by_cases h12 : n ≤ 12
  · refine ⟨memcpy_out buf 0 (p.data sec) 2 n, ?_, ?_⟩
    · simp only [string_cp, STRING_SECTION]
      rw [if_neg (by omega), if_pos (by push_cast; omega)]
      simp
    · intro j
      simp only [memcpy_out, chain_byte]
      by_cases c : j < n
      · rw [if_pos c, if_pos (by omega)]
        rw [show (j + 2) / 14 = 0 by omega, show (j + 2) % 14 = j + 2 by omega]
        simp [Nat.add_comm]
      · rw [if_neg c, if_neg (by omega)]
  · obtain ⟨b, hb1, hb2⟩ := string_cp_loop_spec p (n + 1) sec
      (memcpy_out buf 0 (p.data sec) 2 (STRING_SECTION - 2)) (STRING_SECTION - 2)
      (n - (STRING_SECTION - 2)) (by omega)
    refine ⟨b, ?_, ?_⟩
    · simp only [string_cp]
      rw [if_neg (by omega), if_neg (by simp only [STRING_SECTION]; push_cast; omega)]
      simp only [Int.toNat_ofNat]
      exact hb1
    · intro j
      rw [hb2 j]
      simp only [STRING_SECTION, memcpy_out, chain_byte]
      by_cases c1 : 14 - 2 ≤ j ∧ j < 14 - 2 + (n - (14 - 2))
      · rw [if_pos c1, if_pos (by omega)]
        rw [show (j - (14 - 2)) / 14 + 1 = (j + 2) / 14 by omega,
          show (j - (14 - 2)) % 14 = (j + 2) % 14 by omega]
      · rw [if_neg c1]
        by_cases c2 : j < 12
        · rw [if_pos (by omega), if_pos (by omega)]
          rw [show (j + 2) / 14 = 0 by omega, show (j + 2) % 14 = j + 2 by omega]
          simp [Nat.add_comm]
        · rw [if_neg (by omega), if_neg (by omega)]

/-- C12. Bounded copy in `stringid_str`: for every chain that is not
contiguous, with decoded length `L ≥ 0` and caller buffer size `bufsz`,
`stringid_str` stores `L` into `*sz` and returns the buffer; if `bufsz > L` it
writes the `L` payload bytes to `buffer[0..L)` and NUL at `buffer[L]`; if
`0 < bufsz ≤ L` it writes the first `bufsz-1` payload bytes and NUL at
`buffer[bufsz-1]`; if `bufsz ≤ 0` it writes nothing.  In every case no byte at
an index `≥ bufsz` of the buffer is written. -/
theorem stringid_str_bounded_copy (S : stringpool) (id : Nat) (buffer : Nat → Nat)
    (bufsz L : Int) (pp : stringid_page)
    (hpage : id >>> 16 < S.pages)
    (hpp : (S.p (id >>> 16)).p = some pp)
    (hlen : string_len pp (id &&& 0xffff) = some L) (hL : 0 ≤ L)
    (hnc : string_continuous pp.header SECTIONS (id &&& 0xffff) = some false) :
    ∃ buf, stringid_str S id buffer bufsz = some (str_ptr.in_buffer, buf, L) ∧
      (L < bufsz →
        (∀ i, i < L.toNat → buf i = chain_byte pp (id &&& 0xffff) i) ∧
        buf L.toNat = 0 ∧ ∀ i, L.toNat < i → buf i = buffer i) ∧
      (0 < bufsz → bufsz ≤ L →
        (∀ i, i < (bufsz - 1).toNat → buf i = chain_byte pp (id &&& 0xffff) i) ∧
        buf (bufsz - 1).toNat = 0 ∧ ∀ i, (bufsz - 1).toNat < i → buf i = buffer i) ∧
      (bufsz ≤ 0 → buf = buffer) ∧
      (∀ i : Nat, bufsz ≤ (i : Int) → buf i = buffer i) := by
  by_cases h1 : bufsz > L
  · obtain ⟨b, hb1, hb2⟩ := string_cp_spec pp (id &&& 0xffff) buffer L hL
    refine ⟨Function.update b L.toNat 0, ?_, ?_, ?_, ?_, ?_⟩
    · simp only [stringid_str, hpage, if_true, hpp, hlen, hnc, h1, hb1]
    · intro _
      refine ⟨?_, by simp, ?_⟩
      · intro i hi
        rw [Function.update_noteq (by omega), hb2 i, if_pos hi]
      · intro i hi
        rw [Function.update_noteq (by omega), hb2 i, if_neg (by omega)]
    · intro _ h3
      omega
    · intro h3
      omega
    · intro i hi
      have : L.toNat < i := by omega
      rw [Function.update_noteq (by omega), hb2 i, if_neg (by omega)]
  · by_cases h2 : bufsz > 0
    · obtain ⟨b, hb1, hb2⟩ := string_cp_spec pp (id &&& 0xffff) buffer (bufsz - 1) (by omega)
      refine ⟨Function.update b (bufsz - 1).toNat 0, ?_, ?_, ?_, ?_, ?_⟩
      · simp only [stringid_str, hpage, if_true, hpp, hlen, hnc, h1, if_false, h2, hb1]
      · intro h3
        omega
      · intro _ _
        refine ⟨?_, by simp, ?_⟩
        · intro i hi
          rw [Function.update_noteq (by omega), hb2 i, if_pos hi]
        · intro i hi
          rw [Function.update_noteq (by omega), hb2 i, if_neg (by omega)]
      · intro h3
        omega
      · intro i hi
        have : (bufsz - 1).toNat < i := by omega
        rw [Function.update_noteq (by omega), hb2 i, if_neg (by omega)]
    · refine ⟨buffer, ?_, ?_, ?_, ?_, ?_⟩
      · simp only [stringid_str, hpage, if_true, hpp, hlen, hnc, h1, if_false, h2]
      · intro h3
        omega
      · intro h3
        omega
      · intro _
        rfl
      · intro i _
        rfl

theorem stringid_str_bounded_copy_witness :
    (0 : Nat) >>> 16 < frag_pool.pages ∧
    (frag_pool.p (0 >>> 16)).p = some frag_page ∧
    string_len frag_page (0 &&& 0xffff) = some 15 ∧ (0 : Int) ≤ 15 ∧
    string_continuous frag_page.header SECTIONS (0 &&& 0xffff) = some false ∧
    ∃ buf, stringid_str frag_pool 0 (fun _ => 7) 8 = some (str_ptr.in_buffer, buf, 15) ∧
      ((15 : Int) < 8 →
        (∀ i, i < (15 : Int).toNat → buf i = chain_byte frag_page (0 &&& 0xffff) i) ∧
        buf (15 : Int).toNat = 0 ∧ ∀ i, (15 : Int).toNat < i → buf i = (fun _ => 7) i) ∧
      ((0 : Int) < 8 → (8 : Int) ≤ 15 →
        (∀ i, i < ((8 : Int) - 1).toNat → buf i = chain_byte frag_page (0 &&& 0xffff) i) ∧
        buf ((8 : Int) - 1).toNat = 0 ∧
        ∀ i, ((8 : Int) - 1).toNat < i → buf i = (fun _ => 7) i) ∧
      ((8 : Int) ≤ 0 → buf = (fun _ => 7)) ∧
      (∀ i : Nat, (8 : Int) ≤ (i : Int) → buf i = (fun _ => 7) i) :=
  ⟨by decide, rfl, by decide, by decide, by decide,
    stringid_str_bounded_copy frag_pool 0 (fun _ => 7) 8 15 frag_page (by decide) rfl
      (by decide) (by decide) (by decide)⟩

/-! ## Pools without a release -/

theorem free_run_iterate (h : Nat → Nat) (f : Nat) (hf : free_run h f) :
    ∀ j, f ≤ h^[j] f ∧ h^[j] f ≤ 0xffff := by
  obtain ⟨h1, h2, h3⟩ := hf
  intro j
  induction j with
  | zero => exact ⟨le_refl _, h1⟩
  | succ j ih =>
    rw [Function.iterate_succ_apply']
    by_cases ht : h^[j] f < 0xffff
    · rw [h2 _ ih.1 ht]; omega
    · have : h^[j] f = 0xffff := by omega
      rw [this, h3]; omega

theorem free_run_contiguous (h : Nat → Nat) (f : Nat) (hf : free_run h f) : contiguous h f := by
  obtain ⟨h1, h2, h3⟩ := hf
  refine ⟨0xffff - f, by omega, fun i hi => h2 _ (by omega) (by omega), ?_⟩
  rw [show f + (0xffff - f) = 0xffff by omega]
  exact h3

/-- Turning one section into a terminal section keeps a contiguous chain
contiguous (it may cut it short). -/
theorem contiguous_cut (h : Nat → Nat) (a t : Nat) (hc : contiguous h a) :
    contiguous (fun x => if x = t then x else h x) a := by
  obtain ⟨n, h1, h2, h3⟩ := hc
  by_cases ht : a ≤ t ∧ t ≤ a + n
  · refine ⟨t - a, by omega, fun i hi => ?_, ?_⟩
    · simp only
      rw [if_neg (by omega)]
      exact h2 i (by omega)
    · simp only
      rw [if_pos (by omega)]
  · refine ⟨n, h1, fun i hi => ?_, ?_⟩
    · simp only
      rw [if_neg (by omega)]
      exact h2 i hi
    · simp only
      split_ifs <;> first | rfl | exact h3

theorem free_run_cut (h : Nat → Nat) (f t : Nat) (hf : free_run h f) (h1 : f ≤ t)
    (h2 : t ≤ 0xffff) : free_run (fun x => if x = t then x else h x) (h t) := by
  obtain ⟨g1, g2, g3⟩ := hf
  by_cases ht : t < 0xffff
  · rw [g2 t h1 ht]
    refine ⟨by omega, fun x hx hx2 => ?_, ?_⟩
    · simp only
      rw [if_neg (by omega)]
      exact g2 x (by omega) hx2
    · simp only
      rw [if_neg (by omega)]
      exact g3
  · have : t = 0xffff := by omega
    subst this
    rw [g3]
    refine ⟨by omega, fun x hx hx2 => by omega, ?_⟩
    simp

theorem create_loop_header : ∀ (fuel : Nat) (pp : stringid_page) (sec s : Nat) (str : List Nat)
    (r : stringid_page × Nat × Nat), create_loop fuel pp sec s str = some r →
    ∃ j, r.1.header = (fun x => if x = pp.header^[j] sec then x else pp.header x) ∧
      r.2.1 = pp.header (pp.header^[j] sec) := by
  intro fuel
  induction fuel with
  | zero => intro pp sec s str r h0; simp [create_loop] at h0
  | succ fuel ih =>
    intro pp sec s str r h0
    unfold create_loop at h0
    simp only at h0
    split_ifs at h0 with hl
    · simp only [Option.some.injEq] at h0
      subst h0
      refine ⟨1, ?_, ?_⟩
      · funext x
        simp only [set_header, create_pad_header, set_data_header, memcpy_to_header,
          Function.iterate_succ, Function.iterate_zero, Function.comp_apply, id_eq]
        split_ifs with hx
        · exact hx.symm
        · rfl
      · simp only [create_pad_header, set_data_header, memcpy_to_header,
          Function.iterate_succ, Function.iterate_zero, Function.comp_apply, id_eq]
    · obtain ⟨j, e1, e2⟩ := ih _ _ _ _ r h0
      simp only [memcpy_to_header] at e1 e2
      exact ⟨j + 1, by rw [Function.iterate_succ_apply]; exact e1,
        by rw [Function.iterate_succ_apply]; exact e2⟩

/-- What `stringid_create` does to the header and the free list head of the
page it picked, on any free list: one section `t` met along the free list
becomes a terminal section, and the free list goes on behind it. -/
theorem create_in_page_header (idx idx1 : stringid_index) (pp : stringid_page) (str : List Nat)
    (h0 : create_in_page idx pp str = some idx1) :
    ∃ pp1 j, idx1.p = some pp1 ∧
      pp1.header = (fun x => if x = pp.header^[j] idx.freelist then x else pp.header x) ∧
      idx1.freelist = pp.header (pp.header^[j] idx.freelist) := by
  unfold create_in_page at h0
  simp only at h0
  split_ifs at h0 with hl
  · simp only [Option.some.injEq] at h0
    subst h0
    refine ⟨_, 0, rfl, ?_, ?_⟩
    · funext x
      simp only [set_header, set_data_header, memcpy_to_header, Function.iterate_zero, id_eq]
      split_ifs with hx
      · exact hx.symm
      · rfl
    · simp only [set_data_header, memcpy_to_header, Function.iterate_zero, id_eq]
  · split at h0
    · cases h0
    · rename_i pp3 fl s hc
      simp only [Option.some.injEq] at h0
      subst h0
      obtain ⟨j, e1, e2⟩ := create_loop_header _ _ _ _ _ _ hc
      simp only [memcpy_to_header, set_data_header] at e1 e2
      exact ⟨pp3, j, rfl, e1, e2⟩

theorem clone_loop_header (sp : Option stringid_page) : ∀ (n : Nat) (dp : stringid_page)
    (dsec sec lastsec : Nat),
    (clone_loop sp n dp dsec sec lastsec).1.header = dp.header ∧
    (clone_loop sp n dp dsec sec lastsec).2.1 = dp.header^[n] dsec ∧
    (0 < n → (clone_loop sp n dp dsec sec lastsec).2.2 = dp.header^[n - 1] dsec) := by
  intro n
  induction n with
  | zero => intro dp dsec sec lastsec; exact ⟨rfl, rfl, fun h => absurd h (by omega)⟩
  | succ n ih =>
    intro dp dsec sec lastsec
    unfold clone_loop
    simp only
    obtain ⟨e1, e2, e3⟩ := ih (memcpy_section dp dsec
      ((match sp with | some q => q | none => dp).data sec)) (dp.header dsec)
      ((match sp with | some q => q | none => dp).header sec) dsec
    simp only [memcpy_section_header] at e1 e2 e3 ⊢
    refine ⟨e1, by rw [e2, Function.iterate_succ_apply], fun _ => ?_⟩
    by_cases hn : 0 < n
    · rw [e3 hn]
      obtain ⟨m, rfl⟩ : ∃ m, n = m + 1 := ⟨n - 1, by omega⟩
      simp only [Nat.add_sub_cancel, Function.iterate_succ_apply]
    · have : n = 0 := by omega
      subst this
      rfl

/-- In a pool without a release `find_page` either returns -1 or picks page
0, allocating it when the pool has no page yet; ids that named contiguous
chains before still do. -/
theorem find_page_fresh (S S1 : stringpool) (mem : stringid_page) (n : Nat) (i : Int)
    (hS : fresh S) (hf : find_page S mem n = some (S1, i)) (hi : 0 ≤ i) :
    i = 0 ∧ S1.pages = 1 ∧
    (∃ pp, (S1.p 0).p = some pp ∧ free_run pp.header (S1.p 0).freelist) ∧
    (∀ a, good_id S a → good_id S1 a) := by
  rcases hS with ⟨h0, hnone⟩ | ⟨h1, pp, hpp, hrun⟩
  · simp only [find_page, h0, find_page_loop, new_page, hnone, STRING_MAXPAGE, set_index_pages,
      Nat.lt_irrefl, Nat.zero_lt_succ, Nat.zero_add, gt_iff_lt, Nat.lt_one_iff, if_true,
      Option.some.injEq, Prod.mk.injEq, Nat.ofNat_pos, ↓reduceIte, Nat.cast_zero] at hf
    obtain ⟨rfl, rfl⟩ := hf
    refine ⟨rfl, rfl, ?_, fun a ha => absurd ha.1 (by rw [h0]; omega)⟩
    have hp : ((set_index S 0 (page_init mem)).p 0).p
        = some (padding_free (set_header (page_init_fill mem (0x10000 - 1)) 0xffff 0xffff)
            0xffff) := by
      simp [set_index, page_init]
    refine ⟨_, hp, ?_⟩
    have hh := page_init_header mem _ (show (page_init mem).p = some _ from rfl)
    refine ⟨by simp [set_index, page_init], fun x _ hx => ?_, ?_⟩
    · rw [hh x, if_pos hx]
    · rw [hh 0xffff]; simp
  · by_cases hroom : (n : Int) ≤ (S.p 0).freeslot
    · have := find_page_top S mem n 0 pp h1 hpp hroom
      rw [this] at hf
      simp only [Option.some.injEq, Prod.mk.injEq] at hf
      obtain ⟨rfl, rfl⟩ := hf
      exact ⟨rfl, h1, ⟨pp, hpp, hrun⟩, fun a ha => ha⟩
    · have := find_page_no_room S mem n (by omega) (fun j hj => by
        have : j = 0 := by omega
        subst this
        exact ⟨pp, hpp, by omega⟩)
      rw [this] at hf
      simp only [Option.some.injEq, Prod.mk.injEq] at hf
      omega

/-- Replacing page 0 of a one-page pool by a page whose header differs in one
new terminal section keeps the pool state of `fresh` and the ids good. -/
theorem fresh_cut (S : stringpool) (pp pp1 : stringid_page) (idx1 : stringid_index) (j : Nat)
    (h1 : S.pages = 1) (hpp : (S.p 0).p = some pp)
    (hrun : free_run pp.header (S.p 0).freelist)
    (hp1 : idx1.p = some pp1)
    (hh : pp1.header
      = (fun x => if x = pp.header^[j] (S.p 0).freelist then x else pp.header x))
    (hfl : idx1.freelist = pp.header (pp.header^[j] (S.p 0).freelist)) :
    fresh (set_index S 0 idx1) ∧
    good_id (set_index S 0 idx1) ((0 <<< 16) ||| (S.p 0).freelist) ∧
    (∀ a, good_id S a → good_id (set_index S 0 idx1) a) := by
  have hit := free_run_iterate pp.header _ hrun j
  refine ⟨Or.inr ⟨by simp [h1], pp1, by simp [hp1], ?_⟩, ?_, ?_⟩
  · simp only [set_index_p_same]
    rw [hh, hfl]
    exact free_run_cut pp.header _ _ hrun hit.1 hit.2
  · have hlt : (S.p 0).freelist < 0x10000 := by have := hrun.1; omega
    rw [good_id, id_page 0 _ hlt, id_sec 0 _ hlt]
    refine ⟨by simp [h1], pp1, by simp [hp1], ?_⟩
    rw [hh]
    exact contiguous_cut _ _ _ (free_run_contiguous _ _ hrun)
  · rintro a ⟨ha1, q, hq, hc⟩
    have ha0 : a >>> 16 = 0 := by omega
    rw [ha0, hpp] at hq
    simp only [Option.some.injEq] at hq
    subst hq
    refine ⟨by simpa using ha1, pp1, by rw [ha0]; simp [hp1], ?_⟩
    rw [hh]
    exact contiguous_cut _ _ _ hc

theorem create_fresh (S S1 : stringpool) (mem : stringid_page) (str : List Nat) (id : Nat)
    (hS : fresh S) (hc : stringid_create S mem str = some (S1, id)) :
    fresh S1 ∧ good_id S1 id ∧ (∀ a, good_id S a → good_id S1 a) := by
  unfold stringid_create at hc
  split at hc
  · cases hc
  · rename_i Sf pagei hf
    simp only at hc
    split_ifs at hc with hneg
    obtain ⟨rfl, hp1, ⟨pp, hpp, hrun⟩, hkeep⟩ := find_page_fresh S Sf mem _ pagei hS hf (by omega)
    simp only [Int.toNat_zero] at hc
    split at hc
    · cases hc
    · rename_i q hq
      rw [hpp] at hq
      simp only [Option.some.injEq] at hq
      subst hq
      split at hc
      · cases hc
      · rename_i idx1 hcr
        simp only [Option.some.injEq, Prod.mk.injEq] at hc
        obtain ⟨rfl, rfl⟩ := hc
        obtain ⟨pp1, j, e1, e2, e3⟩ := create_in_page_header _ _ _ _ hcr
        obtain ⟨g1, g2, g3⟩ := fresh_cut Sf pp pp1 idx1 j hp1 hpp hrun e1 e2 e3
        exact ⟨g1, g2, fun a ha => g3 a (hkeep a ha)⟩

theorem clone_fresh (S S1 : stringpool) (mem : stringid_page) (id rid : Nat)
    (hS : fresh S) (hc : stringid_clone S mem id = some (S1, rid)) :
    fresh S1 ∧ (clone_copies S id = true → good_id S1 rid) ∧
    (∀ a, good_id S a → good_id S1 a) := by
  unfold stringid_clone at hc
  simp only at hc
  split_ifs at hc with hpage
  rcases hS with ⟨h0, _⟩ | ⟨h1, pp, hpp, hrun⟩
  · omega
  have hp0 : id >>> 16 = 0 := by omega
  rw [hp0] at hc
  simp only [hpp] at hc
  split_ifs at hc with hcount
  · simp only [Option.some.injEq, Prod.mk.injEq] at hc
    obtain ⟨rfl, rfl⟩ := hc
    refine ⟨Or.inr ⟨by simp [h1], _, by rw [set_index_p_same], by simpa using hrun⟩, ?_, ?_⟩
    · intro hcp
      simp [clone_copies, hp0, hpp, hcount] at hcp
    · rintro a ⟨ha1, q, hq, hcg⟩
      have ha0 : a >>> 16 = 0 := by omega
      rw [ha0, hpp] at hq
      simp only [Option.some.injEq] at hq
      subst hq
      exact ⟨by simpa using ha1, _, by rw [ha0, set_index_p_same], by simpa using hcg⟩
  · split at hc
    · cases hc
    · rename_i n hn
      have hn1 : 1 ≤ n := by
        unfold count_slots_in_header at hn
        split at hn
        · cases hn
        · rename_i last m hw
          simp only [Option.some.injEq] at hn
          subst hn
          exact chain_walk_ge _ _ _ _ _ _ _ hw
      split at hc
      · cases hc
      · rename_i Sf dpagei hf
        by_cases hneg : dpagei < 0
        · rw [if_pos hneg] at hc
          cases hc
        rw [if_neg hneg] at hc
        obtain ⟨rfl, hp1, ⟨dp, hdp, hdrun⟩, hkeep⟩ :=
          find_page_fresh S Sf mem n dpagei (Or.inr ⟨h1, pp, hpp, hrun⟩) hf (by omega)
        simp only [Int.toNat_zero, hdp, if_true] at hc
        obtain ⟨c1, c2, c3⟩ := clone_loop_header none n dp
          (Sf.p 0).freelist (id &&& 0xffff) (Sf.p 0).freelist
        have c3 := c3 (by omega)
        generalize clone_loop none n dp (Sf.p 0).freelist (id &&& 0xffff) (Sf.p 0).freelist = r
          at hc c1 c2 c3
        obtain ⟨g1, g2, g3⟩ := fresh_cut Sf dp
          (set_data (set_data (set_header r.1 r.2.2 r.2.2) (Sf.p 0).freelist 0 0)
            (Sf.p 0).freelist 1 0)
          { freeslot := (Sf.p 0).freeslot - (n : Int), freelist := r.2.1,
            p := some (set_data (set_data (set_header r.1 r.2.2 r.2.2) (Sf.p 0).freelist 0 0)
              (Sf.p 0).freelist 1 0) }
          (n - 1) hp1 hdp hdrun rfl
          (by
            simp only [set_data_header, set_header, c1, c3]
            funext x
            split_ifs with hx
            · exact hx.symm
            · rfl)
          (by
            simp only [c2]
            rw [← Function.iterate_succ_apply' dp.header (n - 1)]
            congr 2
            omega)
        simp only [Option.some.injEq, Prod.mk.injEq] at hc
        obtain ⟨rfl, rfl⟩ := hc
        exact ⟨g1, fun _ => g2, fun a ha => g3 a (hkeep a ha)⟩

theorem run_ops_fresh : ∀ (ops : List pool_op) (S S1 : stringpool) (ids : List Nat),
    fresh S → run_ops ops S = some (S1, ids) →
    fresh S1 ∧ (∀ a, good_id S a → good_id S1 a) ∧ (∀ a ∈ ids, good_id S1 a) := by
  intro ops
  induction ops with
  | nil =>
    intro S S1 ids hS h0
    simp only [run_ops, Option.some.injEq, Prod.mk.injEq] at h0
    obtain ⟨rfl, rfl⟩ := h0
    exact ⟨hS, fun a ha => ha, fun a ha => by simp at ha⟩
  | cons op rest ih =>
    intro S S1 ids hS h0
    cases op with
    | create mem str =>
      unfold run_ops at h0
      split at h0
      · cases h0
      · rename_i r hr
        split at h0
        · cases h0
        · rename_i q hq
          simp only [Option.some.injEq, Prod.mk.injEq] at h0
          obtain ⟨rfl, rfl⟩ := h0
          obtain ⟨g1, g2, g3⟩ := create_fresh S r.1 mem str r.2 hS hr
          obtain ⟨k1, k2, k3⟩ := ih r.1 q.1 q.2 g1 hq
          refine ⟨k1, fun a ha => k2 a (g3 a ha), fun a ha => ?_⟩
          rcases List.mem_cons.1 ha with rfl | ha
          · exact k2 _ g2
          · exact k3 a ha
    | clone mem id =>
      unfold run_ops at h0
      split at h0
      · cases h0
      · rename_i r hr
        split at h0
        · cases h0
        · rename_i q hq
          simp only [Option.some.injEq, Prod.mk.injEq] at h0
          obtain ⟨rfl, rfl⟩ := h0
          obtain ⟨g1, g2, g3⟩ := clone_fresh S r.1 mem id r.2 hS hr
          obtain ⟨k1, k2, k3⟩ := ih r.1 q.1 q.2 g1 hq
          refine ⟨k1, fun a ha => k2 a (g3 a ha), fun a ha => ?_⟩
          by_cases hcp : clone_copies S id = true
          · rw [if_pos hcp] at ha
            rcases List.mem_cons.1 ha with rfl | ha
            · exact k2 _ (g2 hcp)
            · exact k3 a ha
          · rw [if_neg hcp] at ha
            exact k3 a ha

/-- C16.  In a pool that was made from a new pool by calls of
`stringid_create` and `stringid_clone` only, every id returned by a
`stringid_create` and by a `stringid_clone` that copied the chain names a
contiguous chain: `header[s] == s+1` for each of its `n` non-terminal
sections, `string_continuous` returns 1, and `stringid_str` returns the
pointer `&data[head][2]` of the page and leaves the caller's buffer as it
was. -/
theorem fresh_chains_contiguous (ops : List pool_op) (S : stringpool) (ids : List Nat)
    (id : Nat) (buffer : Nat → Nat) (bufsz : Int)
    (hrun : run_ops ops stringid_newpool = some (S, ids)) (hid : id ∈ ids) :
    ∃ pp n len, id >>> 16 < S.pages ∧ (S.p (id >>> 16)).p = some pp ∧
      (∀ i, i < n → pp.header ((id &&& 0xffff) + i) = (id &&& 0xffff) + i + 1) ∧
      pp.header ((id &&& 0xffff) + n) = (id &&& 0xffff) + n ∧
      string_continuous pp.header SECTIONS (id &&& 0xffff) = some true ∧
      stringid_str S id buffer bufsz
        = some (str_ptr.in_page (id >>> 16) (id &&& 0xffff) 2, buffer, len) := by
  obtain ⟨_, _, hgood⟩ := run_ops_fresh ops stringid_newpool S ids (Or.inl ⟨rfl, rfl⟩) hrun
  obtain ⟨hpage, pp, hpp, n, hn, hlink, hend⟩ := hgood id hid
  have hcont := string_continuous_spec pp.header n SECTIONS (id &&& 0xffff)
    (by simp only [SECTIONS]; omega) hlink hend
  have hit := iterate_run pp.header (id &&& 0xffff) n (fun x hx1 hx2 => by
    have := hlink (x - (id &&& 0xffff)) (by omega)
    rw [show (id &&& 0xffff) + (x - (id &&& 0xffff)) = x by omega] at this
    exact this)
  obtain ⟨len, hlen⟩ := string_len_isSome pp (id &&& 0xffff) n (by simp only [SECTIONS]; omega)
    (fun i hi => by rw [hit i (by omega), hlink i hi]; omega)
    (by rw [hit n (le_refl _)]; exact hend)
  refine ⟨pp, n, len, hpage, hpp, hlink, hend, hcont, ?_⟩
  simp only [stringid_str, hpage, if_true, hpp, hlen, hcont]

/-- A run of `k` clones on the fast path raises the stored refcount by `k`
and produces no chain. -/
theorem run_ops_clones (S : stringpool) (mem : stringid_page) (page sec : Nat)
    (pp : stringid_page) (rest : List pool_op) (hpage : page < S.pages) (hsec : sec < 0x10000)
    (hpp : (S.p page).p = some pp) : ∀ (k r : Nat), r + k ≤ 0xffff →
    run_ops (List.replicate k (pool_op.clone mem ((page <<< 16) ||| sec)) ++ rest)
        (with_refcount S page sec r)
      = run_ops rest (with_refcount S page sec (r + k)) := by
  intro k
  induction k with
  | zero => intro r _; rfl
  | succ k ih =>
    intro r hr
    have hcp : clone_copies (with_refcount S page sec r) ((page <<< 16) ||| sec) = false := by
      rw [with_refcount_eq S page sec r pp hpp]
      simp only [clone_copies, id_page page sec hsec, id_sec page sec hsec, set_index_p_same,
        get_set_number pp sec r (by omega)]
      simp only [Bool.not_eq_false', decide_eq_true_eq]
      omega
    rw [List.replicate_succ, List.cons_append, run_ops,
      clone_with_refcount S mem page sec r pp hpage hsec hpp (by omega)]
    simp only [hcp, ih (r + 1) (by omega), show r + 1 + k = r + (k + 1) by omega]
    cases run_ops rest (with_refcount S page sec (r + (k + 1))) <;> rfl

theorem run_ops_cons_create (S S1 : stringpool) (mem : stringid_page) (str : List Nat)
    (rest : List pool_op) (id : Nat) (q : stringpool × List Nat)
    (h1 : stringid_create S mem str = some (S1, id)) (h2 : run_ops rest S1 = some q) :
    run_ops (pool_op.create mem str :: rest) S = some (q.1, id :: q.2) := by
  rw [run_ops, h1]
  simp only [h2]

theorem run_ops_cons_clone (S S1 : stringpool) (mem : stringid_page) (id rid : Nat)
    (rest : List pool_op) (q : stringpool × List Nat)
    (h1 : stringid_clone S mem id = some (S1, rid)) (h2 : run_ops rest S1 = some q)
    (hcp : clone_copies S id = true) :
    run_ops (pool_op.clone mem id :: rest) S = some (q.1, rid :: q.2) := by
  rw [run_ops, h1]
  simp only [h2, hcp, if_true]

theorem fresh_chains_contiguous_witness :
    run_ops copy_ops stringid_newpool = some (copy_pool, [0, 3]) ∧ 3 ∈ [0, 3] ∧
    ∃ pp n len, 3 >>> 16 < copy_pool.pages ∧ (copy_pool.p (3 >>> 16)).p = some pp ∧
      (∀ i, i < n → pp.header ((3 &&& 0xffff) + i) = (3 &&& 0xffff) + i + 1) ∧
      pp.header ((3 &&& 0xffff) + n) = (3 &&& 0xffff) + n ∧
      string_continuous pp.header SECTIONS (3 &&& 0xffff) = some true ∧
      stringid_str copy_pool 3 (fun _ => 7) 8
        = some (str_ptr.in_page (3 >>> 16) (3 &&& 0xffff) 2, fun _ => 7, len) :=
  have hcreate : stringid_create stringid_newpool zero_mem abc26 = some (abc26_pool, 0) := by
    have h2 : (stringid_create stringid_newpool zero_mem abc26).map Prod.snd = some 0 := by
      decide
    unfold abc26_pool
    cases hr : stringid_create stringid_newpool zero_mem abc26 with
    | none => rw [hr] at h2; cases h2
    | some r =>
      rw [hr] at h2
      simp only [Option.map_some', Option.some.injEq] at h2
      simp only [Option.some.injEq]
      exact Prod.ext rfl h2
  have hclone : stringid_clone (with_refcount abc26_pool 0 0 0xffff) zero_mem 0
      = some (copy_pool, 3) := by
    have h2 : (stringid_clone (with_refcount abc26_pool 0 0 0xffff) zero_mem 0).map Prod.snd
        = some 3 := by decide
    unfold copy_pool
    cases hr : stringid_clone (with_refcount abc26_pool 0 0 0xffff) zero_mem 0 with
    | none => rw [hr] at h2; cases h2
    | some r =>
      rw [hr] at h2
      simp only [Option.map_some', Option.some.injEq] at h2
      simp only [Option.some.injEq]
      exact Prod.ext rfl h2
  have hpp : (abc26_pool.p 0).p = some abc26_page := rfl
  have hclones : run_ops
      (List.replicate 0xffff (pool_op.clone zero_mem 0) ++ [pool_op.clone zero_mem 0]) abc26_pool
      = run_ops [pool_op.clone zero_mem 0] (with_refcount abc26_pool 0 0 0xffff) := by
    have h := run_ops_clones abc26_pool zero_mem 0 0 abc26_page [pool_op.clone zero_mem 0]
      (by decide) (by decide) hpp 0xffff 0 (by decide)
    rw [with_refcount_zero abc26_pool 0 0 abc26_page hpp (by decide) (by decide)] at h
    exact h
  have hlast : run_ops [pool_op.clone zero_mem 0] (with_refcount abc26_pool 0 0 0xffff)
      = some (copy_pool, [3]) :=
    run_ops_cons_clone _ copy_pool zero_mem 0 3 [] (copy_pool, []) hclone rfl (by decide)
  have hrun : run_ops copy_ops stringid_newpool = some (copy_pool, [0, 3]) :=
    run_ops_cons_create stringid_newpool abc26_pool zero_mem abc26 _ 0 (copy_pool, [3]) hcreate
      (hclones.trans hlast)
  ⟨hrun, by decide,
    fresh_chains_contiguous copy_ops copy_pool [0, 3] 3 (fun _ => 7) 8 hrun (by decide)⟩

end stringid
